import Mathlib

/-!
# Dancing on ZDD (d3x): parent links, trace decoding, the hidden-node log
and the DP manager

Shallow embedding of the inline code of `dancing_on_zdd.h`,
`hidden_node_stack.h` and `dp_manager.h`. The members that the headers only
declare (`search`, `batch_cover`, `batch_uncover`, the constructors) are not
embedded.

* `uint32_t` values (`plink_t`, `count_t`, trace words) are natural numbers;
  the 32-bit packing of a parent link is written with an explicit `% 2 ^ 32`.
* `int32_t` values (node ids, checkpoint offsets) are integers; the narrowing
  of a `size_t` to `int32_t` is `toInt32`, the widening of an `int32_t` to
  `size_t` is `toSizeT` (LP64).
* `std::vector<T>` is `List T`, `push_back` appends at the end.
* An access outside a vector, `top`/`pop` on an empty container and a failing
  `assert` have no defined result: the embedded function returns `none`.
-/

/-! ## Machine integers -/

/-- Conversion of an integer value to `int32_t` (two's complement wrap). -/
def toInt32 (n : Int) : Int := (n + 2 ^ 31) % 2 ^ 32 - 2 ^ 31

/-- Conversion of an integer value to the 64-bit unsigned `size_t`. -/
def toSizeT (n : Int) : Int := n % 2 ^ 64

/-! ## Node cells and parent links (`dancing_on_zdd.h`) -/

/-- Flag bit of a parent link: the link is the virtual-root terminal edge. -/
def PLINK_IS_TERMINAL : Nat := 2

/-- Flag bit of a parent link: the link is the HI edge of its node. -/
def PLINK_IS_HI : Nat := 1

/-- Number of flag bits below the node id of a parent link. -/
def PLINK_ADDR_OFFSET : Nat := 2

/-- Node cell of the DanceDD structure (`struct Node`). -/
structure Node where
  hi : Int
  lo : Int
  up : Int
  down : Int
  parents_head : Nat
  parents_tail : Nat
  hi_next : Nat
  hi_prev : Nat
  lo_next : Nat
  lo_prev : Nat
  count_hi : Nat
  count_lo : Nat
  count_upper : Nat
  var : Nat
  padding : Nat
deriving DecidableEq, Repr

namespace Node

/-- Constructor `Node(var, hi, lo)`: links, counters and padding start at 0,
`up` and `down` at -1. -/
def mk3 (var : Nat) (hi lo : Int) : Node :=
  { hi := hi, lo := lo, up := -1, down := -1,
    parents_head := 0, parents_tail := 0,
    hi_next := 0, hi_prev := 0, lo_next := 0, lo_prev := 0,
    count_hi := 0, count_lo := 0, count_upper := 0,
    var := var, padding := 0 }

end Node

namespace ZddWithLinks

/-- Source `plink_is_hi`: `addr & PLINK_IS_HI` converted to `bool`. -/
def plink_is_hi (addr : Nat) : Bool := (addr &&& PLINK_IS_HI) != 0

/-- Source `plink_is_term`: `addr & PLINK_IS_TERMINAL` converted to `bool`. -/
def plink_is_term (addr : Nat) : Bool := (addr &&& PLINK_IS_TERMINAL) != 0

/-- Source `plink_node_id`: `addr >> PLINK_ADDR_OFFSET`. -/
def plink_node_id (addr : Nat) : Nat := addr >>> PLINK_ADDR_OFFSET

/-- Source `plink_set_prev` on the node table `table_`: both assertions must
pass and the addressed cell must exist; the field is selected by the tag of
`addr`, HI first, then TERMINAL, else LO. -/
def plink_set_prev (table_ : List Node) (addr val : Nat) : Option (List Node) :=
  if (addr &&& 3) = 3 then none
  else if (val &&& 3) = 3 then none
  else
    match table_[plink_node_id addr]? with
    | none => none
    | some node =>
      if plink_is_hi addr then
        some (table_.set (plink_node_id addr) { node with hi_prev := val })
      else if plink_is_term addr then
        some (table_.set (plink_node_id addr) { node with parents_tail := val })
      else
        some (table_.set (plink_node_id addr) { node with lo_prev := val })

/-- Source `plink_set_next` on the node table `table_`. -/
def plink_set_next (table_ : List Node) (addr val : Nat) : Option (List Node) :=
  if (addr &&& 3) = 3 then none
  else if (val &&& 3) = 3 then none
  else
    match table_[plink_node_id addr]? with
    | none => none
    | some node =>
      if plink_is_hi addr then
        some (table_.set (plink_node_id addr) { node with hi_next := val })
      else if plink_is_term addr then
        some (table_.set (plink_node_id addr) { node with parents_head := val })
      else
        some (table_.set (plink_node_id addr) { node with lo_next := val })

/-- Source `plink_get_prev` on the node table `table_`. -/
def plink_get_prev (table_ : List Node) (addr : Nat) : Option Nat :=
  if (addr &&& 3) = 3 then none
  else
    match table_[plink_node_id addr]? with
    | none => none
    | some node =>
      if plink_is_hi addr then some node.hi_prev
      else if plink_is_term addr then some node.parents_tail
      else some node.lo_prev

/-- Source `plink_get_next` on the node table `table_`. -/
def plink_get_next (table_ : List Node) (addr : Nat) : Option Nat :=
  if (addr &&& 3) = 3 then none
  else
    match table_[plink_node_id addr]? with
    | none => none
    | some node =>
      if plink_is_hi addr then some node.hi_next
      else if plink_is_term addr then some node.parents_head
      else some node.lo_next

/-- The call `choice.clear()` of `std::vector`: whatever the vector held, it
is empty afterwards. -/
def vector_clear (_choice : List Nat) : List Nat := []

/-- Source `trace2choice`: the buffer is cleared, then every trace word whose
low bit is set appends the variable of the cell `val >> 1`. The result is the
final content of `choice`. -/
def trace2choice (table_ : List Node) (trace : List Nat) (choice : List Nat) :
    Option (List Nat) :=
  let cleared : List Nat := vector_clear choice
  trace.foldlM
    (fun buf val =>
      if (val &&& 1) != 0 then
        match table_[val >>> 1]? with
        | none => none
        | some node => some (buf ++ [node.var])
      else some buf)
    cleared

/-- A stored link is legal when its two tag bits are not both set, which is
what the assertions of the link accessors test. -/
def legalLink (v : Nat) : Prop := (v &&& 3) ≠ 3

instance decidableLegalLink (v : Nat) : Decidable (legalLink v) := by
  unfold legalLink
  infer_instance

/-- None of the six link fields of the cell has both tag bits set. -/
def legalNode (node : Node) : Prop :=
  legalLink node.parents_head ∧ legalLink node.parents_tail
  ∧ legalLink node.hi_next ∧ legalLink node.hi_prev
  ∧ legalLink node.lo_next ∧ legalLink node.lo_prev

instance decidableLegalNode (node : Node) : Decidable (legalNode node) := by
  unfold legalNode
  infer_instance

/-- No link field of any cell of the table has both tag bits set. -/
def legalTags (table_ : List Node) : Prop := ∀ node ∈ table_, legalNode node

instance decidableLegalTags (table_ : List Node) : Decidable (legalTags table_) := by
  unfold legalTags
  infer_instance

end ZddWithLinks

/-- A node table with three cells whose link fields are pairwise different,
used to instantiate the statements on parent links. -/
def sampleTable : List Node :=
  [ { Node.mk3 3 (-1) (-2) with
        parents_head := 4, parents_tail := 8, hi_next := 12, hi_prev := 16,
        lo_next := 20, lo_prev := 24 },
    { Node.mk3 2 0 (-2) with
        parents_head := 5, parents_tail := 9, hi_next := 1, hi_prev := 0,
        lo_next := 6, lo_prev := 10 },
    { Node.mk3 1 1 0 with
        parents_head := 2, parents_tail := 2, hi_next := 4, hi_prev := 5,
        lo_next := 8, lo_prev := 9 } ]

/-! ## Hidden-node log (`hidden_node_stack.h`) -/

/-- Kind of a log entry (`enum class HideType`). -/
inductive HideType where
  | UpperZero
  | LowerZero
  | CoverUp
  | CoverDown
deriving DecidableEq, Repr

/-- Class `HiddenNodeStack`: `node_stack_` is the flat vector of entries (last
pushed entry last), `stack_start_positions_` the `std::stack<int32_t>` of
section offsets, written with its top first. -/
structure HiddenNodeStack where
  node_stack_ : List (Int × HideType)
  stack_start_positions_ : List Int
deriving DecidableEq, Repr

namespace HiddenNodeStack

/-- Source `top`: `*node_stack_.crbegin()`, undefined on an empty vector. -/
def top (s : HiddenNodeStack) : Option (Int × HideType) :=
  s.node_stack_.getLast?

/-- Source `pop`: `node_stack_.pop_back()`, undefined on an empty vector. -/
def pop (s : HiddenNodeStack) : Option HiddenNodeStack :=
  match s.node_stack_ with
  | [] => none
  | _ :: _ => some { s with node_stack_ := s.node_stack_.dropLast }

/-- Source `push_cover_down`. -/
def push_cover_down (s : HiddenNodeStack) (val : Int) : HiddenNodeStack :=
  { s with node_stack_ := s.node_stack_ ++ [(val, HideType.CoverDown)] }

/-- Source `push_cover_up`. -/
def push_cover_up (s : HiddenNodeStack) (val : Int) : HiddenNodeStack :=
  { s with node_stack_ := s.node_stack_ ++ [(val, HideType.CoverUp)] }

/-- Source `push_upperzero`. -/
def push_upperzero (s : HiddenNodeStack) (val : Int) : HiddenNodeStack :=
  { s with node_stack_ := s.node_stack_ ++ [(val, HideType.UpperZero)] }

/-- Source `push_lowerzero`. -/
def push_lowerzero (s : HiddenNodeStack) (val : Int) : HiddenNodeStack :=
  { s with node_stack_ := s.node_stack_ ++ [(val, HideType.LowerZero)] }

/-- The push of kind `k`: the one of the four `push_*` members that records
that kind. -/
def push_kind (s : HiddenNodeStack) (val : Int) : HideType → HiddenNodeStack
  | HideType.UpperZero => push_upperzero s val
  | HideType.LowerZero => push_lowerzero s val
  | HideType.CoverDown => push_cover_down s val
  | HideType.CoverUp => push_cover_up s val

/-- Source `is_empty`: `node_stack_.size() == stack_start_positions_.top()`;
the `int32_t` offset is converted to `size_t` for the comparison. Undefined
without a checkpoint. -/
def is_empty (s : HiddenNodeStack) : Option Bool :=
  match s.stack_start_positions_ with
  | [] => none
  | c :: _ => some (decide ((s.node_stack_.length : Int) = toSizeT c))

/-- Source `push_checkpoint`: the current size, narrowed to `int32_t`, is
pushed on the offset stack. -/
def push_checkpoint (s : HiddenNodeStack) : HiddenNodeStack :=
  { s with stack_start_positions_ :=
      toInt32 (s.node_stack_.length : Int) :: s.stack_start_positions_ }

/-- Source `reverse_current_stack`: `std::reverse` on the range from
`begin() + top()` to `end()`; defined when a checkpoint exists and its offset
lies inside the vector. -/
def reverse_current_stack (s : HiddenNodeStack) : Option HiddenNodeStack :=
  match s.stack_start_positions_ with
  | [] => none
  | c :: _ =>
    if 0 ≤ c ∧ c ≤ (s.node_stack_.length : Int) then
      some { s with node_stack_ :=
        s.node_stack_.take c.toNat ++ (s.node_stack_.drop c.toNat).reverse }
    else none

/-- Source `pop_checkpoint`: `assert(is_empty())`, then the offset stack is
popped. -/
def pop_checkpoint (s : HiddenNodeStack) : Option HiddenNodeStack :=
  match is_empty s with
  | some true => some { s with stack_start_positions_ := s.stack_start_positions_.tail }
  | _ => none

/-- One call on the log made between a checkpoint and its removal. -/
inductive LogOp where
  | push (val : Int) (kind : HideType)
  | pop
deriving DecidableEq, Repr

/-- Runs a sequence of `push_*` / `pop` calls, first call first. -/
def run : HiddenNodeStack → List LogOp → Option HiddenNodeStack
  | s, [] => some s
  | s, LogOp.push v k :: ops => run (push_kind s v k) ops
  | s, LogOp.pop :: ops =>
    match pop s with
    | none => none
    | some s1 => run s1 ops

/-- Number of pushes of a call sequence not yet popped, counted from `n`
pending ones; `none` when some `pop` finds nothing pending. -/
def pending : Nat → List LogOp → Option Nat
  | n, [] => some n
  | n, LogOp.push _ _ :: ops => pending (n + 1) ops
  | 0, LogOp.pop :: _ => none
  | n + 1, LogOp.pop :: ops => pending n ops

/-- One call made on the log by a cover after its `push_checkpoint`: a push
of some kind or the reversal of the current section. -/
inductive CoverOp where
  | push (val : Int) (kind : HideType)
  | reverse
deriving DecidableEq, Repr

/-- Runs a sequence of `push_*` / `reverse_current_stack` calls, first call
first. -/
def runCover : HiddenNodeStack → List CoverOp → Option HiddenNodeStack
  | s, [] => some s
  | s, CoverOp.push v k :: ops => runCover (push_kind s v k) ops
  | s, CoverOp.reverse :: ops =>
    match reverse_current_stack s with
    | none => none
    | some s1 => runCover s1 ops

/-- Entries of the current section after a sequence of cover calls, `X` being
the entries before: a push appends, a reversal reverses. -/
def sectionAfter : List (Int × HideType) → List CoverOp → List (Int × HideType)
  | X, [] => X
  | X, CoverOp.push v k :: ops => sectionAfter (X ++ [(v, k)]) ops
  | X, CoverOp.reverse :: ops => sectionAfter X.reverse ops

/-- The pushes of the entries `es`, in order. -/
def pushesOf (es : List (Int × HideType)) : List CoverOp :=
  es.map (fun e => CoverOp.push e.1 e.2)

/-- A log of `2 ^ 31` entries without checkpoint. -/
def hugeLog : HiddenNodeStack :=
  ⟨List.replicate (2 ^ 31) (0, HideType.UpperZero), []⟩

/-- Number of pushes in a sequence of cover calls. -/
def pushCount : List CoverOp → Nat
  | [] => 0
  | CoverOp.push _ _ :: ops => pushCount ops + 1
  | CoverOp.reverse :: ops => pushCount ops

/-- The unwinding loop `while (!is_empty()) { top(); pop(); }` run for at
most `fuel` iterations: the entries read by `top()`, first read first, and the
state in which `is_empty()` became true. -/
def unwind : Nat → HiddenNodeStack → Option (List (Int × HideType) × HiddenNodeStack)
  | 0, s =>
    match is_empty s with
    | some true => some ([], s)
    | _ => none
  | fuel + 1, s =>
    match is_empty s with
    | none => none
    | some true => some ([], s)
    | some false =>
      match top s, pop s with
      | some e, some s1 =>
        match unwind fuel s1 with
        | some r => some (e :: r.1, r.2)
        | none => none
      | _, _ => none

/-- Well-formedness of the log: a checkpoint exists, the checkpoint offsets
are non-decreasing from the bottom to the top of the checkpoint stack (the
list is written top first), and the top offset is at most the number of
entries. -/
def WellFormed (s : HiddenNodeStack) : Prop :=
  match s.stack_start_positions_ with
  | [] => False
  | c :: rest => c ≤ (s.node_stack_.length : Int) ∧ List.Sorted (fun a b => b ≤ a) (c :: rest)

instance decidableWellFormed (s : HiddenNodeStack) : Decidable (WellFormed s) := by
  unfold WellFormed
  split <;> infer_instance

/-- Every stored checkpoint offset is a non-negative `int32_t` value. -/
def NonnegOffsets (s : HiddenNodeStack) : Prop :=
  ∀ c ∈ s.stack_start_positions_, 0 ≤ c ∧ c < 2 ^ 31

/-- The log right after construction: no entry and no checkpoint. -/
def emptyLog : HiddenNodeStack := ⟨[], []⟩

/-- A log of `2 ^ 31` entries inside one section that starts at offset 0. -/
def hugeSection : HiddenNodeStack :=
  ⟨List.replicate (2 ^ 31) (0, HideType.UpperZero), [0]⟩

end HiddenNodeStack

/-! ## DP manager (`dp_manager.h`) -/

/-- Element `l[i]` of a vector for an `int32_t` index: a negative index is
converted to a huge `size_t` and lies outside every vector. -/
def getI {α : Type} (l : List α) (i : Int) : Option α :=
  if 0 ≤ i then l[i.toNat]? else none

/-- Assignment `l[i] = a` on a vector for an `int32_t` index, undefined
outside the vector. -/
def setI {α : Type} (l : List α) (i : Int) (a : α) : Option (List α) :=
  if 0 ≤ i ∧ i.toNat < l.length then some (l.set i.toNat a) else none

/-- Sum of two `int32_t` values; signed overflow is undefined. -/
def int32Add (a b : Int) : Option Int :=
  if -(2 ^ 31) ≤ a + b ∧ a + b < 2 ^ 31 then some (a + b) else none

/-- Greatest element of a non-empty queue content (0 on the empty list). -/
def pqMax : List Nat → Nat
  | [] => 0
  | [v] => v
  | v :: w :: rest => max v (pqMax (w :: rest))

/-- Least element of a non-empty queue content (0 on the empty list). -/
def pqMin : List Nat → Nat
  | [] => 0
  | [v] => v
  | v :: w :: rest => min v (pqMin (w :: rest))

/-- Class `DpManager`. The two `std::priority_queue<uint16_t>` members are
given by their content: `push` adds an element, `top` is the greatest element
of `upper_varorder_pq_` (comparator `std::less`) and the least element of
`lower_varorder_pq_` (comparator `std::greater`), `pop` removes one occurrence
of `top`. The vectors are sized by the constructor, whose body is not part of
the header. -/
structure DpManager where
  table_elems_ : List Int
  var_heads_ : List Int
  num_elems_ : List Int
  diff_counter_ : List Nat
  diff_counter_hi_ : List Nat
  entries_counter_ : Nat
  num_var_ : Nat
  var_cache_ : Int
  lower_varorder_pq_ : List Nat
  upper_varorder_pq_ : List Nat
deriving DecidableEq, Repr

namespace DpManager

/-- The append `table_elems_[var_heads_[var] + n] = node_id; num_elems_[var]++`
shared by the three `add_node_diff_count*` members, `n` being the value of
`num_elems_[var]` before the call. The index sum and the increment are
`int32_t` operations. -/
def append_elem (s : DpManager) (var : Nat) (node_id : Int) : Option (Int × DpManager) := do
  let n ← s.num_elems_[var]?
  let h ← s.var_heads_[var]?
  let i ← int32Add h n
  let te ← setI s.table_elems_ i node_id
  let n1 ← int32Add n 1
  some (n, { s with table_elems_ := te, num_elems_ := s.num_elems_.set var n1 })

/-- Source `add_node_diff_count`: the counter is increased first (a `count_t`
addition, modulo `2 ^ 32`); the node is taken for dirty when the new value
exceeds `count`. -/
def add_node_diff_count (s : DpManager) (var : Nat) (node_id : Int) (count : Nat) :
    Option DpManager := do
  let c ← getI s.diff_counter_ node_id
  let dc ← setI s.diff_counter_ node_id ((c + count) % 2 ^ 32)
  let s1 := { s with diff_counter_ := dc }
  if (c + count) % 2 ^ 32 > count then some s1
  else
    let (n, s2) ← append_elem s1 var node_id
    if n = 0 then some { s2 with lower_varorder_pq_ := var :: s2.lower_varorder_pq_ }
    else some s2

/-- Source `add_node_diff_count_high`. -/
def add_node_diff_count_high (s : DpManager) (var : Nat) (node_id : Int) (count : Nat) :
    Option DpManager := do
  let c ← getI s.diff_counter_ node_id
  let ch ← getI s.diff_counter_hi_ node_id
  let dch ← setI s.diff_counter_hi_ node_id ((ch + count) % 2 ^ 32)
  let s1 := { s with diff_counter_hi_ := dch }
  if c > 0 ∨ ch > 0 then some s1
  else
    let (n, s2) ← append_elem s1 var node_id
    if n + 1 = 1 then some { s2 with upper_varorder_pq_ := var :: s2.upper_varorder_pq_ }
    else some s2

/-- Source `add_node_diff_count_low`. -/
def add_node_diff_count_low (s : DpManager) (var : Nat) (node_id : Int) (count : Nat) :
    Option DpManager := do
  let c ← getI s.diff_counter_ node_id
  let ch ← getI s.diff_counter_hi_ node_id
  let dc ← setI s.diff_counter_ node_id ((c + count) % 2 ^ 32)
  let s1 := { s with diff_counter_ := dc }
  if c > 0 ∨ ch > 0 then some s1
  else
    let (n, s2) ← append_elem s1 var node_id
    if n + 1 = 1 then some { s2 with upper_varorder_pq_ := var :: s2.upper_varorder_pq_ }
    else some s2

/-- Source `at`: `table_elems_[var_heads_[var] + i]`. -/
def at_ (s : DpManager) (var : Nat) (i : Int) : Option Int := do
  let h ← s.var_heads_[var]?
  let k ← int32Add h i
  getI s.table_elems_ k

/-- Source `num_elems`. -/
def num_elems (s : DpManager) (var : Nat) : Option Int := s.num_elems_[var]?

/-- Source `count_at`. -/
def count_at (s : DpManager) (node_id : Int) : Option Nat := getI s.diff_counter_ node_id

/-- Source `low_count_at`. -/
def low_count_at (s : DpManager) (node_id : Int) : Option Nat := getI s.diff_counter_ node_id

/-- Source `high_count_at`. -/
def high_count_at (s : DpManager) (node_id : Int) : Option Nat :=
  getI s.diff_counter_hi_ node_id

/-- Source `get_count_and_clear`: the value read and the new state. -/
def get_count_and_clear (s : DpManager) (node_id : Int) : Option (Nat × DpManager) := do
  let c ← getI s.diff_counter_ node_id
  let dc ← setI s.diff_counter_ node_id 0
  some (c, { s with diff_counter_ := dc })

/-- Source `get_low_count_and_clear`. -/
def get_low_count_and_clear (s : DpManager) (node_id : Int) : Option (Nat × DpManager) := do
  let c ← getI s.diff_counter_ node_id
  let dc ← setI s.diff_counter_ node_id 0
  some (c, { s with diff_counter_ := dc })

/-- Source `get_high_count_and_clear`. -/
def get_high_count_and_clear (s : DpManager) (node_id : Int) : Option (Nat × DpManager) := do
  let c ← getI s.diff_counter_hi_ node_id
  let dch ← setI s.diff_counter_hi_ node_id 0
  some (c, { s with diff_counter_hi_ := dch })

/-- Source `clear_var_counter`. -/
def clear_var_counter (s : DpManager) (var : Nat) : Option DpManager :=
  if var < s.num_elems_.length then some { s with num_elems_ := s.num_elems_.set var 0 }
  else none

/-- Body of the loop of `clear_var_elems` for the indices `i`, `i + 1`, ...,
`k` iterations being left. -/
def clear_loop (s : DpManager) (var : Nat) :
    Nat → Int → List Nat → List Nat → Option (List Nat × List Nat)
  | 0, _, dc, dch => some (dc, dch)
  | k + 1, i, dc, dch => do
    let node_id ← at_ s var i
    let dc1 ← setI dc node_id 0
    let dch1 ← setI dch node_id 0
    clear_loop s var k (i + 1) dc1 dch1

/-- Source `clear_var_elems`: the loop runs while `i < num_elems_[var]`, the
bound being converted to `size_t`; a negative bound sends the loop outside the
table. -/
def clear_var_elems (s : DpManager) (var : Nat) : Option DpManager := do
  let n ← s.num_elems_[var]?
  if n < 0 then none
  else
    let (dc, dch) ← clear_loop s var n.toNat 0 s.diff_counter_ s.diff_counter_hi_
    some { s with diff_counter_ := dc, diff_counter_hi_ := dch,
                  num_elems_ := s.num_elems_.set var 0 }

/-- Source `upper_nonzero_var`: the value returned and the new state. -/
def upper_nonzero_var (s : DpManager) : Nat × DpManager :=
  match s.upper_varorder_pq_ with
  | [] => (0, s)
  | v :: rest =>
    (pqMax (v :: rest),
      { s with upper_varorder_pq_ := (v :: rest).erase (pqMax (v :: rest)) })

/-- Source `lower_nonzero_var`: the value returned and the new state. -/
def lower_nonzero_var (s : DpManager) : Nat × DpManager :=
  match s.lower_varorder_pq_ with
  | [] => (0, s)
  | v :: rest =>
    (pqMin (v :: rest),
      { s with lower_varorder_pq_ := (v :: rest).erase (pqMin (v :: rest)) })

/-- Source `add_upper_var`. -/
def add_upper_var (s : DpManager) (var : Nat) : DpManager :=
  { s with upper_varorder_pq_ := var :: s.upper_varorder_pq_ }

/-- Source `add_lower_var`. -/
def add_lower_var (s : DpManager) (var : Nat) : DpManager :=
  { s with lower_varorder_pq_ := var :: s.lower_varorder_pq_ }

/-- The bucket of `var`: the node ids that `at(var, 0)`, ...,
`at(var, num_elems(var) - 1)` return. -/
def bucket (s : DpManager) (var : Nat) : List Int :=
  match s.num_elems_[var]?, s.var_heads_[var]? with
  | some n, some h => (s.table_elems_.drop h.toNat).take n.toNat
  | _, _ => []

/-- The values returned by `k` successive calls of `upper_nonzero_var`, first
call first, and the state after them. -/
def drainUpper : Nat → DpManager → List Nat × DpManager
  | 0, s => ([], s)
  | k + 1, s =>
    ((upper_nonzero_var s).1 :: (drainUpper k (upper_nonzero_var s).2).1,
      (drainUpper k (upper_nonzero_var s).2).2)

/-- The values returned by `k` successive calls of `lower_nonzero_var`, first
call first, and the state after them. -/
def drainLower : Nat → DpManager → List Nat × DpManager
  | 0, s => ([], s)
  | k + 1, s =>
    ((lower_nonzero_var s).1 :: (drainLower k (lower_nonzero_var s).2).1,
      (drainLower k (lower_nonzero_var s).2).2)

/-- A manager for three nodes: nodes 0 and 1 carry variable 1, node 2 carries
variable 2; the bucket of variable 1 has room for two entries from offset
0, the bucket of variable 2 for one entry at offset 2. All counters are zero
and all buckets and queues are empty. -/
def sample : DpManager :=
  { table_elems_ := [0, 0, 0], var_heads_ := [0, 0, 2], num_elems_ := [0, 0, 0],
    diff_counter_ := [0, 0, 0], diff_counter_hi_ := [0, 0, 0],
    entries_counter_ := 0, num_var_ := 2, var_cache_ := 0,
    lower_varorder_pq_ := [], upper_varorder_pq_ := [] }

/-- The sample state with node 2 stored in the bucket of variable 2, which
ends where the table ends, and the counter 3 for node 2: the node is not
clean and no slot is free behind its bucket. -/
def sampleFull : DpManager :=
  { sample with
    table_elems_ := [0, 0, 2], num_elems_ := [0, 0, 1], diff_counter_ := [0, 0, 3] }

/-- A sequence of `add_node_diff_count(var, id, d)` calls, each given as
`(var, id, d)`, run first call first. -/
def runAdds : DpManager → List (Nat × Nat × Nat) → Option DpManager
  | s, [] => some s
  | s, c :: cs =>
    match add_node_diff_count s c.1 (c.2.1 : Int) c.2.2 with
    | none => none
    | some s1 => runAdds s1 cs

/-- Sum of the deltas that the calls `cs` give for node `id`. -/
def sumFor (cs : List (Nat × Nat × Nat)) (id : Nat) : Nat :=
  ((cs.filter (fun c => c.2.1 = id)).map (fun c => c.2.2)).sum

/-- Node ids that the calls `cs` pass with variable `v`. -/
def idsOf (cs : List (Nat × Nat × Nat)) (v : Nat) : List Int :=
  (cs.filter (fun c => c.1 = v)).map (fun c => (c.2.1 : Int))

/-- Layout of the buckets, which the constructor fixes: every variable has a
head offset and a counter, the bucket of `v` has room for `cap v` entries
inside `table_elems_`, and the rooms of two variables do not overlap. -/
def Layout (s : DpManager) (cap : Nat → Nat) : Prop :=
  s.var_heads_.length = s.num_elems_.length
  ∧ (∀ (v : Nat) (h : Int), s.var_heads_[v]? = some h →
      0 ≤ h ∧ h.toNat + cap v ≤ s.table_elems_.length ∧ h + cap v < 2 ^ 31)
  ∧ (∀ (v w : Nat) (hv hw : Int), v ≠ w → s.var_heads_[v]? = some hv → s.var_heads_[w]? = some hw →
      hv.toNat + cap v ≤ hw.toNat ∨ hw.toNat + cap w ≤ hv.toNat)

/-- State reached from `s0` by the calls `pre`: the vectors keep their sizes,
every counter holds the sum of the deltas given for its node, and every bucket
holds, without repetition, the node ids passed with its variable. -/
def AddInv (s0 : DpManager) (cap : Nat → Nat) (s : DpManager)
    (pre : List (Nat × Nat × Nat)) : Prop :=
  s.var_heads_ = s0.var_heads_
  ∧ s.table_elems_.length = s0.table_elems_.length
  ∧ s.num_elems_.length = s0.num_elems_.length
  ∧ s.diff_counter_.length = s0.diff_counter_.length
  ∧ (∀ j, j < s0.diff_counter_.length → s.diff_counter_[j]? = some (sumFor pre j))
  ∧ (∀ v, v < s0.num_elems_.length →
      s.num_elems_[v]? = some (((bucket s v).length : Nat) : Int)
      ∧ (bucket s v).length ≤ cap v
      ∧ (bucket s v).Nodup
      ∧ (∀ x, x ∈ bucket s v ↔ x ∈ idsOf pre v))

end DpManager

/-! ## Arithmetic reading of the tag bits -/

theorem and_three_eq_mod (p : Nat) : p &&& 3 = p % 4 := by
  have h := Nat.and_pow_two_sub_one_eq_mod p 2
  simpa using h

theorem and_two_ne_zero_iff (p : Nat) : (p &&& 2 ≠ 0) ↔ (p % 4 = 2 ∨ p % 4 = 3) := by
  have h := Nat.and_two_pow p 1
  simp at h
  rw [h, Nat.testBit]
  simp [Nat.shiftRight_eq_div_pow]
  omega

theorem plink_is_hi_iff (p : Nat) :
    ZddWithLinks.plink_is_hi p = true ↔ (p % 4 = 1 ∨ p % 4 = 3) := by
  simp [ZddWithLinks.plink_is_hi, PLINK_IS_HI, Nat.and_one_is_mod]
  omega

theorem plink_is_term_iff (p : Nat) :
    ZddWithLinks.plink_is_term p = true ↔ (p % 4 = 2 ∨ p % 4 = 3) := by
  have h := and_two_ne_zero_iff p
  simpa [ZddWithLinks.plink_is_term, PLINK_IS_TERMINAL] using h

theorem plink_node_id_eq_div (p : Nat) : ZddWithLinks.plink_node_id p = p / 4 := by
  simp [ZddWithLinks.plink_node_id, PLINK_ADDR_OFFSET, Nat.shiftRight_eq_div_pow]

theorem pack_eq (i t : Nat) (ht : t < 4) : (i <<< 2) ||| t = 4 * i + t := by
  have h := Nat.mul_add_lt_is_or (i := 2) (b := t) (by simpa using ht) i
  rw [Nat.shiftLeft_eq, Nat.mul_comm]
  simpa using h.symm

theorem get_prev_arith (t : List Node) (q : Nat) :
    ZddWithLinks.plink_get_prev t q =
      if q % 4 = 3 then none
      else (t[q / 4]?).map (fun node =>
        if q % 4 = 1 then node.hi_prev
        else if q % 4 = 2 then node.parents_tail else node.lo_prev) := by
  simp only [ZddWithLinks.plink_get_prev, and_three_eq_mod, plink_node_id_eq_div,
    plink_is_hi_iff, plink_is_term_iff]
  by_cases h3 : q % 4 = 3
  · simp [h3]
  · cases hc : t[q / 4]? with
    | none => simp [h3]
    | some node =>
      simp only [h3, if_false, Option.map_some', or_false]
      split_ifs <;> rfl

theorem get_next_arith (t : List Node) (q : Nat) :
    ZddWithLinks.plink_get_next t q =
      if q % 4 = 3 then none
      else (t[q / 4]?).map (fun node =>
        if q % 4 = 1 then node.hi_next
        else if q % 4 = 2 then node.parents_head else node.lo_next) := by
  simp only [ZddWithLinks.plink_get_next, and_three_eq_mod, plink_node_id_eq_div,
    plink_is_hi_iff, plink_is_term_iff]
  by_cases h3 : q % 4 = 3
  · simp [h3]
  · cases hc : t[q / 4]? with
    | none => simp [h3]
    | some node =>
      simp only [h3, if_false, Option.map_some', or_false]
      split_ifs <;> rfl

theorem set_prev_arith (t : List Node) (p v : Nat) :
    ZddWithLinks.plink_set_prev t p v =
      if p % 4 = 3 then none
      else if v % 4 = 3 then none
      else (t[p / 4]?).map (fun node => t.set (p / 4)
        (if p % 4 = 1 then { node with hi_prev := v }
         else if p % 4 = 2 then { node with parents_tail := v }
         else { node with lo_prev := v })) := by
  simp only [ZddWithLinks.plink_set_prev, and_three_eq_mod, plink_node_id_eq_div,
    plink_is_hi_iff, plink_is_term_iff]
  by_cases h3 : p % 4 = 3
  · simp [h3]
  · by_cases hv : v % 4 = 3
    · simp [h3, hv]
    · cases hc : t[p / 4]? with
      | none => simp [h3, hv]
      | some node =>
        simp only [h3, hv, if_false, Option.map_some', or_false]
        split_ifs <;> rfl

theorem set_next_arith (t : List Node) (p v : Nat) :
    ZddWithLinks.plink_set_next t p v =
      if p % 4 = 3 then none
      else if v % 4 = 3 then none
      else (t[p / 4]?).map (fun node => t.set (p / 4)
        (if p % 4 = 1 then { node with hi_next := v }
         else if p % 4 = 2 then { node with parents_head := v }
         else { node with lo_next := v })) := by
  simp only [ZddWithLinks.plink_set_next, and_three_eq_mod, plink_node_id_eq_div,
    plink_is_hi_iff, plink_is_term_iff]
  by_cases h3 : p % 4 = 3
  · simp [h3]
  · by_cases hv : v % 4 = 3
    · simp [h3, hv]
    · cases hc : t[p / 4]? with
      | none => simp [h3, hv]
      | some node =>
        simp only [h3, hv, if_false, Option.map_some', or_false]
        split_ifs <;> rfl

/-! ## C3: decoding of a packed parent link -/

/-- C3. For every node id `i < 2^30` and every legal tag `t` (LO = 0, HI = 1,
TERMINAL = 2) the 32-bit link `p = (i << 2) | t` decodes to node id `i`, is
recognised as HI exactly when `t = 1` and as TERMINAL exactly when `t = 2`;
the packing is injective on legal pairs and at most one of the two flags
holds. -/
theorem plink_decode (i t : Nat) (hi : i < 2 ^ 30) (ht : t = 0 ∨ t = 1 ∨ t = 2) :
    ZddWithLinks.plink_node_id (((i <<< 2) ||| t) % 2 ^ 32) = i
    ∧ (ZddWithLinks.plink_is_hi (((i <<< 2) ||| t) % 2 ^ 32) = true ↔ t = 1)
    ∧ (ZddWithLinks.plink_is_term (((i <<< 2) ||| t) % 2 ^ 32) = true ↔ t = 2)
    ∧ (∀ j u : Nat, j < 2 ^ 30 → (u = 0 ∨ u = 1 ∨ u = 2) →
        ((j <<< 2) ||| u) % 2 ^ 32 = ((i <<< 2) ||| t) % 2 ^ 32 → j = i ∧ u = t)
    ∧ ¬ (ZddWithLinks.plink_is_hi (((i <<< 2) ||| t) % 2 ^ 32) = true
          ∧ ZddWithLinks.plink_is_term (((i <<< 2) ||| t) % 2 ^ 32) = true) := by
  have ht4 : t < 4 := by omega
  have hp : ((i <<< 2) ||| t) % 2 ^ 32 = 4 * i + t := by
    rw [pack_eq i t ht4]
    apply Nat.mod_eq_of_lt
    omega
  rw [hp, plink_node_id_eq_div, plink_is_hi_iff, plink_is_term_iff]
  refine ⟨by omega, by omega, by omega, ?_, by omega⟩
  intro j u hj hu h
  have hq : ((j <<< 2) ||| u) % 2 ^ 32 = 4 * j + u := by
    rw [pack_eq j u (by omega)]
    apply Nat.mod_eq_of_lt
    omega
  rw [hq] at h
  omega

/-- Instance of C3 at node id 5 with the HI tag. -/
theorem plink_decode_witness :
    ZddWithLinks.plink_node_id (((5 <<< 2) ||| 1) % 2 ^ 32) = 5
    ∧ (ZddWithLinks.plink_is_hi (((5 <<< 2) ||| 1) % 2 ^ 32) = true ↔ 1 = 1)
    ∧ (ZddWithLinks.plink_is_term (((5 <<< 2) ||| 1) % 2 ^ 32) = true ↔ 1 = 2)
    ∧ (∀ j u : Nat, j < 2 ^ 30 → (u = 0 ∨ u = 1 ∨ u = 2) →
        ((j <<< 2) ||| u) % 2 ^ 32 = ((5 <<< 2) ||| 1) % 2 ^ 32 → j = 5 ∧ u = 1)
    ∧ ¬ (ZddWithLinks.plink_is_hi (((5 <<< 2) ||| 1) % 2 ^ 32) = true
          ∧ ZddWithLinks.plink_is_term (((5 <<< 2) ||| 1) % 2 ^ 32) = true) :=
  plink_decode 5 1 (by decide) (by decide)

/-! ## C4: tag dispatch of the getters -/

/-- C4. For every table and every link `p` whose tag is not 11 and whose node
id `n = p / 4` indexes the table, `plink_get_prev` returns `hi_prev`,
`parents_tail` or `lo_prev` of cell `n` for the HI, TERMINAL and LO tag, and
`plink_get_next` returns `hi_next`, `parents_head` or `lo_next`. -/
theorem plink_get_dispatch (table_ : List Node) (p : Nat) (htag : p % 4 ≠ 3)
    (hn : p / 4 < table_.length) :
    ZddWithLinks.plink_node_id p = p / 4
    ∧ (p % 4 = 1 →
        ZddWithLinks.plink_get_prev table_ p = some (table_.get ⟨p / 4, hn⟩).hi_prev
        ∧ ZddWithLinks.plink_get_next table_ p = some (table_.get ⟨p / 4, hn⟩).hi_next)
    ∧ (p % 4 = 2 →
        ZddWithLinks.plink_get_prev table_ p = some (table_.get ⟨p / 4, hn⟩).parents_tail
        ∧ ZddWithLinks.plink_get_next table_ p = some (table_.get ⟨p / 4, hn⟩).parents_head)
    ∧ (p % 4 = 0 →
        ZddWithLinks.plink_get_prev table_ p = some (table_.get ⟨p / 4, hn⟩).lo_prev
        ∧ ZddWithLinks.plink_get_next table_ p = some (table_.get ⟨p / 4, hn⟩).lo_next) := by
  have hcell : table_[ZddWithLinks.plink_node_id p]? = some (table_.get ⟨p / 4, hn⟩) := by
    rw [plink_node_id_eq_div]
    exact List.getElem?_eq_getElem hn
  have h3 : ¬ (p &&& 3 = 3) := by rw [and_three_eq_mod]; exact htag
  refine ⟨plink_node_id_eq_div p, ?_, ?_, ?_⟩
  · intro h1
    have hh : ZddWithLinks.plink_is_hi p = true := (plink_is_hi_iff p).2 (Or.inl h1)
    simp [ZddWithLinks.plink_get_prev, ZddWithLinks.plink_get_next, h3, hcell, hh]
  · intro h2
    have hh : ZddWithLinks.plink_is_hi p = false := by
      rw [← Bool.not_eq_true, plink_is_hi_iff]; omega
    have ht : ZddWithLinks.plink_is_term p = true := (plink_is_term_iff p).2 (Or.inl h2)
    simp [ZddWithLinks.plink_get_prev, ZddWithLinks.plink_get_next, h3, hcell, hh, ht]
  · intro h0
    have hh : ZddWithLinks.plink_is_hi p = false := by
      rw [← Bool.not_eq_true, plink_is_hi_iff]; omega
    have ht : ZddWithLinks.plink_is_term p = false := by
      rw [← Bool.not_eq_true, plink_is_term_iff]; omega
    simp [ZddWithLinks.plink_get_prev, ZddWithLinks.plink_get_next, h3, hcell, hh, ht]

/-- Instance of C4 on `sampleTable` at the HI link of cell 2. -/
theorem plink_get_dispatch_witness :
    ZddWithLinks.plink_node_id 9 = 9 / 4
    ∧ (9 % 4 = 1 →
        ZddWithLinks.plink_get_prev sampleTable 9 = some (sampleTable.get ⟨9 / 4, by decide⟩).hi_prev
        ∧ ZddWithLinks.plink_get_next sampleTable 9 = some (sampleTable.get ⟨9 / 4, by decide⟩).hi_next)
    ∧ (9 % 4 = 2 →
        ZddWithLinks.plink_get_prev sampleTable 9 = some (sampleTable.get ⟨9 / 4, by decide⟩).parents_tail
        ∧ ZddWithLinks.plink_get_next sampleTable 9 = some (sampleTable.get ⟨9 / 4, by decide⟩).parents_head)
    ∧ (9 % 4 = 0 →
        ZddWithLinks.plink_get_prev sampleTable 9 = some (sampleTable.get ⟨9 / 4, by decide⟩).lo_prev
        ∧ ZddWithLinks.plink_get_next sampleTable 9 = some (sampleTable.get ⟨9 / 4, by decide⟩).lo_next) :=
  plink_get_dispatch sampleTable 9 (by decide) (by decide)

/-! ## C5: a set followed by the matching get -/

/-- C5. For every table, every link `p` with tag other than 11 whose node id
indexes the table and every value `v` with tag other than 11,
`plink_set_prev(p, v)` succeeds and `plink_get_prev(p)` on the new table
returns `v`; likewise for `plink_set_next` and `plink_get_next`. -/
theorem plink_set_get (table_ : List Node) (p v : Nat) (hp : p % 4 ≠ 3)
    (hn : p / 4 < table_.length) (hv : v % 4 ≠ 3) :
    (∃ t1, ZddWithLinks.plink_set_prev table_ p v = some t1
        ∧ ZddWithLinks.plink_get_prev t1 p = some v)
    ∧ (∃ t2, ZddWithLinks.plink_set_next table_ p v = some t2
        ∧ ZddWithLinks.plink_get_next t2 p = some v) := by
  have hcell : table_[p / 4]? = some (table_.get ⟨p / 4, hn⟩) :=
    List.getElem?_eq_getElem hn
  have hs1 := set_prev_arith table_ p v
  have hs2 := set_next_arith table_ p v
  rw [if_neg hp, if_neg hv, hcell, Option.map_some'] at hs1 hs2
  constructor
  · refine ⟨_, hs1, ?_⟩
    rw [get_prev_arith, if_neg hp, List.getElem?_set_self (by simpa using hn)]
    simp only [Option.map_some']
    split_ifs <;> rfl
  · refine ⟨_, hs2, ?_⟩
    rw [get_next_arith, if_neg hp, List.getElem?_set_self (by simpa using hn)]
    simp only [Option.map_some']
    split_ifs <;> rfl

/-- Instance of C5 on `sampleTable`: the LO link of cell 1 receives the HI
link of cell 2. -/
theorem plink_set_get_witness :
    (∃ t1, ZddWithLinks.plink_set_prev sampleTable 4 9 = some t1
        ∧ ZddWithLinks.plink_get_prev t1 4 = some 9)
    ∧ (∃ t2, ZddWithLinks.plink_set_next sampleTable 4 9 = some t2
        ∧ ZddWithLinks.plink_get_next t2 4 = some 9) :=
  plink_set_get sampleTable 4 9 (by decide) (by decide) (by decide)

/-! ## C6: frame of the setters -/

/-- C6. For every table and links `p`, `v` with tags other than 11 (the node
id of `p` indexing the table), `plink_set_prev(p, v)` keeps the table length,
leaves every cell other than `p / 4` unchanged and replaces in cell `p / 4`
exactly the field selected by the tag of `p` (`hi_prev`, `parents_tail` or
`lo_prev`); hence `plink_get_prev(q)` is unchanged for every legal `q ≠ p` and
`plink_get_next(q)` for every legal `q`. The symmetric statement holds for
`plink_set_next` with `hi_next`, `parents_head`, `lo_next`. -/
theorem plink_set_frame (table_ : List Node) (p v : Nat) (hp : p % 4 ≠ 3)
    (hn : p / 4 < table_.length) (hv : v % 4 ≠ 3) :
    (∃ t1, ZddWithLinks.plink_set_prev table_ p v = some t1
      ∧ t1.length = table_.length
      ∧ (∀ m, m ≠ ZddWithLinks.plink_node_id p → t1[m]? = table_[m]?)
      ∧ t1[ZddWithLinks.plink_node_id p]? = some
          (if p % 4 = 1 then { table_.get ⟨p / 4, hn⟩ with hi_prev := v }
           else if p % 4 = 2 then { table_.get ⟨p / 4, hn⟩ with parents_tail := v }
           else { table_.get ⟨p / 4, hn⟩ with lo_prev := v })
      ∧ (∀ q, q % 4 ≠ 3 → q ≠ p →
          ZddWithLinks.plink_get_prev t1 q = ZddWithLinks.plink_get_prev table_ q)
      ∧ (∀ q, q % 4 ≠ 3 →
          ZddWithLinks.plink_get_next t1 q = ZddWithLinks.plink_get_next table_ q))
    ∧ (∃ t2, ZddWithLinks.plink_set_next table_ p v = some t2
      ∧ t2.length = table_.length
      ∧ (∀ m, m ≠ ZddWithLinks.plink_node_id p → t2[m]? = table_[m]?)
      ∧ t2[ZddWithLinks.plink_node_id p]? = some
          (if p % 4 = 1 then { table_.get ⟨p / 4, hn⟩ with hi_next := v }
           else if p % 4 = 2 then { table_.get ⟨p / 4, hn⟩ with parents_head := v }
           else { table_.get ⟨p / 4, hn⟩ with lo_next := v })
      ∧ (∀ q, q % 4 ≠ 3 → q ≠ p →
          ZddWithLinks.plink_get_next t2 q = ZddWithLinks.plink_get_next table_ q)
      ∧ (∀ q, q % 4 ≠ 3 →
          ZddWithLinks.plink_get_prev t2 q = ZddWithLinks.plink_get_prev table_ q)) := by
  have hcell : table_[p / 4]? = some (table_.get ⟨p / 4, hn⟩) :=
    List.getElem?_eq_getElem hn
  have hs1 := set_prev_arith table_ p v
  have hs2 := set_next_arith table_ p v
  rw [if_neg hp, if_neg hv, hcell, Option.map_some'] at hs1 hs2
  rw [plink_node_id_eq_div]
  constructor
  · refine ⟨_, hs1, by simp, ?_, ?_, ?_, ?_⟩
    · intro m hm
      exact List.getElem?_set_ne (Ne.symm hm)
    · exact List.getElem?_set_self (by simpa using hn)
    · intro q hq hqp
      rw [get_prev_arith, get_prev_arith, if_neg hq, if_neg hq]
      by_cases hd : q / 4 = p / 4
      · rw [hd, List.getElem?_set_self (by simpa using hn), hcell]
        simp only [Option.map_some']
        split_ifs <;> first | rfl | omega
      · rw [List.getElem?_set_ne (Ne.symm hd)]
    · intro q hq
      rw [get_next_arith, get_next_arith, if_neg hq, if_neg hq]
      by_cases hd : q / 4 = p / 4
      · rw [hd, List.getElem?_set_self (by simpa using hn), hcell]
        simp only [Option.map_some']
        split_ifs <;> rfl
      · rw [List.getElem?_set_ne (Ne.symm hd)]
  · refine ⟨_, hs2, by simp, ?_, ?_, ?_, ?_⟩
    · intro m hm
      exact List.getElem?_set_ne (Ne.symm hm)
    · exact List.getElem?_set_self (by simpa using hn)
    · intro q hq hqp
      rw [get_next_arith, get_next_arith, if_neg hq, if_neg hq]
      by_cases hd : q / 4 = p / 4
      · rw [hd, List.getElem?_set_self (by simpa using hn), hcell]
        simp only [Option.map_some']
        split_ifs <;> first | rfl | omega
      · rw [List.getElem?_set_ne (Ne.symm hd)]
    · intro q hq
      rw [get_prev_arith, get_prev_arith, if_neg hq, if_neg hq]
      by_cases hd : q / 4 = p / 4
      · rw [hd, List.getElem?_set_self (by simpa using hn), hcell]
        simp only [Option.map_some']
        split_ifs <;> rfl
      · rw [List.getElem?_set_ne (Ne.symm hd)]

/-- Instance of C6 on `sampleTable`: the TERMINAL link of cell 1 receives the
LO link of cell 2. -/
theorem plink_set_frame_witness :
    (∃ t1, ZddWithLinks.plink_set_prev sampleTable 6 8 = some t1
      ∧ t1.length = sampleTable.length
      ∧ (∀ m, m ≠ ZddWithLinks.plink_node_id 6 → t1[m]? = sampleTable[m]?)
      ∧ t1[ZddWithLinks.plink_node_id 6]? = some
          (if 6 % 4 = 1 then { sampleTable.get ⟨6 / 4, by decide⟩ with hi_prev := 8 }
           else if 6 % 4 = 2 then { sampleTable.get ⟨6 / 4, by decide⟩ with parents_tail := 8 }
           else { sampleTable.get ⟨6 / 4, by decide⟩ with lo_prev := 8 })
      ∧ (∀ q, q % 4 ≠ 3 → q ≠ 6 →
          ZddWithLinks.plink_get_prev t1 q = ZddWithLinks.plink_get_prev sampleTable q)
      ∧ (∀ q, q % 4 ≠ 3 →
          ZddWithLinks.plink_get_next t1 q = ZddWithLinks.plink_get_next sampleTable q))
    ∧ (∃ t2, ZddWithLinks.plink_set_next sampleTable 6 8 = some t2
      ∧ t2.length = sampleTable.length
      ∧ (∀ m, m ≠ ZddWithLinks.plink_node_id 6 → t2[m]? = sampleTable[m]?)
      ∧ t2[ZddWithLinks.plink_node_id 6]? = some
          (if 6 % 4 = 1 then { sampleTable.get ⟨6 / 4, by decide⟩ with hi_next := 8 }
           else if 6 % 4 = 2 then { sampleTable.get ⟨6 / 4, by decide⟩ with parents_head := 8 }
           else { sampleTable.get ⟨6 / 4, by decide⟩ with lo_next := 8 })
      ∧ (∀ q, q % 4 ≠ 3 → q ≠ 6 →
          ZddWithLinks.plink_get_next t2 q = ZddWithLinks.plink_get_next sampleTable q)
      ∧ (∀ q, q % 4 ≠ 3 →
          ZddWithLinks.plink_get_prev t2 q = ZddWithLinks.plink_get_prev sampleTable q)) :=
  plink_set_frame sampleTable 6 8 (by decide) (by decide) (by decide)

/-! ## C7: decoding of a trace -/

theorem trace2choice_fold (table_ : List Node) (trace : List Nat)
    (h : ∀ w ∈ trace, w / 2 < table_.length) (buf : List Nat) :
    trace.foldlM
      (fun buf val =>
        if (val &&& 1) != 0 then
          match table_[val >>> 1]? with
          | none => none
          | some node => some (buf ++ [node.var])
        else some buf)
      buf
    = some (buf ++ (trace.filter (fun w => w % 2 = 1)).map
        (fun w => (table_.getD (w / 2) (Node.mk3 0 0 0)).var)) := by
  induction trace generalizing buf with
  | nil => simp
  | cons w rest ih =>
    have hw : w / 2 < table_.length := h w (List.mem_cons_self _ _)
    have hrest : ∀ x ∈ rest, x / 2 < table_.length :=
      fun x hx => h x (List.mem_cons_of_mem _ hx)
    have hcell : table_[w >>> 1]? = some (table_.getD (w / 2) (Node.mk3 0 0 0)) := by
      simp [Nat.shiftRight_eq_div_pow, List.getD_eq_getElem?_getD, List.getElem?_eq_getElem hw]
    rw [List.foldlM_cons]
    by_cases hb : w % 2 = 1
    · have hb2 : ((w &&& 1) != 0) = true := by simp [Nat.and_one_is_mod, hb]
      simp only [hb2, if_true, hcell]
      show List.foldlM _ _ rest = _
      rw [ih hrest]
      simp [List.filter_cons, hb]
    · have hb2 : ((w &&& 1) != 0) = false := by
        simp [Nat.and_one_is_mod]; omega
      simp only [hb2]
      show List.foldlM _ _ rest = _
      rw [ih hrest]
      simp [List.filter_cons, hb]

/-- C7. For every node table, every trace whose node ids `w >> 1` index the
table and every prior content of the buffer, `trace2choice` leaves in the
buffer exactly the variables `table[w >> 1].var` of the trace words `w` with
low bit 1, in trace order; words with low bit 0 contribute nothing and the
prior content is gone. -/
theorem trace2choice_spec (table_ : List Node) (trace : List Nat) (choice : List Nat)
    (h : ∀ w ∈ trace, w / 2 < table_.length) :
    ZddWithLinks.trace2choice table_ trace choice
      = some ((trace.filter (fun w => w % 2 = 1)).map
          (fun w => (table_.getD (w / 2) (Node.mk3 0 0 0)).var)) := by
  have hf := trace2choice_fold table_ trace h []
  simpa [ZddWithLinks.trace2choice, ZddWithLinks.vector_clear] using hf

/-- Instance of C7 on `sampleTable`: the trace takes the HI edge of cell 2,
the LO edge of cell 1 and the HI edge of cell 0; the buffer held 7, 7. -/
theorem trace2choice_spec_witness :
    (∀ w ∈ [5, 2, 1], w / 2 < sampleTable.length)
    ∧ ZddWithLinks.trace2choice sampleTable [5, 2, 1] [7, 7] = some [1, 3] :=
  ⟨by decide, by
    have h := trace2choice_spec sampleTable [5, 2, 1] [7, 7] (by decide)
    rw [h]
    decide⟩

/-! ## C8: the log is last-in first-out -/

/-- C8. For every log state, node id `v` and kind `k`, the push of kind `k`
(one of `push_upperzero`, `push_lowerzero`, `push_cover_down`,
`push_cover_up`) makes `top()` return `(v, k)`, appends one entry behind the
unchanged earlier entries, keeps the checkpoint stack, and a following `pop()`
gives back the state before the push. -/
theorem push_top_pop (s : HiddenNodeStack) (v : Int) :
    (HiddenNodeStack.push_kind s v HideType.UpperZero = HiddenNodeStack.push_upperzero s v
      ∧ HiddenNodeStack.push_kind s v HideType.LowerZero = HiddenNodeStack.push_lowerzero s v
      ∧ HiddenNodeStack.push_kind s v HideType.CoverDown = HiddenNodeStack.push_cover_down s v
      ∧ HiddenNodeStack.push_kind s v HideType.CoverUp = HiddenNodeStack.push_cover_up s v)
    ∧ ∀ k : HideType,
        HiddenNodeStack.top (HiddenNodeStack.push_kind s v k) = some (v, k)
        ∧ (HiddenNodeStack.push_kind s v k).node_stack_ = s.node_stack_ ++ [(v, k)]
        ∧ (∀ i, i < s.node_stack_.length →
            (HiddenNodeStack.push_kind s v k).node_stack_[i]? = s.node_stack_[i]?)
        ∧ (HiddenNodeStack.push_kind s v k).stack_start_positions_ = s.stack_start_positions_
        ∧ HiddenNodeStack.pop (HiddenNodeStack.push_kind s v k) = some s := by
  refine ⟨⟨rfl, rfl, rfl, rfl⟩, ?_⟩
  intro k
  have hs : HiddenNodeStack.push_kind s v k
      = { s with node_stack_ := s.node_stack_ ++ [(v, k)] } := by
    cases k <;> rfl
  rw [hs]
  refine ⟨by simp [HiddenNodeStack.top], rfl, ?_, rfl, ?_⟩
  · intro i hi
    simp [List.getElem?_append_left hi]
  · obtain ⟨ns, st⟩ := s
    unfold HiddenNodeStack.pop
    cases ns with
    | nil => simp
    | cons a l =>
      simp only [List.cons_append]
      rw [← List.cons_append, List.dropLast_concat]

/-! ## C9: emptiness is relative to the checkpoint -/

theorem toInt32_of_lt (n : Nat) (h : n < 2 ^ 31) : toInt32 (n : Int) = (n : Int) := by
  unfold toInt32
  omega

theorem toSizeT_of_nonneg (c : Int) (h0 : 0 ≤ c) (h1 : c < 2 ^ 31) : toSizeT c = c := by
  unfold toSizeT
  omega

theorem run_pending (ops : List HiddenNodeStack.LogOp) :
    ∀ (s : HiddenNodeStack) (n m : Nat) (k : Nat),
      s.node_stack_.length = k + n →
      HiddenNodeStack.pending n ops = some m →
      ∃ s1, HiddenNodeStack.run s ops = some s1
        ∧ s1.stack_start_positions_ = s.stack_start_positions_
        ∧ s1.node_stack_.length = k + m
        ∧ s1.node_stack_.take k = s.node_stack_.take k := by
  induction ops with
  | nil =>
    intro s n m k hlen hp
    simp only [HiddenNodeStack.pending, Option.some.injEq] at hp
    subst hp
    exact ⟨s, rfl, rfl, hlen, rfl⟩
  | cons op rest ih =>
    intro s n m k hlen hp
    cases op with
    | push v kd =>
      simp only [HiddenNodeStack.pending] at hp
      have hs : HiddenNodeStack.push_kind s v kd
          = { s with node_stack_ := s.node_stack_ ++ [(v, kd)] } := by
        cases kd <;> rfl
      obtain ⟨s1, h1, h2, h3, h4⟩ := ih (HiddenNodeStack.push_kind s v kd) (n + 1) m k
        (by rw [hs]; simp; omega) hp
      refine ⟨s1, by simpa [HiddenNodeStack.run] using h1, by rw [h2, hs], h3, ?_⟩
      rw [h4, hs]
      simp only
      rw [List.take_append_of_le_length (by omega)]
    | pop =>
      cases n with
      | zero => simp [HiddenNodeStack.pending] at hp
      | succ n =>
        simp only [HiddenNodeStack.pending] at hp
        obtain ⟨ns, st⟩ := s
        simp only at hlen
        cases ns with
        | nil => simp at hlen; omega
        | cons a l =>
          obtain ⟨s1, h1, h2, h3, h4⟩ := ih ⟨(a :: l).dropLast, st⟩ n m k
            (by simp at hlen ⊢; omega) hp
          refine ⟨s1, by simpa [HiddenNodeStack.run, HiddenNodeStack.pop] using h1, h2, h3, ?_⟩
          rw [h4]
          simp only
          rw [List.dropLast_eq_take, List.take_take]
          congr 1
          simp at hlen ⊢
          omega

/-- The `push_*` / `pop` calls leave the checkpoint stack alone. -/
theorem run_checkpoints (ops : List HiddenNodeStack.LogOp) :
    ∀ (s s1 : HiddenNodeStack), HiddenNodeStack.run s ops = some s1 →
      s1.stack_start_positions_ = s.stack_start_positions_ := by
  induction ops with
  | nil =>
    intro s s1 h
    simp only [HiddenNodeStack.run, Option.some.injEq] at h
    rw [← h]
  | cons op rest ih =>
    intro s s1 h
    cases op with
    | push v k =>
      simp only [HiddenNodeStack.run] at h
      rw [ih _ _ h]
      cases k <;> rfl
    | pop =>
      obtain ⟨ns, st⟩ := s
      cases ns with
      | nil => simp [HiddenNodeStack.run, HiddenNodeStack.pop] at h
      | cons a l =>
        simp only [HiddenNodeStack.run, HiddenNodeStack.pop] at h
        rw [ih _ _ h]

/-- C9 as stated fails. (1) After `push_upperzero(7); push_checkpoint();
pop()` the log has no entry at all, so none lies beyond the checkpoint offset
1, yet `is_empty()` is false. (2) On a log of `2^31` entries
`push_checkpoint()` stores the offset narrowed to `int32_t`, and `is_empty()`
is false immediately afterwards. (3) After `push_upperzero(1);
push_checkpoint(); pop(); push_cover_up(5)` the push made since the
checkpoint has not been popped, yet the log has one entry and the offset is
1, so `is_empty()` is true. -/
theorem is_empty_claim_fails :
    (HiddenNodeStack.pop (HiddenNodeStack.push_checkpoint
        (HiddenNodeStack.push_upperzero ⟨[], []⟩ 7)) = some ⟨[], [1]⟩
      ∧ (⟨[], [1]⟩ : HiddenNodeStack).stack_start_positions_.head? = some 1
      ∧ (∀ i : Nat, (1 : Int) ≤ (i : Int) →
          (⟨[], [1]⟩ : HiddenNodeStack).node_stack_[i]? = none)
      ∧ HiddenNodeStack.is_empty ⟨[], [1]⟩ = some false)
    ∧ HiddenNodeStack.is_empty (HiddenNodeStack.push_checkpoint
        ⟨List.replicate (2 ^ 31) (0, HideType.UpperZero), []⟩) = some false
    ∧ (HiddenNodeStack.run
          (HiddenNodeStack.push_checkpoint (HiddenNodeStack.push_upperzero ⟨[], []⟩ 1))
          [HiddenNodeStack.LogOp.pop, HiddenNodeStack.LogOp.push 5 HideType.CoverUp]
        = some ⟨[(5, HideType.CoverUp)], [1]⟩
      ∧ HiddenNodeStack.is_empty ⟨[(5, HideType.CoverUp)], [1]⟩ = some true) := by
  refine ⟨⟨by decide, rfl, ?_, by decide⟩, ?_, by decide, by decide⟩
  · intro i _
    simp
  · simp only [HiddenNodeStack.is_empty, HiddenNodeStack.push_checkpoint,
      List.length_replicate, toInt32, toSizeT]
    norm_num

/-- C9 (amended). (1) For every log state whose most recent checkpoint offset
`c` lies inside the log (`0 ≤ c ≤` number of entries), `is_empty()` is true
exactly when no entry lies at an index `≥ c`. (2) On a log of fewer than
`2^31` entries `is_empty()` is true immediately after `push_checkpoint()`,
whatever the earlier sections hold. (3) After any further sequence of
`push_*` / `pop` calls in which no `pop()` is made while every push made
since the checkpoint has already been popped (`pending 0 ops` has a value
`m`, the number of pushes not popped), `is_empty()` is true iff `m = 0`,
hence false while a push is pending. (4) After any further sequence of
`push_*` / `pop` calls whatever, `is_empty()` is true exactly when the log
has as many entries as it had at the checkpoint. -/
theorem is_empty_relative (s : HiddenNodeStack) :
    (∀ c : Int, s.stack_start_positions_.head? = some c →
        0 ≤ c → c < 2 ^ 31 → c ≤ (s.node_stack_.length : Int) →
        ∃ b, HiddenNodeStack.is_empty s = some b
          ∧ (b = true ↔ ∀ i : Nat, c ≤ (i : Int) → s.node_stack_[i]? = none))
    ∧ (s.node_stack_.length < 2 ^ 31 →
        HiddenNodeStack.is_empty (HiddenNodeStack.push_checkpoint s) = some true)
    ∧ (s.node_stack_.length < 2 ^ 31 →
        ∀ (ops : List HiddenNodeStack.LogOp) (m : Nat),
          HiddenNodeStack.pending 0 ops = some m →
          ∃ s1, HiddenNodeStack.run (HiddenNodeStack.push_checkpoint s) ops = some s1
            ∧ HiddenNodeStack.is_empty s1 = some (decide (m = 0)))
    ∧ (s.node_stack_.length < 2 ^ 31 →
        ∀ (ops : List HiddenNodeStack.LogOp) (s1 : HiddenNodeStack),
          HiddenNodeStack.run (HiddenNodeStack.push_checkpoint s) ops = some s1 →
          HiddenNodeStack.is_empty s1
            = some (decide (s1.node_stack_.length = s.node_stack_.length))) := by
  refine ⟨?_, ?_, ?_, ?_⟩
  · intro c hc h0 h31 hle
    obtain ⟨ns, st⟩ := s
    cases st with
    | nil => simp at hc
    | cons c1 rest =>
      simp only [List.head?_cons, Option.some.injEq] at hc
      subst hc
      refine ⟨_, rfl, ?_⟩
      simp only [decide_eq_true_eq, toSizeT_of_nonneg c1 h0 h31]
      simp only at hle
      constructor
      · intro heq i hi
        apply List.getElem?_eq_none
        omega
      · intro hall
        have hnone := hall c1.toNat (by omega)
        rw [List.getElem?_eq_none_iff] at hnone
        omega
  · intro hlt
    simp only [HiddenNodeStack.is_empty, HiddenNodeStack.push_checkpoint,
      toInt32_of_lt _ hlt]
    rw [toSizeT_of_nonneg _ (by omega) (by exact_mod_cast hlt)]
    simp
  · intro hlt ops m hp
    obtain ⟨s1, h1, h2, h3, _⟩ := run_pending ops (HiddenNodeStack.push_checkpoint s) 0 m
      s.node_stack_.length (by simp [HiddenNodeStack.push_checkpoint]) hp
    refine ⟨s1, h1, ?_⟩
    simp only [HiddenNodeStack.is_empty, h2, HiddenNodeStack.push_checkpoint,
      toInt32_of_lt _ hlt]
    rw [toSizeT_of_nonneg _ (by omega) (by exact_mod_cast hlt), h3]
    simp
  · intro hlt ops s1 hrun
    have h2 := run_checkpoints ops _ _ hrun
    simp only [HiddenNodeStack.is_empty, h2, HiddenNodeStack.push_checkpoint,
      toInt32_of_lt _ hlt]
    rw [toSizeT_of_nonneg _ (by omega) (by exact_mod_cast hlt)]
    simp

/-- Instance of the amended C9: a log with one entry in an outer section and
one in the current section; a new checkpoint; then two pushes and one pop;
and, from the same checkpoint, a pop below it followed by a push. -/
theorem is_empty_relative_witness :
    (∃ b, HiddenNodeStack.is_empty
          ⟨[(1, HideType.UpperZero), (2, HideType.CoverUp)], [1, 0]⟩ = some b
        ∧ (b = true ↔ ∀ i : Nat, (1 : Int) ≤ (i : Int) →
            (⟨[(1, HideType.UpperZero), (2, HideType.CoverUp)], [1, 0]⟩ :
              HiddenNodeStack).node_stack_[i]? = none))
    ∧ HiddenNodeStack.is_empty (HiddenNodeStack.push_checkpoint
          ⟨[(1, HideType.UpperZero), (2, HideType.CoverUp)], [1, 0]⟩) = some true
    ∧ (∃ s1, HiddenNodeStack.run (HiddenNodeStack.push_checkpoint
            ⟨[(1, HideType.UpperZero), (2, HideType.CoverUp)], [1, 0]⟩)
          [HiddenNodeStack.LogOp.push 5 HideType.CoverDown,
           HiddenNodeStack.LogOp.push 6 HideType.CoverUp,
           HiddenNodeStack.LogOp.pop] = some s1
        ∧ HiddenNodeStack.is_empty s1 = some (decide (1 = 0)))
    ∧ HiddenNodeStack.is_empty
          ⟨[(1, HideType.UpperZero), (5, HideType.CoverUp)], [2, 1, 0]⟩
        = some (decide ((⟨[(1, HideType.UpperZero), (5, HideType.CoverUp)], [2, 1, 0]⟩ :
              HiddenNodeStack).node_stack_.length
            = (⟨[(1, HideType.UpperZero), (2, HideType.CoverUp)], [1, 0]⟩ :
              HiddenNodeStack).node_stack_.length)) :=
  ⟨(is_empty_relative ⟨[(1, HideType.UpperZero), (2, HideType.CoverUp)], [1, 0]⟩).1 1 rfl
      (by decide) (by decide) (by decide),
   (is_empty_relative ⟨[(1, HideType.UpperZero), (2, HideType.CoverUp)], [1, 0]⟩).2.1
      (by decide),
   (is_empty_relative ⟨[(1, HideType.UpperZero), (2, HideType.CoverUp)], [1, 0]⟩).2.2.1
      (by decide) _ 1 rfl,
   (is_empty_relative ⟨[(1, HideType.UpperZero), (2, HideType.CoverUp)], [1, 0]⟩).2.2.2
      (by decide) [HiddenNodeStack.LogOp.pop, HiddenNodeStack.LogOp.push 5 HideType.CoverUp]
      ⟨[(1, HideType.UpperZero), (5, HideType.CoverUp)], [2, 1, 0]⟩ (by decide)⟩

/-! ## C10: reversal of the current section -/

/-- C10. For every log state whose entries are `P ++ S`, the most recent
checkpoint offset being the length of `P`, `reverse_current_stack()` yields
the entries `P ++ reverse S` with the same length and the same checkpoint
stack, and a second call gives back the original state. -/
theorem reverse_current_stack_spec (s : HiddenNodeStack) (P S : List (Int × HideType))
    (hent : s.node_stack_ = P ++ S)
    (hcp : s.stack_start_positions_.head? = some (P.length : Int)) :
    ∃ s1, HiddenNodeStack.reverse_current_stack s = some s1
      ∧ s1.node_stack_ = P ++ S.reverse
      ∧ s1.node_stack_.length = s.node_stack_.length
      ∧ s1.stack_start_positions_ = s.stack_start_positions_
      ∧ HiddenNodeStack.reverse_current_stack s1 = some s := by
  obtain ⟨ns, st⟩ := s
  simp only at hent hcp
  subst hent
  cases st with
  | nil => simp at hcp
  | cons c rest =>
    simp only [List.head?_cons, Option.some.injEq] at hcp
    subst hcp
    refine ⟨⟨P ++ S.reverse, (P.length : Int) :: rest⟩, ?_, rfl, by simp, rfl, ?_⟩
    · simp [HiddenNodeStack.reverse_current_stack]
    · simp [HiddenNodeStack.reverse_current_stack]

/-- Instance of C10: one entry before the checkpoint, three after it. -/
theorem reverse_current_stack_spec_witness :
    ∃ s1, HiddenNodeStack.reverse_current_stack
        ⟨[(4, HideType.CoverUp)] ++ [(1, HideType.UpperZero), (2, HideType.LowerZero),
          (3, HideType.CoverDown)], [1, 0]⟩ = some s1
      ∧ s1.node_stack_ = [(4, HideType.CoverUp)] ++ [(1, HideType.UpperZero),
          (2, HideType.LowerZero), (3, HideType.CoverDown)].reverse
      ∧ s1.node_stack_.length = (⟨[(4, HideType.CoverUp)] ++ [(1, HideType.UpperZero),
          (2, HideType.LowerZero), (3, HideType.CoverDown)], [1, 0]⟩ : HiddenNodeStack).node_stack_.length
      ∧ s1.stack_start_positions_ = (⟨[(4, HideType.CoverUp)] ++ [(1, HideType.UpperZero),
          (2, HideType.LowerZero), (3, HideType.CoverDown)], [1, 0]⟩ : HiddenNodeStack).stack_start_positions_
      ∧ HiddenNodeStack.reverse_current_stack s1 = some
          ⟨[(4, HideType.CoverUp)] ++ [(1, HideType.UpperZero), (2, HideType.LowerZero),
            (3, HideType.CoverDown)], [1, 0]⟩ :=
  reverse_current_stack_spec _ [(4, HideType.CoverUp)]
    [(1, HideType.UpperZero), (2, HideType.LowerZero), (3, HideType.CoverDown)] rfl rfl

/-! ## C11, C12: sections of the hidden-node log -/

/-- Effect of a sequence of cover calls on a log whose current section
starts at the end of `P`. -/
theorem runCover_section (ops : List HiddenNodeStack.CoverOp) :
    ∀ (P X : List (Int × HideType)) (st : List Int),
      HiddenNodeStack.runCover ⟨P ++ X, (P.length : Int) :: st⟩ ops
        = some ⟨P ++ HiddenNodeStack.sectionAfter X ops, (P.length : Int) :: st⟩ := by
  induction ops with
  | nil => intro P X st; rfl
  | cons op rest ih =>
    intro P X st
    cases op with
    | push v k =>
      have hs : HiddenNodeStack.push_kind ⟨P ++ X, (P.length : Int) :: st⟩ v k
          = ⟨P ++ (X ++ [(v, k)]), (P.length : Int) :: st⟩ := by
        cases k <;> simp [HiddenNodeStack.push_kind, HiddenNodeStack.push_upperzero,
          HiddenNodeStack.push_lowerzero, HiddenNodeStack.push_cover_down,
          HiddenNodeStack.push_cover_up]
      simp only [HiddenNodeStack.runCover, hs, ih, HiddenNodeStack.sectionAfter]
    | reverse =>
      have hr : HiddenNodeStack.reverse_current_stack ⟨P ++ X, (P.length : Int) :: st⟩
          = some ⟨P ++ X.reverse, (P.length : Int) :: st⟩ := by
        simp [HiddenNodeStack.reverse_current_stack]
      simp only [HiddenNodeStack.runCover, hr, ih, HiddenNodeStack.sectionAfter]

theorem sectionAfter_length (ops : List HiddenNodeStack.CoverOp) :
    ∀ X, (HiddenNodeStack.sectionAfter X ops).length
      = X.length + HiddenNodeStack.pushCount ops := by
  induction ops with
  | nil => intro X; rfl
  | cons op rest ih =>
    intro X
    cases op with
    | push v k =>
      simp only [HiddenNodeStack.sectionAfter, HiddenNodeStack.pushCount, ih]
      simp
      omega
    | reverse =>
      simp only [HiddenNodeStack.sectionAfter, HiddenNodeStack.pushCount, ih]
      simp

theorem sectionAfter_append (o1 o2 : List HiddenNodeStack.CoverOp) :
    ∀ X, HiddenNodeStack.sectionAfter X (o1 ++ o2)
      = HiddenNodeStack.sectionAfter (HiddenNodeStack.sectionAfter X o1) o2 := by
  induction o1 with
  | nil => intro X; rfl
  | cons op rest ih =>
    intro X
    cases op with
    | push v k => exact ih (X ++ [(v, k)])
    | reverse => exact ih X.reverse

theorem sectionAfter_pushesOf (es : List (Int × HideType)) :
    ∀ X, HiddenNodeStack.sectionAfter X (HiddenNodeStack.pushesOf es) = X ++ es := by
  induction es with
  | nil => intro X; simp [HiddenNodeStack.pushesOf, HiddenNodeStack.sectionAfter]
  | cons e rest ih =>
    intro X
    have := ih (X ++ [e])
    simp only [HiddenNodeStack.pushesOf, List.map_cons, HiddenNodeStack.sectionAfter] at this ⊢
    rw [this]
    simp

theorem push_checkpoint_small (s : HiddenNodeStack) (hlt : s.node_stack_.length < 2 ^ 31) :
    HiddenNodeStack.push_checkpoint s
      = ⟨s.node_stack_ ++ [], (s.node_stack_.length : Int) :: s.stack_start_positions_⟩ := by
  simp [HiddenNodeStack.push_checkpoint, toInt32_of_lt _ hlt]

theorem push_checkpoint_replicate (m : Nat) (e : Int × HideType) :
    HiddenNodeStack.push_checkpoint ⟨List.replicate m e, []⟩
      = ⟨List.replicate m e, [toInt32 (m : Int)]⟩ := by
  simp [HiddenNodeStack.push_checkpoint]

theorem toInt32_two_pow_31 : toInt32 ((2 ^ 31 : Nat) : Int) = -(2 ^ 31) := by
  unfold toInt32
  norm_num

theorem push_checkpoint_hugeLog :
    HiddenNodeStack.push_checkpoint HiddenNodeStack.hugeLog
      = ⟨List.replicate (2 ^ 31) (0, HideType.UpperZero), [-(2 ^ 31)]⟩ := by
  unfold HiddenNodeStack.hugeLog
  rw [push_checkpoint_replicate, toInt32_two_pow_31]

theorem is_empty_negative_offset (X : List (Int × HideType)) (st : List Int) :
    HiddenNodeStack.is_empty ⟨X, -(2 ^ 31) :: st⟩
      = some (decide ((X.length : Int) = 2 ^ 64 - 2 ^ 31)) := by
  have h : toSizeT (-(2 ^ 31)) = 2 ^ 64 - 2 ^ 31 := by unfold toSizeT; norm_num
  simp only [HiddenNodeStack.is_empty, h]

theorem pop_checkpoint_of_not_empty (s : HiddenNodeStack)
    (h : HiddenNodeStack.is_empty s = some false) : HiddenNodeStack.pop_checkpoint s = none := by
  unfold HiddenNodeStack.pop_checkpoint
  rw [h]

theorem unwind_hugeLog : ∀ (fuel m : Nat), m ≤ 2 ^ 31 →
    HiddenNodeStack.unwind fuel
      ⟨List.replicate m (0, HideType.UpperZero), [-(2 ^ 31)]⟩ = none := by
  intro fuel
  induction fuel with
  | zero =>
    intro m hm
    have hne : decide (((List.replicate m ((0 : Int), HideType.UpperZero)).length : Int)
        = 2 ^ 64 - 2 ^ 31) = false := by
      rw [List.length_replicate, decide_eq_false_iff_not]; omega
    simp only [HiddenNodeStack.unwind, is_empty_negative_offset, hne]
  | succ f ih =>
    intro m hm
    have hne : decide (((List.replicate m ((0 : Int), HideType.UpperZero)).length : Int)
        = 2 ^ 64 - 2 ^ 31) = false := by
      rw [List.length_replicate, decide_eq_false_iff_not]; omega
    cases m with
    | zero =>
      simp only [HiddenNodeStack.unwind, is_empty_negative_offset, hne]
      simp [HiddenNodeStack.top]
    | succ k =>
      have hpop : HiddenNodeStack.pop
          ⟨List.replicate (k + 1) (0, HideType.UpperZero), [-(2 ^ 31)]⟩
          = some ⟨List.replicate k (0, HideType.UpperZero), [-(2 ^ 31)]⟩ := by
        simp [HiddenNodeStack.pop, List.replicate_succ, List.dropLast_replicate]
      have hrec := ih k (by omega)
      cases htop : HiddenNodeStack.top
          ⟨List.replicate (k + 1) (0, HideType.UpperZero), [-(2 ^ 31)]⟩ with
      | none =>
        simp only [HiddenNodeStack.unwind, is_empty_negative_offset, hne, htop]
      | some e =>
        simp only [HiddenNodeStack.unwind, is_empty_negative_offset, hne, htop, hpop, hrec]

/-- The unwinding loop reads the current section backwards and stops at the
checkpoint. -/
theorem unwind_section (P : List (Int × HideType)) (st : List Int)
    (hP : P.length < 2 ^ 31) :
    ∀ (X : List (Int × HideType)) (fuel : Nat), X.length ≤ fuel →
      HiddenNodeStack.unwind fuel ⟨P ++ X, (P.length : Int) :: st⟩
        = some (X.reverse, ⟨P, (P.length : Int) :: st⟩) := by
  have hsz : toSizeT (P.length : Int) = (P.length : Int) :=
    toSizeT_of_nonneg _ (by omega) (by exact_mod_cast hP)
  intro X
  induction X using List.reverseRecOn with
  | nil =>
    intro fuel _
    cases fuel <;> simp [HiddenNodeStack.unwind, HiddenNodeStack.is_empty, hsz]
  | append_singleton Y e ih =>
    intro fuel hf
    obtain ⟨f, rfl⟩ : ∃ f, fuel = f + 1 := ⟨fuel - 1, by simp at hf; omega⟩
    have hne : HiddenNodeStack.is_empty ⟨P ++ (Y ++ [e]), (P.length : Int) :: st⟩
        = some false := by
      simp only [HiddenNodeStack.is_empty, hsz, Option.some.injEq, decide_eq_false_iff_not,
        List.length_append, List.length_singleton]
      push_cast
      omega
    have htop : HiddenNodeStack.top ⟨P ++ (Y ++ [e]), (P.length : Int) :: st⟩ = some e := by
      simp [HiddenNodeStack.top, ← List.append_assoc]
    have hpop : HiddenNodeStack.pop ⟨P ++ (Y ++ [e]), (P.length : Int) :: st⟩
        = some ⟨P ++ Y, (P.length : Int) :: st⟩ := by
      unfold HiddenNodeStack.pop
      simp only
      cases hl : P ++ (Y ++ [e]) with
      | nil => simp at hl
      | cons a l =>
        simp only [Option.some.injEq, HiddenNodeStack.mk.injEq, and_true]
        rw [← hl, ← List.append_assoc, List.dropLast_concat]
    have hrec := ih f (by simp at hf; omega)
    simp only [HiddenNodeStack.unwind, hne, htop, hpop, hrec]
    simp

/-- C11 as stated fails: on a log of `2 ^ 31` entries `push_checkpoint()`
stores the offset narrowed to `int32_t`; with no push at all `is_empty()` is
false, the assertion of `pop_checkpoint()` fails and the unwinding loop never
reaches its exit. -/
theorem section_round_trip_fails :
    HiddenNodeStack.runCover (HiddenNodeStack.push_checkpoint HiddenNodeStack.hugeLog) []
      = some (HiddenNodeStack.push_checkpoint HiddenNodeStack.hugeLog)
    ∧ HiddenNodeStack.pushCount [] = 0
    ∧ HiddenNodeStack.is_empty (HiddenNodeStack.push_checkpoint HiddenNodeStack.hugeLog)
        = some false
    ∧ HiddenNodeStack.pop_checkpoint (HiddenNodeStack.push_checkpoint HiddenNodeStack.hugeLog)
        = none
    ∧ (∀ fuel, HiddenNodeStack.unwind fuel
        (HiddenNodeStack.push_checkpoint HiddenNodeStack.hugeLog) = none) := by
  have hemp : HiddenNodeStack.is_empty
      (HiddenNodeStack.push_checkpoint HiddenNodeStack.hugeLog) = some false := by
    rw [push_checkpoint_hugeLog, is_empty_negative_offset, List.length_replicate]
    norm_num
  refine ⟨by simp only [HiddenNodeStack.runCover], by simp only [HiddenNodeStack.pushCount],
    hemp, pop_checkpoint_of_not_empty _ hemp, ?_⟩
  · intro fuel
    rw [push_checkpoint_hugeLog]
    exact unwind_hugeLog fuel (2 ^ 31) (le_refl _)

/-- C11 (amended). For every log state `s` of fewer than `2 ^ 31` entries
(also one inside an outer, non-empty section), after `push_checkpoint()` and
any sequence of `push_*` calls with `reverse_current_stack()` calls
interleaved, the loop that pops while `is_empty()` is false executes exactly
as many pops as there were pushes; the assertion of `pop_checkpoint()` then
holds and `pop_checkpoint()` gives back the entries and the checkpoint stack
of `s`. -/
theorem section_round_trip (s : HiddenNodeStack) (ops : List HiddenNodeStack.CoverOp)
    (hlt : s.node_stack_.length < 2 ^ 31) :
    ∃ s1, HiddenNodeStack.runCover (HiddenNodeStack.push_checkpoint s) ops = some s1
      ∧ ∀ fuel, HiddenNodeStack.pushCount ops ≤ fuel →
          ∃ read s2, HiddenNodeStack.unwind fuel s1 = some (read, s2)
            ∧ read.length = HiddenNodeStack.pushCount ops
            ∧ HiddenNodeStack.is_empty s2 = some true
            ∧ HiddenNodeStack.pop_checkpoint s2 = some s := by
  obtain ⟨P, st⟩ := s
  simp only at hlt
  rw [push_checkpoint_small _ hlt]
  simp only
  refine ⟨_, runCover_section ops P [] st, ?_⟩
  intro fuel hf
  have hlen := sectionAfter_length ops []
  simp only [List.length_nil, Nat.zero_add] at hlen
  have hsz : toSizeT (P.length : Int) = (P.length : Int) :=
    toSizeT_of_nonneg _ (by omega) (by exact_mod_cast hlt)
  refine ⟨_, _, unwind_section P st hlt _ fuel (by omega), by simp [hlen], ?_, ?_⟩
  · simp [HiddenNodeStack.is_empty, hsz]
  · simp [HiddenNodeStack.pop_checkpoint, HiddenNodeStack.is_empty, hsz]

/-- Instance of the amended C11: a log inside an outer section holding one
entry; two pushes, a reversal and a third push. -/
theorem section_round_trip_witness :
    ∃ s1, HiddenNodeStack.runCover
        (HiddenNodeStack.push_checkpoint ⟨[(9, HideType.CoverUp)], [0]⟩)
        [HiddenNodeStack.CoverOp.push 1 HideType.UpperZero,
         HiddenNodeStack.CoverOp.push 2 HideType.UpperZero,
         HiddenNodeStack.CoverOp.reverse,
         HiddenNodeStack.CoverOp.push 3 HideType.LowerZero] = some s1
      ∧ ∀ fuel, HiddenNodeStack.pushCount
          [HiddenNodeStack.CoverOp.push 1 HideType.UpperZero,
           HiddenNodeStack.CoverOp.push 2 HideType.UpperZero,
           HiddenNodeStack.CoverOp.reverse,
           HiddenNodeStack.CoverOp.push 3 HideType.LowerZero] ≤ fuel →
          ∃ read s2, HiddenNodeStack.unwind fuel s1 = some (read, s2)
            ∧ read.length = HiddenNodeStack.pushCount
                [HiddenNodeStack.CoverOp.push 1 HideType.UpperZero,
                 HiddenNodeStack.CoverOp.push 2 HideType.UpperZero,
                 HiddenNodeStack.CoverOp.reverse,
                 HiddenNodeStack.CoverOp.push 3 HideType.LowerZero]
            ∧ HiddenNodeStack.is_empty s2 = some true
            ∧ HiddenNodeStack.pop_checkpoint s2 = some ⟨[(9, HideType.CoverUp)], [0]⟩ :=
  section_round_trip ⟨[(9, HideType.CoverUp)], [0]⟩ _ (by decide)

/-- C12 as stated fails: on a log of `2 ^ 31` entries the offset stored by
`push_checkpoint()` is negative, so `reverse_current_stack()` between two
empty phases has no defined result and nothing can be read back. -/
theorem undo_order_fails :
    HiddenNodeStack.runCover (HiddenNodeStack.push_checkpoint HiddenNodeStack.hugeLog)
      (HiddenNodeStack.pushesOf [] ++ [HiddenNodeStack.CoverOp.reverse]
        ++ HiddenNodeStack.pushesOf []) = none := by
  rw [push_checkpoint_hugeLog]
  have hr : ∀ X : List (Int × HideType),
      HiddenNodeStack.reverse_current_stack ⟨X, [-(2 ^ 31)]⟩ = none := by
    intro X
    simp [HiddenNodeStack.reverse_current_stack]
  simp only [HiddenNodeStack.pushesOf, List.map_nil, List.nil_append, List.append_nil,
    HiddenNodeStack.runCover, hr]

/-- C12 (amended). On a log of fewer than `2 ^ 31` entries, after
`push_checkpoint()`, the Phase-1 pushes `a1..am`, `reverse_current_stack()`
and the Phase-2 pushes `b1..bk`, reading `top()` / `pop()` until `is_empty()`
yields exactly `bk, ..., b1, a1, ..., am`: every Phase-2 entry before any
Phase-1 entry; the loop stops at the checkpoint. -/
theorem undo_order (s : HiddenNodeStack) (a b : List (Int × HideType))
    (hlt : s.node_stack_.length < 2 ^ 31) :
    ∃ s1, HiddenNodeStack.runCover (HiddenNodeStack.push_checkpoint s)
        (HiddenNodeStack.pushesOf a ++ [HiddenNodeStack.CoverOp.reverse]
          ++ HiddenNodeStack.pushesOf b) = some s1
      ∧ ∀ fuel, a.length + b.length ≤ fuel →
          HiddenNodeStack.unwind fuel s1
            = some (b.reverse ++ a, HiddenNodeStack.push_checkpoint s) := by
  obtain ⟨P, st⟩ := s
  simp only at hlt
  rw [push_checkpoint_small _ hlt]
  simp only
  refine ⟨_, runCover_section _ P [] st, ?_⟩
  intro fuel hf
  have hsec : HiddenNodeStack.sectionAfter []
      (HiddenNodeStack.pushesOf a ++ [HiddenNodeStack.CoverOp.reverse]
        ++ HiddenNodeStack.pushesOf b) = a.reverse ++ b := by
    rw [sectionAfter_append, sectionAfter_append, sectionAfter_pushesOf,
      sectionAfter_pushesOf]
    simp [HiddenNodeStack.sectionAfter]
  rw [hsec, unwind_section P st hlt _ fuel (by simp; omega)]
  simp

/-- Instance of the amended C12 with two Phase-1 and two Phase-2 entries on a
log that already holds one entry. -/
theorem undo_order_witness :
    ∃ s1, HiddenNodeStack.runCover
        (HiddenNodeStack.push_checkpoint ⟨[(9, HideType.CoverUp)], [0]⟩)
        (HiddenNodeStack.pushesOf [(1, HideType.UpperZero), (2, HideType.UpperZero)]
          ++ [HiddenNodeStack.CoverOp.reverse]
          ++ HiddenNodeStack.pushesOf [(3, HideType.LowerZero), (4, HideType.CoverDown)])
        = some s1
      ∧ ∀ fuel, [(1, HideType.UpperZero), (2, HideType.UpperZero)].length
            + [(3, HideType.LowerZero), (4, HideType.CoverDown)].length ≤ fuel →
          HiddenNodeStack.unwind fuel s1
            = some ([(3, HideType.LowerZero), (4, HideType.CoverDown)].reverse
                ++ [(1, HideType.UpperZero), (2, HideType.UpperZero)],
              HiddenNodeStack.push_checkpoint ⟨[(9, HideType.CoverUp)], [0]⟩) :=
  undo_order ⟨[(9, HideType.CoverUp)], [0]⟩ _ _ (by decide)

/-! ## DP manager: vectors and buckets -/

theorem getI_natCast {α : Type} (l : List α) (i : Nat) : getI l (i : Int) = l[i]? := by
  simp [getI]

theorem setI_natCast {α : Type} (l : List α) (i : Nat) (a : α) (h : i < l.length) :
    setI l (i : Int) a = some (l.set i a) := by
  simp [setI, h]

theorem int32Add_of_lt (a b : Int) (h0 : -(2 ^ 31) ≤ a + b) (h1 : a + b < 2 ^ 31) :
    int32Add a b = some (a + b) := by
  unfold int32Add
  rw [if_pos ⟨h0, h1⟩]

theorem take_drop_set_append {α : Type} (l : List α) (h n : Nat) (a : α)
    (hlt : h + n < l.length) :
    ((l.set (h + n) a).drop h).take (n + 1) = (l.drop h).take n ++ [a] := by
  apply List.ext_getElem?
  intro i
  by_cases hi : i < n
  · rw [List.getElem?_take_of_lt (by omega), List.getElem?_drop,
      List.getElem?_set_ne (by omega), List.getElem?_append_left (by
        rw [List.length_take, List.length_drop]; omega),
      List.getElem?_take_of_lt hi, List.getElem?_drop]
  · by_cases hin : i = n
    · subst hin
      rw [List.getElem?_take_of_lt (by omega), List.getElem?_drop,
        List.getElem?_set_self hlt, List.getElem?_append_right (by
          rw [List.length_take, List.length_drop]; omega)]
      have : (List.take i (List.drop h l)).length = i := by
        rw [List.length_take, List.length_drop]; omega
      simp [this]
    · rw [List.getElem?_eq_none (by
          rw [List.length_take, List.length_drop, List.length_set]; omega),
        List.getElem?_eq_none (by
          rw [List.length_append, List.length_take, List.length_drop]; simp; omega)]

theorem take_drop_set_outside {α : Type} (l : List α) (g m k : Nat) (a : α)
    (hk : k < g ∨ g + m ≤ k) :
    ((l.set k a).drop g).take m = (l.drop g).take m := by
  apply List.ext_getElem?
  intro i
  by_cases hi : i < m
  · rw [List.getElem?_take_of_lt hi, List.getElem?_take_of_lt hi, List.getElem?_drop,
      List.getElem?_drop, List.getElem?_set_ne (by omega)]
  · rw [List.getElem?_eq_none (by rw [List.length_take]; omega),
      List.getElem?_eq_none (by rw [List.length_take]; omega)]

/-- The append shared by the three `add_node_diff_count*` members, on a bucket
that has room for one more entry. -/
theorem append_elem_spec (s : DpManager) (var : Nat) (id : Int) (n : Nat) (h : Int)
    (hn : s.num_elems_[var]? = some (n : Int)) (hh : s.var_heads_[var]? = some h)
    (h0 : 0 ≤ h) (hroom : h.toNat + n < s.table_elems_.length) (h31 : h + n + 1 < 2 ^ 31) :
    DpManager.append_elem s var id
      = some ((n : Int), { s with
          table_elems_ := s.table_elems_.set (h.toNat + n) id,
          num_elems_ := s.num_elems_.set var ((n : Int) + 1) })
    ∧ DpManager.bucket { s with
          table_elems_ := s.table_elems_.set (h.toNat + n) id,
          num_elems_ := s.num_elems_.set var ((n : Int) + 1) } var
        = DpManager.bucket s var ++ [id] := by
  have hvar : var < s.num_elems_.length := by
    by_contra hge
    rw [List.getElem?_eq_none (by omega)] at hn
    simp at hn
  constructor
  · have hidx : h + (n : Int) = ((h.toNat + n : Nat) : Int) := by
      push_cast; omega
    simp only [DpManager.append_elem, hn, hh, Option.bind_eq_bind, Option.some_bind,
      int32Add_of_lt h n (by omega) (by omega), int32Add_of_lt (n : Int) 1 (by omega) (by omega)]
    rw [hidx, setI_natCast _ _ _ hroom]
    rfl
  · simp only [DpManager.bucket, hn, hh, List.getElem?_set_self hvar]
    have : ((n : Int) + 1).toNat = n + 1 := by omega
    rw [this, Int.toNat_ofNat]
    exact take_drop_set_append _ _ _ _ hroom

theorem bucket_eq_nil_iff (s : DpManager) (var n : Nat) (h : Int)
    (hn : s.num_elems_[var]? = some (n : Int)) (hh : s.var_heads_[var]? = some h)
    (hroom : h.toNat + n < s.table_elems_.length) :
    DpManager.bucket s var = [] ↔ n = 0 := by
  simp only [DpManager.bucket, hn, hh, Int.toNat_ofNat]
  rw [← List.length_eq_zero, List.length_take, List.length_drop]
  omega

theorem lt_length_of_getElem? {α : Type} {l : List α} {i : Nat} {a : α}
    (h : l[i]? = some a) : i < l.length := by
  by_contra hge
  rw [List.getElem?_eq_none (by omega)] at h
  simp at h

/-- Result of `add_node_diff_count` on a dirty node without wrap: only the
counter changes. -/
theorem add_node_diff_count_dirty (s : DpManager) (var id d c : Nat)
    (hc : s.diff_counter_[id]? = some c) (hsum : c + d < 2 ^ 32) (hc0 : c ≠ 0) :
    DpManager.add_node_diff_count s var (id : Int) d
      = some { s with diff_counter_ := s.diff_counter_.set id (c + d) } := by
  have hid := lt_length_of_getElem? hc
  have hmod : (c + d) % 2 ^ 32 = c + d := Nat.mod_eq_of_lt hsum
  have hgt : c + d > d := by omega
  simp only [DpManager.add_node_diff_count, getI_natCast, hc, Option.bind_eq_bind,
    Option.some_bind, setI_natCast _ _ _ hid, hmod]
  simp [hgt]

/-- Result of `add_node_diff_count` on a clean node: the counter is set, the
node is appended to the bucket and the variable is queued when the bucket was
empty. -/
theorem add_node_diff_count_clean (s : DpManager) (var id d n : Nat) (h : Int)
    (hc : s.diff_counter_[id]? = some 0) (hd : d < 2 ^ 32)
    (hn : s.num_elems_[var]? = some (n : Int)) (hh : s.var_heads_[var]? = some h)
    (h0 : 0 ≤ h) (hroom : h.toNat + n < s.table_elems_.length) (h31 : h + n + 1 < 2 ^ 31) :
    DpManager.add_node_diff_count s var (id : Int) d
      = some { s with
          diff_counter_ := s.diff_counter_.set id d,
          table_elems_ := s.table_elems_.set (h.toNat + n) (id : Int),
          num_elems_ := s.num_elems_.set var ((n : Int) + 1),
          lower_varorder_pq_ :=
            if n = 0 then var :: s.lower_varorder_pq_ else s.lower_varorder_pq_ } := by
  have hid := lt_length_of_getElem? hc
  have hmod : (0 + d) % 2 ^ 32 = d := by rw [Nat.zero_add]; exact Nat.mod_eq_of_lt hd
  obtain ⟨happ, _⟩ := append_elem_spec
    { s with diff_counter_ := s.diff_counter_.set id d } var (id : Int) n h hn hh h0 hroom h31
  simp only [DpManager.add_node_diff_count, getI_natCast, hc, Option.bind_eq_bind,
    Option.some_bind, setI_natCast _ _ _ hid, hmod, happ, gt_iff_lt, lt_irrefl, if_false]
  by_cases hn0 : n = 0
  · simp [hn0]
  · have : ¬ ((n : Int) = 0) := by omega
    simp [hn0, this]

/-! ## C13: `add_node_diff_count` -/

/-- C13 as stated fails: node 0 holds `2^32 - 1` after a first call and is
not clean; a second call with delta 1 wraps its counter to 0, which does not
exceed the delta, and appends the node to the bucket a second time. -/
theorem add_node_diff_count_wraps :
    DpManager.add_node_diff_count DpManager.sample 1 0 (2 ^ 32 - 1)
      = some { DpManager.sample with
          table_elems_ := [0, 0, 0], num_elems_ := [0, 1, 0],
          diff_counter_ := [2 ^ 32 - 1, 0, 0], lower_varorder_pq_ := [1] }
    ∧ DpManager.count_at { DpManager.sample with
          table_elems_ := [0, 0, 0], num_elems_ := [0, 1, 0],
          diff_counter_ := [2 ^ 32 - 1, 0, 0], lower_varorder_pq_ := [1] } 0
        = some (2 ^ 32 - 1)
    ∧ DpManager.bucket { DpManager.sample with
          table_elems_ := [0, 0, 0], num_elems_ := [0, 1, 0],
          diff_counter_ := [2 ^ 32 - 1, 0, 0], lower_varorder_pq_ := [1] } 1 = [0]
    ∧ DpManager.add_node_diff_count { DpManager.sample with
          table_elems_ := [0, 0, 0], num_elems_ := [0, 1, 0],
          diff_counter_ := [2 ^ 32 - 1, 0, 0], lower_varorder_pq_ := [1] } 1 0 1
      = some { DpManager.sample with
          table_elems_ := [0, 0, 0], num_elems_ := [0, 2, 0],
          diff_counter_ := [0, 0, 0], lower_varorder_pq_ := [1] }
    ∧ DpManager.bucket { DpManager.sample with
          table_elems_ := [0, 0, 0], num_elems_ := [0, 2, 0],
          diff_counter_ := [0, 0, 0], lower_varorder_pq_ := [1] } 1 = [0, 0] := by
  refine ⟨by decide, by decide, by decide, by decide, by decide⟩

/-- C13 (amended). For every DpManager state, variable `var`, node id `id`
and delta `d` such that `diff_counter[id] + d` stays below `2^32`,
`add_node_diff_count(var, id, d)` adds `d` to `diff_counter[id]` and leaves
the other counters alone; it appends `id` to `buckets[var]` if and only if
`diff_counter[id]` was 0 before the call: on a node that is not clean it
returns with the table, the bucket sizes, every bucket and both queues
unchanged, whatever the state of `buckets[var]`, and on a clean node, the
slot behind `buckets[var]` existing, it appends `id`; it schedules `var` in
the lower queue if and only if it appended `id` and `buckets[var]` was empty
before the call. The upper queue and `diff_counter_hi` are not changed. -/
theorem add_node_diff_count_spec (s : DpManager) (var id d c : Nat)
    (hc : s.diff_counter_[id]? = some c) (hsum : c + d < 2 ^ 32) :
    (c ≠ 0 →
      ∃ s1, DpManager.add_node_diff_count s var (id : Int) d = some s1
        ∧ DpManager.count_at s1 (id : Int) = some (c + d)
        ∧ (∀ j, j ≠ id → s1.diff_counter_[j]? = s.diff_counter_[j]?)
        ∧ s1.table_elems_ = s.table_elems_ ∧ s1.num_elems_ = s.num_elems_
        ∧ s1.var_heads_ = s.var_heads_
        ∧ (∀ w, DpManager.bucket s1 w = DpManager.bucket s w)
        ∧ s1.lower_varorder_pq_ = s.lower_varorder_pq_
        ∧ s1.upper_varorder_pq_ = s.upper_varorder_pq_
        ∧ s1.diff_counter_hi_ = s.diff_counter_hi_)
    ∧ (c = 0 → ∀ (n : Nat) (h : Int),
        s.num_elems_[var]? = some (n : Int) → s.var_heads_[var]? = some h → 0 ≤ h →
        h.toNat + n < s.table_elems_.length → h + n + 1 < 2 ^ 31 →
        ∃ s1, DpManager.add_node_diff_count s var (id : Int) d = some s1
          ∧ DpManager.count_at s1 (id : Int) = some (c + d)
          ∧ (∀ j, j ≠ id → s1.diff_counter_[j]? = s.diff_counter_[j]?)
          ∧ DpManager.bucket s1 var = DpManager.bucket s var ++ [(id : Int)]
          ∧ (DpManager.bucket s var = [] →
              s1.lower_varorder_pq_ = var :: s.lower_varorder_pq_)
          ∧ (DpManager.bucket s var ≠ [] →
              s1.lower_varorder_pq_ = s.lower_varorder_pq_)
          ∧ s1.upper_varorder_pq_ = s.upper_varorder_pq_
          ∧ s1.diff_counter_hi_ = s.diff_counter_hi_) := by
  have hid := lt_length_of_getElem? hc
  constructor
  · intro hc0
    refine ⟨_, add_node_diff_count_dirty s var id d c hc hsum hc0, ?_, ?_,
      rfl, rfl, rfl, fun _ => rfl, rfl, rfl, rfl⟩
    · simp [DpManager.count_at, getI_natCast, List.getElem?_set_self hid]
    · intro j hj
      simp [List.getElem?_set_ne (Ne.symm hj)]
  · intro hc0 n h hn hh h0 hroom h31
    subst hc0
    have hnil := bucket_eq_nil_iff s var n h hn hh hroom
    have hbk := (append_elem_spec s var (id : Int) n h hn hh h0 hroom h31).2
    refine ⟨_, add_node_diff_count_clean s var id d n h hc (by omega) hn hh h0 hroom h31,
      ?_, ?_, hbk, ?_, ?_, rfl, rfl⟩
    · simp [DpManager.count_at, getI_natCast, List.getElem?_set_self hid]
    · intro j hj
      simp [List.getElem?_set_ne (Ne.symm hj)]
    · intro hh2
      simp [hnil.1 hh2]
    · intro hne
      have hn0 : n ≠ 0 := fun hn0 => hne (hnil.2 hn0)
      simp [hn0]

/-- Instance of the amended C13. On `DpManager.sampleFull` node 2, whose
counter is 3, receives the delta 4 with variable 2, whose bucket has no free
slot behind it: the call returns and nothing is appended. On
`DpManager.sample` the clean node 1 receives the delta 5 with variable 1: it
is appended and variable 1 is scheduled. -/
theorem add_node_diff_count_spec_witness :
    (∃ s1, DpManager.add_node_diff_count DpManager.sampleFull 2 ((2 : Nat) : Int) 4 = some s1
      ∧ DpManager.count_at s1 ((2 : Nat) : Int) = some (3 + 4)
      ∧ s1.table_elems_ = DpManager.sampleFull.table_elems_
      ∧ s1.num_elems_ = DpManager.sampleFull.num_elems_
      ∧ DpManager.bucket s1 2 = DpManager.bucket DpManager.sampleFull 2
      ∧ s1.lower_varorder_pq_ = DpManager.sampleFull.lower_varorder_pq_)
    ∧ (∃ s1, DpManager.add_node_diff_count DpManager.sample 1 ((1 : Nat) : Int) 5 = some s1
      ∧ DpManager.count_at s1 ((1 : Nat) : Int) = some (0 + 5)
      ∧ DpManager.bucket s1 1 = DpManager.bucket DpManager.sample 1 ++ [((1 : Nat) : Int)]
      ∧ (DpManager.bucket DpManager.sample 1 = [] →
          s1.lower_varorder_pq_ = 1 :: DpManager.sample.lower_varorder_pq_)) := by
  obtain ⟨s1, a1, a2, _, a4, a5, _, a7, a8, _⟩ :=
    (add_node_diff_count_spec DpManager.sampleFull 2 2 4 3 (by decide) (by decide)).1
      (by decide)
  obtain ⟨s2, b1, b2, _, b4, b5, _⟩ :=
    (add_node_diff_count_spec DpManager.sample 1 1 5 0 (by decide) (by decide)).2 rfl 0 0
      (by decide) (by decide) (by decide) (by decide) (by decide)
  exact ⟨⟨s1, a1, a2, a4, a5, a7 2, a8⟩, ⟨s2, b1, b2, b4, b5⟩⟩

/-! ## C14: `add_node_diff_count_high` and `add_node_diff_count_low` -/

/-- Result of `add_node_diff_count_high` when one accumulator of the node is
not zero: only the high counter changes. -/
theorem add_high_dirty (s : DpManager) (var id d c ch : Nat)
    (hc : s.diff_counter_[id]? = some c) (hch : s.diff_counter_hi_[id]? = some ch)
    (hne : ¬ (c = 0 ∧ ch = 0)) :
    DpManager.add_node_diff_count_high s var (id : Int) d
      = some { s with diff_counter_hi_ := s.diff_counter_hi_.set id ((ch + d) % 2 ^ 32) } := by
  have hid := lt_length_of_getElem? hch
  have hpos : c > 0 ∨ ch > 0 := by omega
  simp only [DpManager.add_node_diff_count_high, getI_natCast, hc, hch, Option.bind_eq_bind,
    Option.some_bind, setI_natCast _ _ _ hid]
  simp [hpos]

/-- Result of `add_node_diff_count_high` on a node whose two accumulators are
zero. -/
theorem add_high_clean (s : DpManager) (var id d n : Nat) (h : Int)
    (hc : s.diff_counter_[id]? = some 0) (hch : s.diff_counter_hi_[id]? = some 0)
    (hn : s.num_elems_[var]? = some (n : Int)) (hh : s.var_heads_[var]? = some h)
    (h0 : 0 ≤ h) (hroom : h.toNat + n < s.table_elems_.length) (h31 : h + n + 1 < 2 ^ 31) :
    DpManager.add_node_diff_count_high s var (id : Int) d
      = some { s with
          diff_counter_hi_ := s.diff_counter_hi_.set id ((0 + d) % 2 ^ 32),
          table_elems_ := s.table_elems_.set (h.toNat + n) (id : Int),
          num_elems_ := s.num_elems_.set var ((n : Int) + 1),
          upper_varorder_pq_ :=
            if n = 0 then var :: s.upper_varorder_pq_ else s.upper_varorder_pq_ } := by
  have hid := lt_length_of_getElem? hch
  obtain ⟨happ, _⟩ := append_elem_spec
    { s with diff_counter_hi_ := s.diff_counter_hi_.set id ((0 + d) % 2 ^ 32) }
    var (id : Int) n h hn hh h0 hroom h31
  simp only [DpManager.add_node_diff_count_high, getI_natCast, hc, hch, Option.bind_eq_bind,
    Option.some_bind, setI_natCast _ _ _ hid, happ, gt_iff_lt, lt_irrefl, or_self, if_false]
  by_cases hn0 : n = 0
  · simp [hn0]
  · have : ¬ ((n : Int) + 1 = 1) := by omega
    simp [hn0, this]

/-- Result of `add_node_diff_count_low` when one accumulator of the node is
not zero: only the low counter changes. -/
theorem add_low_dirty (s : DpManager) (var id d c ch : Nat)
    (hc : s.diff_counter_[id]? = some c) (hch : s.diff_counter_hi_[id]? = some ch)
    (hne : ¬ (c = 0 ∧ ch = 0)) :
    DpManager.add_node_diff_count_low s var (id : Int) d
      = some { s with diff_counter_ := s.diff_counter_.set id ((c + d) % 2 ^ 32) } := by
  have hid := lt_length_of_getElem? hc
  have hpos : c > 0 ∨ ch > 0 := by omega
  simp only [DpManager.add_node_diff_count_low, getI_natCast, hc, hch, Option.bind_eq_bind,
    Option.some_bind, setI_natCast _ _ _ hid]
  simp [hpos]

/-- Result of `add_node_diff_count_low` on a node whose two accumulators are
zero. -/
theorem add_low_clean (s : DpManager) (var id d n : Nat) (h : Int)
    (hc : s.diff_counter_[id]? = some 0) (hch : s.diff_counter_hi_[id]? = some 0)
    (hn : s.num_elems_[var]? = some (n : Int)) (hh : s.var_heads_[var]? = some h)
    (h0 : 0 ≤ h) (hroom : h.toNat + n < s.table_elems_.length) (h31 : h + n + 1 < 2 ^ 31) :
    DpManager.add_node_diff_count_low s var (id : Int) d
      = some { s with
          diff_counter_ := s.diff_counter_.set id ((0 + d) % 2 ^ 32),
          table_elems_ := s.table_elems_.set (h.toNat + n) (id : Int),
          num_elems_ := s.num_elems_.set var ((n : Int) + 1),
          upper_varorder_pq_ :=
            if n = 0 then var :: s.upper_varorder_pq_ else s.upper_varorder_pq_ } := by
  have hid := lt_length_of_getElem? hc
  obtain ⟨happ, _⟩ := append_elem_spec
    { s with diff_counter_ := s.diff_counter_.set id ((0 + d) % 2 ^ 32) }
    var (id : Int) n h hn hh h0 hroom h31
  simp only [DpManager.add_node_diff_count_low, getI_natCast, hc, hch, Option.bind_eq_bind,
    Option.some_bind, setI_natCast _ _ _ hid, happ, gt_iff_lt, lt_irrefl, or_self, if_false]
  by_cases hn0 : n = 0
  · simp [hn0]
  · have : ¬ ((n : Int) + 1 = 1) := by omega
    simp [hn0, this]

/-- C14. For every DpManager state, variable `var`, node id `id` and delta
`d`, `add_node_diff_count_high` adds `d` to `diff_counter_hi[id]` only and
`add_node_diff_count_low` adds `d` to `diff_counter[id]` only (`count_t`
additions); either call appends `id` to `buckets[var]` if and only if both
accumulators of `id` were 0 before the call: when one of them is not 0 the
call returns with the table, the bucket sizes, every bucket and both queues
unchanged, whatever the state of `buckets[var]`, and when both are 0, the
slot behind `buckets[var]` existing, it appends `id`; it pushes `var` on the
upper queue if and only if that append found `buckets[var]` empty; the lower
queue is untouched. Hence a high call followed by a low call, or the reverse,
with positive deltas on a clean node leaves exactly one new bucket entry. -/
theorem add_high_low_spec (s : DpManager) (var id d c ch : Nat)
    (hc : s.diff_counter_[id]? = some c) (hch : s.diff_counter_hi_[id]? = some ch) :
    (¬ (c = 0 ∧ ch = 0) →
      (∃ s1, DpManager.add_node_diff_count_high s var (id : Int) d = some s1
        ∧ DpManager.high_count_at s1 (id : Int) = some ((ch + d) % 2 ^ 32)
        ∧ (∀ j, j ≠ id → s1.diff_counter_hi_[j]? = s.diff_counter_hi_[j]?)
        ∧ s1.diff_counter_ = s.diff_counter_
        ∧ s1.table_elems_ = s.table_elems_ ∧ s1.num_elems_ = s.num_elems_
        ∧ s1.var_heads_ = s.var_heads_
        ∧ (∀ w, DpManager.bucket s1 w = DpManager.bucket s w)
        ∧ s1.upper_varorder_pq_ = s.upper_varorder_pq_
        ∧ s1.lower_varorder_pq_ = s.lower_varorder_pq_)
      ∧ (∃ s2, DpManager.add_node_diff_count_low s var (id : Int) d = some s2
        ∧ DpManager.low_count_at s2 (id : Int) = some ((c + d) % 2 ^ 32)
        ∧ (∀ j, j ≠ id → s2.diff_counter_[j]? = s.diff_counter_[j]?)
        ∧ s2.diff_counter_hi_ = s.diff_counter_hi_
        ∧ s2.table_elems_ = s.table_elems_ ∧ s2.num_elems_ = s.num_elems_
        ∧ s2.var_heads_ = s.var_heads_
        ∧ (∀ w, DpManager.bucket s2 w = DpManager.bucket s w)
        ∧ s2.upper_varorder_pq_ = s.upper_varorder_pq_
        ∧ s2.lower_varorder_pq_ = s.lower_varorder_pq_))
    ∧ (c = 0 ∧ ch = 0 → ∀ (n : Nat) (h : Int),
        s.num_elems_[var]? = some (n : Int) → s.var_heads_[var]? = some h → 0 ≤ h →
        h.toNat + n < s.table_elems_.length → h + n + 1 < 2 ^ 31 →
        (∃ s1, DpManager.add_node_diff_count_high s var (id : Int) d = some s1
          ∧ DpManager.high_count_at s1 (id : Int) = some ((ch + d) % 2 ^ 32)
          ∧ (∀ j, j ≠ id → s1.diff_counter_hi_[j]? = s.diff_counter_hi_[j]?)
          ∧ s1.diff_counter_ = s.diff_counter_
          ∧ DpManager.bucket s1 var = DpManager.bucket s var ++ [(id : Int)]
          ∧ (DpManager.bucket s var = [] →
              s1.upper_varorder_pq_ = var :: s.upper_varorder_pq_)
          ∧ (DpManager.bucket s var ≠ [] →
              s1.upper_varorder_pq_ = s.upper_varorder_pq_)
          ∧ s1.lower_varorder_pq_ = s.lower_varorder_pq_)
        ∧ (∃ s2, DpManager.add_node_diff_count_low s var (id : Int) d = some s2
          ∧ DpManager.low_count_at s2 (id : Int) = some ((c + d) % 2 ^ 32)
          ∧ (∀ j, j ≠ id → s2.diff_counter_[j]? = s.diff_counter_[j]?)
          ∧ s2.diff_counter_hi_ = s.diff_counter_hi_
          ∧ DpManager.bucket s2 var = DpManager.bucket s var ++ [(id : Int)]
          ∧ (DpManager.bucket s var = [] →
              s2.upper_varorder_pq_ = var :: s.upper_varorder_pq_)
          ∧ (DpManager.bucket s var ≠ [] →
              s2.upper_varorder_pq_ = s.upper_varorder_pq_)
          ∧ s2.lower_varorder_pq_ = s.lower_varorder_pq_)
        ∧ (∀ d1 d2 : Nat, 0 < d1 → d1 < 2 ^ 32 → 0 < d2 → d2 < 2 ^ 32 →
          (∃ s1 s2, DpManager.add_node_diff_count_high s var (id : Int) d1 = some s1
            ∧ DpManager.add_node_diff_count_low s1 var (id : Int) d2 = some s2
            ∧ DpManager.bucket s2 var = DpManager.bucket s var ++ [(id : Int)])
          ∧ (∃ s1 s2, DpManager.add_node_diff_count_low s var (id : Int) d1 = some s1
            ∧ DpManager.add_node_diff_count_high s1 var (id : Int) d2 = some s2
            ∧ DpManager.bucket s2 var = DpManager.bucket s var ++ [(id : Int)]))) := by
  have hid := lt_length_of_getElem? hc
  have hidh := lt_length_of_getElem? hch
  constructor
  · intro hcl
    constructor
    · refine ⟨_, add_high_dirty s var id d c ch hc hch hcl, ?_, ?_, rfl, rfl, rfl, rfl,
        fun _ => rfl, rfl, rfl⟩
      · simp [DpManager.high_count_at, getI_natCast, List.getElem?_set_self hidh]
      · intro j hj
        simp [List.getElem?_set_ne (Ne.symm hj)]
    · refine ⟨_, add_low_dirty s var id d c ch hc hch hcl, ?_, ?_, rfl, rfl, rfl, rfl,
        fun _ => rfl, rfl, rfl⟩
      · simp [DpManager.low_count_at, getI_natCast, List.getElem?_set_self hid]
      · intro j hj
        simp [List.getElem?_set_ne (Ne.symm hj)]
  · rintro ⟨rfl, rfl⟩ n h hn hh h0 hroom h31
    have hnil := bucket_eq_nil_iff s var n h hn hh hroom
    have hbk := (append_elem_spec s var (id : Int) n h hn hh h0 hroom h31).2
    refine ⟨?_, ?_, ?_⟩
    · refine ⟨_, add_high_clean s var id d n h hc hch hn hh h0 hroom h31, ?_, ?_, rfl,
        hbk, ?_, ?_, rfl⟩
      · simp [DpManager.high_count_at, getI_natCast, List.getElem?_set_self hidh]
      · intro j hj
        simp [List.getElem?_set_ne (Ne.symm hj)]
      · intro hh2
        simp [hnil.1 hh2]
      · intro hne
        have hn0 : n ≠ 0 := fun hn0 => hne (hnil.2 hn0)
        simp [hn0]
    · refine ⟨_, add_low_clean s var id d n h hc hch hn hh h0 hroom h31, ?_, ?_, rfl,
        hbk, ?_, ?_, rfl⟩
      · simp [DpManager.low_count_at, getI_natCast, List.getElem?_set_self hid]
      · intro j hj
        simp [List.getElem?_set_ne (Ne.symm hj)]
      · intro hh2
        simp [hnil.1 hh2]
      · intro hne
        have hn0 : n ≠ 0 := fun hn0 => hne (hnil.2 hn0)
        simp [hn0]
    · intro d1 d2 hd1 hd1' hd2 hd2'
      have hm1 : (0 + d1) % 2 ^ 32 = d1 := by rw [Nat.zero_add]; exact Nat.mod_eq_of_lt hd1'
      constructor
      · have h1 := add_high_clean s var id d1 n h hc hch hn hh h0 hroom h31
        have h2 := add_low_dirty
          { s with
            diff_counter_hi_ := s.diff_counter_hi_.set id ((0 + d1) % 2 ^ 32),
            table_elems_ := s.table_elems_.set (h.toNat + n) (id : Int),
            num_elems_ := s.num_elems_.set var ((n : Int) + 1),
            upper_varorder_pq_ :=
              if n = 0 then var :: s.upper_varorder_pq_ else s.upper_varorder_pq_ }
          var id d2 0 d1 hc (by simp only [List.getElem?_set_self hidh, hm1]) (by omega)
        exact ⟨_, _, h1, h2, hbk⟩
      · have h1 := add_low_clean s var id d1 n h hc hch hn hh h0 hroom h31
        have h2 := add_high_dirty
          { s with
            diff_counter_ := s.diff_counter_.set id ((0 + d1) % 2 ^ 32),
            table_elems_ := s.table_elems_.set (h.toNat + n) (id : Int),
            num_elems_ := s.num_elems_.set var ((n : Int) + 1),
            upper_varorder_pq_ :=
              if n = 0 then var :: s.upper_varorder_pq_ else s.upper_varorder_pq_ }
          var id d2 d1 0 (by simp only [List.getElem?_set_self hid, hm1]) hch (by omega)
        exact ⟨_, _, h1, h2, hbk⟩

/-- Instance of C14. On `DpManager.sampleFull` node 2, whose low counter is
3, receives the delta 4 through the high call with variable 2, whose bucket
has no free slot behind it: the call returns and nothing is appended. On
`DpManager.sample` the clean node 1 receives the delta 5 through the low call
with variable 1: it is appended and variable 1 is pushed on the upper queue;
a high call with delta 1 followed by a low call with delta 2 leaves one new
entry. -/
theorem add_high_low_spec_witness :
    (∃ s1, DpManager.add_node_diff_count_high DpManager.sampleFull 2 ((2 : Nat) : Int) 4
          = some s1
      ∧ DpManager.high_count_at s1 ((2 : Nat) : Int) = some ((0 + 4) % 2 ^ 32)
      ∧ s1.table_elems_ = DpManager.sampleFull.table_elems_
      ∧ s1.num_elems_ = DpManager.sampleFull.num_elems_
      ∧ DpManager.bucket s1 2 = DpManager.bucket DpManager.sampleFull 2
      ∧ s1.upper_varorder_pq_ = DpManager.sampleFull.upper_varorder_pq_)
    ∧ (∃ s2, DpManager.add_node_diff_count_low DpManager.sample 1 ((1 : Nat) : Int) 5 = some s2
      ∧ DpManager.low_count_at s2 ((1 : Nat) : Int) = some ((0 + 5) % 2 ^ 32)
      ∧ DpManager.bucket s2 1 = DpManager.bucket DpManager.sample 1 ++ [((1 : Nat) : Int)]
      ∧ (DpManager.bucket DpManager.sample 1 = [] →
          s2.upper_varorder_pq_ = 1 :: DpManager.sample.upper_varorder_pq_))
    ∧ (∃ s1 s2, DpManager.add_node_diff_count_high DpManager.sample 1 ((1 : Nat) : Int) 1
          = some s1
      ∧ DpManager.add_node_diff_count_low s1 1 ((1 : Nat) : Int) 2 = some s2
      ∧ DpManager.bucket s2 1 = DpManager.bucket DpManager.sample 1 ++ [((1 : Nat) : Int)]) := by
  obtain ⟨⟨s1, a1, a2, _, _, a5, a6, _, a8, a9, _⟩, _⟩ :=
    (add_high_low_spec DpManager.sampleFull 2 2 4 3 0 (by decide) (by decide)).1 (by decide)
  obtain ⟨_, ⟨s2, b1, b2, _, _, b5, b6, _⟩, b9⟩ :=
    (add_high_low_spec DpManager.sample 1 1 5 0 0 (by decide) (by decide)).2 ⟨rfl, rfl⟩ 0 0
      (by decide) (by decide) (by decide) (by decide) (by decide)
  exact ⟨⟨s1, a1, a2, a5, a6, a8 2, a9⟩, ⟨s2, b1, b2, b5, b6⟩,
    (b9 1 2 (by decide) (by decide) (by decide) (by decide)).1⟩

/-! ## C15, C19: the two priority queues -/

theorem pqMax_mem : ∀ (q : List Nat), q ≠ [] → pqMax q ∈ q := by
  intro q
  induction q with
  | nil => intro h; exact absurd rfl h
  | cons v rest ih =>
    intro _
    cases rest with
    | nil => simp [pqMax]
    | cons w r =>
      have h1 := ih (by simp)
      simp only [pqMax]
      rcases Nat.le_total v (pqMax (w :: r)) with hle | hle
      · rw [max_eq_right hle]; exact List.mem_cons_of_mem _ h1
      · rw [max_eq_left hle]; exact List.mem_cons_self _ _

theorem le_pqMax : ∀ (q : List Nat), ∀ x ∈ q, x ≤ pqMax q := by
  intro q
  induction q with
  | nil => intro x hx; simp at hx
  | cons v rest ih =>
    intro x hx
    cases rest with
    | nil =>
      simp only [List.mem_singleton] at hx
      subst hx
      simp [pqMax]
    | cons w r =>
      simp only [pqMax]
      rcases List.mem_cons.1 hx with rfl | hx
      · exact le_max_left _ _
      · exact le_trans (ih x hx) (le_max_right _ _)

theorem pqMin_mem : ∀ (q : List Nat), q ≠ [] → pqMin q ∈ q := by
  intro q
  induction q with
  | nil => intro h; exact absurd rfl h
  | cons v rest ih =>
    intro _
    cases rest with
    | nil => simp [pqMin]
    | cons w r =>
      have h1 := ih (by simp)
      simp only [pqMin]
      rcases Nat.le_total v (pqMin (w :: r)) with hle | hle
      · rw [min_eq_left hle]; exact List.mem_cons_self _ _
      · rw [min_eq_right hle]; exact List.mem_cons_of_mem _ h1

theorem pqMin_le : ∀ (q : List Nat), ∀ x ∈ q, pqMin q ≤ x := by
  intro q
  induction q with
  | nil => intro x hx; simp at hx
  | cons v rest ih =>
    intro x hx
    cases rest with
    | nil =>
      simp only [List.mem_singleton] at hx
      subst hx
      simp [pqMin]
    | cons w r =>
      simp only [pqMin]
      rcases List.mem_cons.1 hx with rfl | hx
      · exact min_le_left _ _
      · exact le_trans (min_le_right _ _) (ih x hx)

theorem upper_nonzero_var_eq (s : DpManager) (hq : s.upper_varorder_pq_ ≠ []) :
    DpManager.upper_nonzero_var s
      = (pqMax s.upper_varorder_pq_,
          { s with upper_varorder_pq_ :=
              s.upper_varorder_pq_.erase (pqMax s.upper_varorder_pq_) }) := by
  unfold DpManager.upper_nonzero_var
  cases hs : s.upper_varorder_pq_ with
  | nil => exact absurd hs hq
  | cons v rest => rfl

theorem lower_nonzero_var_eq (s : DpManager) (hq : s.lower_varorder_pq_ ≠ []) :
    DpManager.lower_nonzero_var s
      = (pqMin s.lower_varorder_pq_,
          { s with lower_varorder_pq_ :=
              s.lower_varorder_pq_.erase (pqMin s.lower_varorder_pq_) }) := by
  unfold DpManager.lower_nonzero_var
  cases hs : s.lower_varorder_pq_ with
  | nil => exact absurd hs hq
  | cons v rest => rfl

theorem drainUpper_spec : ∀ (k : Nat) (s : DpManager), s.upper_varorder_pq_.length = k →
    List.Sorted (fun a b => a ≥ b) (DpManager.drainUpper k s).1
    ∧ (DpManager.drainUpper k s).1.Perm s.upper_varorder_pq_
    ∧ (DpManager.drainUpper k s).2 = { s with upper_varorder_pq_ := [] } := by
  intro k
  induction k with
  | zero =>
    intro s hs
    have : s.upper_varorder_pq_ = [] := List.length_eq_zero.1 hs
    refine ⟨by simp [DpManager.drainUpper], by simp [DpManager.drainUpper, this], ?_⟩
    simp only [DpManager.drainUpper]
    rw [← this]
  | succ k ih =>
    intro s hs
    have hq : s.upper_varorder_pq_ ≠ [] := by
      intro h; rw [h] at hs; simp at hs
    have hmem := pqMax_mem _ hq
    have heq := upper_nonzero_var_eq s hq
    obtain ⟨h1, h2, h3⟩ := ih
      { s with upper_varorder_pq_ := s.upper_varorder_pq_.erase (pqMax s.upper_varorder_pq_) }
      (by simp only; rw [List.length_erase_of_mem hmem, hs]; rfl)
    simp only [DpManager.drainUpper, heq]
    refine ⟨?_, ?_, h3⟩
    · refine List.sorted_cons.2 ⟨?_, h1⟩
      intro x hx
      have hx2 := h2.subset hx
      exact le_pqMax _ x (List.mem_of_mem_erase hx2)
    · exact (List.Perm.cons _ h2).trans (List.perm_cons_erase hmem).symm

theorem drainLower_spec : ∀ (k : Nat) (s : DpManager), s.lower_varorder_pq_.length = k →
    List.Sorted (fun a b => a ≤ b) (DpManager.drainLower k s).1
    ∧ (DpManager.drainLower k s).1.Perm s.lower_varorder_pq_
    ∧ (DpManager.drainLower k s).2 = { s with lower_varorder_pq_ := [] } := by
  intro k
  induction k with
  | zero =>
    intro s hs
    have : s.lower_varorder_pq_ = [] := List.length_eq_zero.1 hs
    refine ⟨by simp [DpManager.drainLower], by simp [DpManager.drainLower, this], ?_⟩
    simp only [DpManager.drainLower]
    rw [← this]
  | succ k ih =>
    intro s hs
    have hq : s.lower_varorder_pq_ ≠ [] := by
      intro h; rw [h] at hs; simp at hs
    have hmem := pqMin_mem _ hq
    have heq := lower_nonzero_var_eq s hq
    obtain ⟨h1, h2, h3⟩ := ih
      { s with lower_varorder_pq_ := s.lower_varorder_pq_.erase (pqMin s.lower_varorder_pq_) }
      (by simp only; rw [List.length_erase_of_mem hmem, hs]; rfl)
    simp only [DpManager.drainLower, heq]
    refine ⟨?_, ?_, h3⟩
    · refine List.sorted_cons.2 ⟨?_, h1⟩
      intro x hx
      have hx2 := h2.subset hx
      exact pqMin_le _ x (List.mem_of_mem_erase hx2)
    · exact (List.Perm.cons _ h2).trans (List.perm_cons_erase hmem).symm

/-- C15. Whenever the upper queue is non-empty, `upper_nonzero_var()` returns
the largest variable queued in it and removes exactly one occurrence of it;
whenever the lower queue is non-empty, `lower_nonzero_var()` returns the
smallest variable queued in it and removes exactly one occurrence. Hence
draining the upper queue yields its variables in descending order and draining
the lower queue yields them in ascending order. -/
theorem nonzero_var_order (s : DpManager) :
    (s.upper_varorder_pq_ ≠ [] →
      (DpManager.upper_nonzero_var s).1 ∈ s.upper_varorder_pq_
      ∧ (∀ v ∈ s.upper_varorder_pq_, v ≤ (DpManager.upper_nonzero_var s).1)
      ∧ s.upper_varorder_pq_.Perm
          ((DpManager.upper_nonzero_var s).1
            :: (DpManager.upper_nonzero_var s).2.upper_varorder_pq_)
      ∧ { (DpManager.upper_nonzero_var s).2 with
            upper_varorder_pq_ := s.upper_varorder_pq_ } = s)
    ∧ (s.lower_varorder_pq_ ≠ [] →
      (DpManager.lower_nonzero_var s).1 ∈ s.lower_varorder_pq_
      ∧ (∀ v ∈ s.lower_varorder_pq_, (DpManager.lower_nonzero_var s).1 ≤ v)
      ∧ s.lower_varorder_pq_.Perm
          ((DpManager.lower_nonzero_var s).1
            :: (DpManager.lower_nonzero_var s).2.lower_varorder_pq_)
      ∧ { (DpManager.lower_nonzero_var s).2 with
            lower_varorder_pq_ := s.lower_varorder_pq_ } = s)
    ∧ (List.Sorted (fun a b => a ≥ b)
          (DpManager.drainUpper s.upper_varorder_pq_.length s).1
      ∧ (DpManager.drainUpper s.upper_varorder_pq_.length s).1.Perm s.upper_varorder_pq_
      ∧ (DpManager.drainUpper s.upper_varorder_pq_.length s).2.upper_varorder_pq_ = [])
    ∧ (List.Sorted (fun a b => a ≤ b)
          (DpManager.drainLower s.lower_varorder_pq_.length s).1
      ∧ (DpManager.drainLower s.lower_varorder_pq_.length s).1.Perm s.lower_varorder_pq_
      ∧ (DpManager.drainLower s.lower_varorder_pq_.length s).2.lower_varorder_pq_ = []) := by
  refine ⟨?_, ?_, ?_, ?_⟩
  · intro hq
    rw [upper_nonzero_var_eq s hq]
    exact ⟨pqMax_mem _ hq, le_pqMax _, (List.perm_cons_erase (pqMax_mem _ hq)), rfl⟩
  · intro hq
    rw [lower_nonzero_var_eq s hq]
    exact ⟨pqMin_mem _ hq, pqMin_le _, (List.perm_cons_erase (pqMin_mem _ hq)), rfl⟩
  · obtain ⟨h1, h2, h3⟩ := drainUpper_spec _ s rfl
    exact ⟨h1, h2, by rw [h3]⟩
  · obtain ⟨h1, h2, h3⟩ := drainLower_spec _ s rfl
    exact ⟨h1, h2, by rw [h3]⟩

/-- Instance of C15: the upper queue holds 2, 5, 3 and the lower queue
4, 1, 4. -/
theorem nonzero_var_order_witness :
    DpManager.upper_nonzero_var { DpManager.sample with upper_varorder_pq_ := [2, 5, 3] }
      = (5, { DpManager.sample with upper_varorder_pq_ := [2, 3] })
    ∧ DpManager.lower_nonzero_var { DpManager.sample with lower_varorder_pq_ := [4, 1, 4] }
      = (1, { DpManager.sample with lower_varorder_pq_ := [4, 4] })
    ∧ (DpManager.drainUpper 3 { DpManager.sample with upper_varorder_pq_ := [2, 5, 3] }).1
      = [5, 3, 2]
    ∧ (DpManager.drainLower 3 { DpManager.sample with lower_varorder_pq_ := [4, 1, 4] }).1
      = [1, 4, 4]
    ∧ (∀ v ∈ [2, 5, 3], v ≤ (DpManager.upper_nonzero_var
        { DpManager.sample with upper_varorder_pq_ := [2, 5, 3] }).1) :=
  ⟨by decide, by decide, by decide, by decide,
    ((nonzero_var_order { DpManager.sample with upper_varorder_pq_ := [2, 5, 3] }).1
      (by decide)).2.1⟩

/-- C19. On an empty upper (resp. lower) queue `upper_nonzero_var()` (resp.
`lower_nonzero_var()`) returns 0 and leaves the whole state unchanged; when
every queued variable is at least 1, the value returned is 0 if and only if
the queue was empty. -/
theorem nonzero_var_sentinel (s : DpManager) :
    (s.upper_varorder_pq_ = [] → DpManager.upper_nonzero_var s = (0, s))
    ∧ (s.lower_varorder_pq_ = [] → DpManager.lower_nonzero_var s = (0, s))
    ∧ ((∀ v ∈ s.upper_varorder_pq_, 1 ≤ v) →
        ((DpManager.upper_nonzero_var s).1 = 0 ↔ s.upper_varorder_pq_ = []))
    ∧ ((∀ v ∈ s.lower_varorder_pq_, 1 ≤ v) →
        ((DpManager.lower_nonzero_var s).1 = 0 ↔ s.lower_varorder_pq_ = [])) := by
  refine ⟨?_, ?_, ?_, ?_⟩
  · intro hq
    simp [DpManager.upper_nonzero_var, hq]
  · intro hq
    simp [DpManager.lower_nonzero_var, hq]
  · intro hpos
    constructor
    · intro h0
      by_contra hq
      rw [upper_nonzero_var_eq s hq] at h0
      have := hpos _ (pqMax_mem _ hq)
      simp only at h0
      omega
    · intro hq
      simp [DpManager.upper_nonzero_var, hq]
  · intro hpos
    constructor
    · intro h0
      by_contra hq
      rw [lower_nonzero_var_eq s hq] at h0
      have := hpos _ (pqMin_mem _ hq)
      simp only at h0
      omega
    · intro hq
      simp [DpManager.lower_nonzero_var, hq]

/-- Instance of C19: both queues of `DpManager.sample` are empty; with the
upper queue 2, 5, 3 the value returned is not 0. -/
theorem nonzero_var_sentinel_witness :
    DpManager.upper_nonzero_var DpManager.sample = (0, DpManager.sample)
    ∧ DpManager.lower_nonzero_var DpManager.sample = (0, DpManager.sample)
    ∧ ((DpManager.upper_nonzero_var
          { DpManager.sample with upper_varorder_pq_ := [2, 5, 3] }).1 = 0
        ↔ ({ DpManager.sample with upper_varorder_pq_ := [2, 5, 3] } :
            DpManager).upper_varorder_pq_ = []) :=
  ⟨(nonzero_var_sentinel DpManager.sample).1 rfl,
   (nonzero_var_sentinel DpManager.sample).2.1 rfl,
   (nonzero_var_sentinel { DpManager.sample with upper_varorder_pq_ := [2, 5, 3] }).2.2.1
     (by decide)⟩

/-! ## C16, C17: reading and clearing the accumulators -/

/-- C16. For every DpManager state and node id `id` (indexing the two
accumulator vectors), `get_count_and_clear(id)` and
`get_low_count_and_clear(id)` return `diff_counter[id]` and set it to 0,
`get_high_count_and_clear(id)` returns `diff_counter_hi[id]` and sets it to
0; the other accumulator of `id`, the accumulators of every other node, the
buckets and both queues are unchanged, and a second identical call returns
0. -/
theorem get_and_clear_spec (s : DpManager) (id c ch : Nat)
    (hc : s.diff_counter_[id]? = some c) (hch : s.diff_counter_hi_[id]? = some ch) :
    DpManager.get_count_and_clear s (id : Int)
      = some (c, { s with diff_counter_ := s.diff_counter_.set id 0 })
    ∧ DpManager.get_low_count_and_clear s (id : Int)
      = some (c, { s with diff_counter_ := s.diff_counter_.set id 0 })
    ∧ DpManager.get_high_count_and_clear s (id : Int)
      = some (ch, { s with diff_counter_hi_ := s.diff_counter_hi_.set id 0 })
    ∧ (s.diff_counter_.set id 0)[id]? = some 0
    ∧ (s.diff_counter_hi_.set id 0)[id]? = some 0
    ∧ (∀ j, j ≠ id → (s.diff_counter_.set id 0)[j]? = s.diff_counter_[j]?
        ∧ (s.diff_counter_hi_.set id 0)[j]? = s.diff_counter_hi_[j]?)
    ∧ DpManager.get_count_and_clear
          { s with diff_counter_ := s.diff_counter_.set id 0 } (id : Int)
        = some (0, { s with diff_counter_ := s.diff_counter_.set id 0 })
    ∧ DpManager.get_low_count_and_clear
          { s with diff_counter_ := s.diff_counter_.set id 0 } (id : Int)
        = some (0, { s with diff_counter_ := s.diff_counter_.set id 0 })
    ∧ DpManager.get_high_count_and_clear
          { s with diff_counter_hi_ := s.diff_counter_hi_.set id 0 } (id : Int)
        = some (0, { s with diff_counter_hi_ := s.diff_counter_hi_.set id 0 }) := by
  have hid := lt_length_of_getElem? hc
  have hidh := lt_length_of_getElem? hch
  refine ⟨?_, ?_, ?_, List.getElem?_set_self hid, List.getElem?_set_self hidh, ?_, ?_, ?_, ?_⟩
  · simp [DpManager.get_count_and_clear, getI_natCast, hc, setI_natCast _ _ _ hid]
  · simp [DpManager.get_low_count_and_clear, getI_natCast, hc, setI_natCast _ _ _ hid]
  · simp [DpManager.get_high_count_and_clear, getI_natCast, hch, setI_natCast _ _ _ hidh]
  · intro j hj
    exact ⟨List.getElem?_set_ne (Ne.symm hj), List.getElem?_set_ne (Ne.symm hj)⟩
  · simp only [DpManager.get_count_and_clear, getI_natCast, List.getElem?_set_self hid,
      Option.bind_eq_bind, Option.some_bind]
    rw [setI_natCast _ _ _ (by simpa using hid)]
    simp
  · simp only [DpManager.get_low_count_and_clear, getI_natCast, List.getElem?_set_self hid,
      Option.bind_eq_bind, Option.some_bind]
    rw [setI_natCast _ _ _ (by simpa using hid)]
    simp
  · simp only [DpManager.get_high_count_and_clear, getI_natCast, List.getElem?_set_self hidh,
      Option.bind_eq_bind, Option.some_bind]
    rw [setI_natCast _ _ _ (by simpa using hidh)]
    simp

/-- Instance of C16: node 1 holds 7 in `diff_counter` and 3 in
`diff_counter_hi`. -/
theorem get_and_clear_spec_witness :
    DpManager.get_count_and_clear { DpManager.sample with diff_counter_ := [0, 7, 0], diff_counter_hi_ := [0, 3, 0] } ((1 : Nat) : Int)
      = some (7, { { DpManager.sample with diff_counter_ := [0, 7, 0], diff_counter_hi_ := [0, 3, 0] } with diff_counter_ := { DpManager.sample with diff_counter_ := [0, 7, 0], diff_counter_hi_ := [0, 3, 0] }.diff_counter_.set (1 : Nat) 0 })
    ∧ DpManager.get_low_count_and_clear { DpManager.sample with diff_counter_ := [0, 7, 0], diff_counter_hi_ := [0, 3, 0] } ((1 : Nat) : Int)
      = some (7, { { DpManager.sample with diff_counter_ := [0, 7, 0], diff_counter_hi_ := [0, 3, 0] } with diff_counter_ := { DpManager.sample with diff_counter_ := [0, 7, 0], diff_counter_hi_ := [0, 3, 0] }.diff_counter_.set (1 : Nat) 0 })
    ∧ DpManager.get_high_count_and_clear { DpManager.sample with diff_counter_ := [0, 7, 0], diff_counter_hi_ := [0, 3, 0] } ((1 : Nat) : Int)
      = some (3, { { DpManager.sample with diff_counter_ := [0, 7, 0], diff_counter_hi_ := [0, 3, 0] } with diff_counter_hi_ := { DpManager.sample with diff_counter_ := [0, 7, 0], diff_counter_hi_ := [0, 3, 0] }.diff_counter_hi_.set (1 : Nat) 0 })
    ∧ ({ DpManager.sample with diff_counter_ := [0, 7, 0], diff_counter_hi_ := [0, 3, 0] }.diff_counter_.set (1 : Nat) 0)[(1 : Nat)]? = some 0
    ∧ ({ DpManager.sample with diff_counter_ := [0, 7, 0], diff_counter_hi_ := [0, 3, 0] }.diff_counter_hi_.set (1 : Nat) 0)[(1 : Nat)]? = some 0
    ∧ (∀ j, j ≠ (1 : Nat) → ({ DpManager.sample with diff_counter_ := [0, 7, 0], diff_counter_hi_ := [0, 3, 0] }.diff_counter_.set (1 : Nat) 0)[j]? = { DpManager.sample with diff_counter_ := [0, 7, 0], diff_counter_hi_ := [0, 3, 0] }.diff_counter_[j]?
        ∧ ({ DpManager.sample with diff_counter_ := [0, 7, 0], diff_counter_hi_ := [0, 3, 0] }.diff_counter_hi_.set (1 : Nat) 0)[j]? = { DpManager.sample with diff_counter_ := [0, 7, 0], diff_counter_hi_ := [0, 3, 0] }.diff_counter_hi_[j]?)
    ∧ DpManager.get_count_and_clear
          { { DpManager.sample with diff_counter_ := [0, 7, 0], diff_counter_hi_ := [0, 3, 0] } with diff_counter_ := { DpManager.sample with diff_counter_ := [0, 7, 0], diff_counter_hi_ := [0, 3, 0] }.diff_counter_.set (1 : Nat) 0 } ((1 : Nat) : Int)
        = some (0, { { DpManager.sample with diff_counter_ := [0, 7, 0], diff_counter_hi_ := [0, 3, 0] } with diff_counter_ := { DpManager.sample with diff_counter_ := [0, 7, 0], diff_counter_hi_ := [0, 3, 0] }.diff_counter_.set (1 : Nat) 0 })
    ∧ DpManager.get_low_count_and_clear
          { { DpManager.sample with diff_counter_ := [0, 7, 0], diff_counter_hi_ := [0, 3, 0] } with diff_counter_ := { DpManager.sample with diff_counter_ := [0, 7, 0], diff_counter_hi_ := [0, 3, 0] }.diff_counter_.set (1 : Nat) 0 } ((1 : Nat) : Int)
        = some (0, { { DpManager.sample with diff_counter_ := [0, 7, 0], diff_counter_hi_ := [0, 3, 0] } with diff_counter_ := { DpManager.sample with diff_counter_ := [0, 7, 0], diff_counter_hi_ := [0, 3, 0] }.diff_counter_.set (1 : Nat) 0 })
    ∧ DpManager.get_high_count_and_clear
          { { DpManager.sample with diff_counter_ := [0, 7, 0], diff_counter_hi_ := [0, 3, 0] } with diff_counter_hi_ := { DpManager.sample with diff_counter_ := [0, 7, 0], diff_counter_hi_ := [0, 3, 0] }.diff_counter_hi_.set (1 : Nat) 0 } ((1 : Nat) : Int)
        = some (0, { { DpManager.sample with diff_counter_ := [0, 7, 0], diff_counter_hi_ := [0, 3, 0] } with diff_counter_hi_ := { DpManager.sample with diff_counter_ := [0, 7, 0], diff_counter_hi_ := [0, 3, 0] }.diff_counter_hi_.set (1 : Nat) 0 }) :=
  get_and_clear_spec
    { DpManager.sample with diff_counter_ := [0, 7, 0], diff_counter_hi_ := [0, 3, 0] }
    1 7 3 (by decide) (by decide)

/-- Every `add_node_diff_count*` member that succeeds has read the two
accumulators it tests. -/
theorem getI_some_of_setI {α : Type} {l l1 : List α} {i : Int} {a : α}
    (h : setI l i a = some l1) :
    0 ≤ i ∧ i.toNat < l.length ∧ l1 = l.set i.toNat a := by
  unfold setI at h
  by_cases hc : 0 ≤ i ∧ i.toNat < l.length
  · rw [if_pos hc] at h
    exact ⟨hc.1, hc.2, (Option.some.inj h).symm⟩
  · rw [if_neg hc] at h
    simp at h

theorem append_elem_counters (s : DpManager) (var : Nat) (id : Int) (n : Int)
    (s2 : DpManager) (h : DpManager.append_elem s var id = some (n, s2)) :
    s2.diff_counter_ = s.diff_counter_ ∧ s2.diff_counter_hi_ = s.diff_counter_hi_ := by
  simp only [DpManager.append_elem, Option.bind_eq_bind, Option.bind_eq_some,
    Option.some.injEq, Prod.mk.injEq] at h
  obtain ⟨_, _, _, _, _, _, _, _, _, _, _, rfl⟩ := h
  exact ⟨rfl, rfl⟩

/-- Counter written by a successful `add_node_diff_count`. -/
theorem add_node_diff_count_counter (s s1 : DpManager) (var : Nat) (id : Int) (d : Nat)
    (h : DpManager.add_node_diff_count s var id d = some s1) :
    ∃ c, getI s.diff_counter_ id = some c
      ∧ getI s1.diff_counter_ id = some ((c + d) % 2 ^ 32) := by
  simp only [DpManager.add_node_diff_count, Option.bind_eq_bind, Option.bind_eq_some] at h
  obtain ⟨c, hc, dc, hdc, h⟩ := h
  obtain ⟨h0, hlt, rfl⟩ := getI_some_of_setI hdc
  refine ⟨c, hc, ?_⟩
  have hres : getI (s.diff_counter_.set id.toNat ((c + d) % 2 ^ 32)) id
      = some ((c + d) % 2 ^ 32) := by
    simp [getI, h0, List.getElem?_set_self hlt]
  by_cases hgt : (c + d) % 2 ^ 32 > d
  · rw [if_pos hgt] at h
    simp only [Option.some.injEq] at h
    subst h
    exact hres
  · rw [if_neg hgt] at h
    simp only [Option.bind_eq_some] at h
    obtain ⟨⟨n, s2⟩, happ, h⟩ := h
    have hcs := (append_elem_counters _ var id n s2 happ).1
    simp only at h
    by_cases hn : n = 0
    · rw [if_pos hn] at h
      simp only [Option.some.injEq] at h
      subst h
      simp only
      rw [hcs]
      exact hres
    · rw [if_neg hn] at h
      simp only [Option.some.injEq] at h
      subst h
      rw [hcs]
      exact hres

/-- Counter written by a successful `add_node_diff_count_low`. -/
theorem add_low_counter (s s1 : DpManager) (var : Nat) (id : Int) (d : Nat)
    (h : DpManager.add_node_diff_count_low s var id d = some s1) :
    ∃ c, getI s.diff_counter_ id = some c
      ∧ getI s1.diff_counter_ id = some ((c + d) % 2 ^ 32) := by
  simp only [DpManager.add_node_diff_count_low, Option.bind_eq_bind, Option.bind_eq_some] at h
  obtain ⟨c, hc, ch, _, dc, hdc, h⟩ := h
  obtain ⟨h0, hlt, rfl⟩ := getI_some_of_setI hdc
  refine ⟨c, hc, ?_⟩
  have hres : getI (s.diff_counter_.set id.toNat ((c + d) % 2 ^ 32)) id
      = some ((c + d) % 2 ^ 32) := by
    simp [getI, h0, List.getElem?_set_self hlt]
  by_cases hgt : c > 0 ∨ ch > 0
  · rw [if_pos hgt] at h
    simp only [Option.some.injEq] at h
    subst h
    exact hres
  · rw [if_neg hgt] at h
    simp only [Option.bind_eq_some] at h
    obtain ⟨⟨n, s2⟩, happ, h⟩ := h
    have hcs := (append_elem_counters _ var id n s2 happ).1
    simp only at h
    by_cases hn : n + 1 = 1
    · rw [if_pos hn] at h
      simp only [Option.some.injEq] at h
      subst h
      simp only
      rw [hcs]
      exact hres
    · rw [if_neg hn] at h
      simp only [Option.some.injEq] at h
      subst h
      rw [hcs]
      exact hres

/-- With the cells it addresses in place, `add_node_diff_count` returns. -/
theorem add_node_diff_count_total (s : DpManager) (var id d c n : Nat) (h : Int)
    (hc : s.diff_counter_[id]? = some c)
    (hn : s.num_elems_[var]? = some (n : Int)) (hh : s.var_heads_[var]? = some h)
    (h0 : 0 ≤ h) (hroom : h.toNat + n < s.table_elems_.length) (h31 : h + n + 1 < 2 ^ 31) :
    ∃ s1, DpManager.add_node_diff_count s var (id : Int) d = some s1 := by
  have hid := lt_length_of_getElem? hc
  obtain ⟨happ, _⟩ := append_elem_spec
    { s with diff_counter_ := s.diff_counter_.set id ((c + d) % 2 ^ 32) }
    var (id : Int) n h hn hh h0 hroom h31
  simp only [DpManager.add_node_diff_count, getI_natCast, hc, Option.bind_eq_bind,
    Option.some_bind, setI_natCast _ _ _ hid]
  by_cases hgt : (c + d) % 2 ^ 32 > d
  · rw [if_pos hgt]
    exact ⟨_, rfl⟩
  · rw [if_neg hgt, happ]
    simp only [Option.some_bind]
    by_cases hn0 : (n : Int) = 0
    · rw [if_pos hn0]
      exact ⟨_, rfl⟩
    · rw [if_neg hn0]
      exact ⟨_, rfl⟩

/-- With the cells it addresses in place, `add_node_diff_count_low` returns. -/
theorem add_low_total (s : DpManager) (var id d c ch n : Nat) (h : Int)
    (hc : s.diff_counter_[id]? = some c) (hch : s.diff_counter_hi_[id]? = some ch)
    (hn : s.num_elems_[var]? = some (n : Int)) (hh : s.var_heads_[var]? = some h)
    (h0 : 0 ≤ h) (hroom : h.toNat + n < s.table_elems_.length) (h31 : h + n + 1 < 2 ^ 31) :
    ∃ s1, DpManager.add_node_diff_count_low s var (id : Int) d = some s1 := by
  by_cases hz : c = 0 ∧ ch = 0
  · obtain ⟨rfl, rfl⟩ := hz
    exact ⟨_, add_low_clean s var id d n h hc hch hn hh h0 hroom h31⟩
  · exact ⟨_, add_low_dirty s var id d c ch hc hch hz⟩

/-- C17. `count_at` and `low_count_at` read the same cell, and
`get_low_count_and_clear` returns the same value and has the same effect as
`get_count_and_clear`; a delta added through `add_node_diff_count` is
therefore visible through `low_count_at`, and one added through
`add_node_diff_count_low` through `count_at` (`count_t` additions): every
call that returns shows it, and the calls return when the cells they address
exist. -/
theorem count_low_alias (s : DpManager) (id : Int) :
    DpManager.count_at s id = DpManager.low_count_at s id
    ∧ DpManager.get_low_count_and_clear s id = DpManager.get_count_and_clear s id
    ∧ (∀ (var d : Nat) (s1 : DpManager),
        DpManager.add_node_diff_count s var id d = some s1 →
        ∃ c, DpManager.count_at s id = some c
          ∧ DpManager.low_count_at s1 id = some ((c + d) % 2 ^ 32))
    ∧ (∀ (var d : Nat) (s1 : DpManager),
        DpManager.add_node_diff_count_low s var id d = some s1 →
        ∃ c, DpManager.low_count_at s id = some c
          ∧ DpManager.count_at s1 id = some ((c + d) % 2 ^ 32))
    ∧ (∀ (var k d c n : Nat) (h : Int), id = (k : Int) →
        s.diff_counter_[k]? = some c →
        s.num_elems_[var]? = some (n : Int) → s.var_heads_[var]? = some h → 0 ≤ h →
        h.toNat + n < s.table_elems_.length → h + n + 1 < 2 ^ 31 →
        ∃ s1, DpManager.add_node_diff_count s var id d = some s1
          ∧ DpManager.low_count_at s1 id = some ((c + d) % 2 ^ 32))
    ∧ (∀ (var k d c ch n : Nat) (h : Int), id = (k : Int) →
        s.diff_counter_[k]? = some c → s.diff_counter_hi_[k]? = some ch →
        s.num_elems_[var]? = some (n : Int) → s.var_heads_[var]? = some h → 0 ≤ h →
        h.toNat + n < s.table_elems_.length → h + n + 1 < 2 ^ 31 →
        ∃ s1, DpManager.add_node_diff_count_low s var id d = some s1
          ∧ DpManager.count_at s1 id = some ((c + d) % 2 ^ 32)) := by
  refine ⟨rfl, rfl, fun var d s1 h => add_node_diff_count_counter s s1 var id d h,
    fun var d s1 h => add_low_counter s s1 var id d h, ?_, ?_⟩
  · intro var k d c n h hid hc hn hh h0 hroom h31
    subst hid
    obtain ⟨s1, hs1⟩ := add_node_diff_count_total s var k d c n h hc hn hh h0 hroom h31
    obtain ⟨c1, hc1, hres⟩ := add_node_diff_count_counter s s1 var (k : Int) d hs1
    rw [getI_natCast, hc] at hc1
    cases hc1
    exact ⟨s1, hs1, hres⟩
  · intro var k d c ch n h hid hc hch hn hh h0 hroom h31
    subst hid
    obtain ⟨s1, hs1⟩ := add_low_total s var k d c ch n h hc hch hn hh h0 hroom h31
    obtain ⟨c1, hc1, hres⟩ := add_low_counter s s1 var (k : Int) d hs1
    rw [getI_natCast, hc] at hc1
    cases hc1
    exact ⟨s1, hs1, hres⟩

/-- Instance of C17: the delta 5 added to node 1 of the sample state through
`add_node_diff_count` is read by `low_count_at`. -/
theorem count_low_alias_witness :
    ∃ s1, DpManager.add_node_diff_count DpManager.sample 1 1 5 = some s1
      ∧ DpManager.low_count_at s1 1 = some ((0 + 5) % 2 ^ 32) :=
  (count_low_alias DpManager.sample 1).2.2.2.2.1 1 1 5 0 0 0 rfl (by decide) (by decide)
    (by decide) (by decide) (by decide) (by decide)

/-! ## C20: `clear_var_elems` -/

theorem bucket_length (s : DpManager) (var n : Nat) (h : Int)
    (hn : s.num_elems_[var]? = some (n : Int)) (hh : s.var_heads_[var]? = some h)
    (hroom : h.toNat + n ≤ s.table_elems_.length) :
    (DpManager.bucket s var).length = n := by
  simp only [DpManager.bucket, hn, hh, Int.toNat_ofNat]
  rw [List.length_take, List.length_drop]
  omega

/-- Inside a bucket `at(var, i)` reads entry `i` of the bucket. -/
theorem at_eq_bucket (s : DpManager) (var n : Nat) (h : Int)
    (hn : s.num_elems_[var]? = some (n : Int)) (hh : s.var_heads_[var]? = some h)
    (h0 : 0 ≤ h) (h31 : h + n < 2 ^ 31) (i : Nat) (hi : i < n) :
    DpManager.at_ s var (i : Int) = (DpManager.bucket s var)[i]? := by
  have hidx : h + (i : Int) = ((h.toNat + i : Nat) : Int) := by
    push_cast; omega
  simp only [DpManager.at_, hh, Option.bind_eq_bind, Option.some_bind,
    int32Add_of_lt h i (by omega) (by omega), DpManager.bucket, hn, Int.toNat_ofNat]
  rw [hidx, getI_natCast, List.getElem?_take_of_lt hi, List.getElem?_drop]

theorem clear_loop_spec (s : DpManager) (var n : Nat) (h : Int)
    (hn : s.num_elems_[var]? = some (n : Int)) (hh : s.var_heads_[var]? = some h)
    (h0 : 0 ≤ h) (hroom : h.toNat + n ≤ s.table_elems_.length) (h31 : h + n < 2 ^ 31) :
    ∀ (k i : Nat) (dc dch : List Nat), i + k = n →
      (∀ e ∈ (DpManager.bucket s var).drop i,
          0 ≤ e ∧ e.toNat < dc.length ∧ e.toNat < dch.length) →
      ∃ dc1 dch1, DpManager.clear_loop s var k (i : Int) dc dch = some (dc1, dch1)
        ∧ dc1.length = dc.length ∧ dch1.length = dch.length
        ∧ (∀ j : Nat, dc1[j]? =
            if (j : Int) ∈ (DpManager.bucket s var).drop i then some 0 else dc[j]?)
        ∧ (∀ j : Nat, dch1[j]? =
            if (j : Int) ∈ (DpManager.bucket s var).drop i then some 0 else dch[j]?) := by
  have hlen := bucket_length s var n h hn hh hroom
  intro k
  induction k with
  | zero =>
    intro i dc dch hik _
    have hdrop : (DpManager.bucket s var).drop i = [] := by
      apply List.drop_eq_nil_of_le; omega
    refine ⟨dc, dch, rfl, rfl, rfl, ?_, ?_⟩ <;> intro j <;> simp [hdrop]
  | succ k ih =>
    intro i dc dch hik hids
    have hi : i < n := by omega
    have hib : i < (DpManager.bucket s var).length := by omega
    have hdrop : (DpManager.bucket s var).drop i
        = (DpManager.bucket s var)[i] :: (DpManager.bucket s var).drop (i + 1) :=
      List.drop_eq_getElem_cons hib
    have hat : DpManager.at_ s var (i : Int) = some (DpManager.bucket s var)[i] := by
      rw [at_eq_bucket s var n h hn hh h0 h31 i hi, List.getElem?_eq_getElem hib]
    obtain ⟨he0, he1, he2⟩ := hids _ (by rw [hdrop]; exact List.mem_cons_self _ _)
    have hs1 : setI dc (DpManager.bucket s var)[i] 0
        = some (dc.set (DpManager.bucket s var)[i].toNat 0) := by
      simp [setI, he0, he1]
    have hs2 : setI dch (DpManager.bucket s var)[i] 0
        = some (dch.set (DpManager.bucket s var)[i].toNat 0) := by
      simp [setI, he0, he2]
    obtain ⟨dc1, dch1, hrun, hl1, hl2, hv1, hv2⟩ := ih (i + 1)
      (dc.set (DpManager.bucket s var)[i].toNat 0)
      (dch.set (DpManager.bucket s var)[i].toNat 0) (by omega)
      (by
        intro e he
        have := hids e (by rw [hdrop]; exact List.mem_cons_of_mem _ he)
        simpa using this)
    refine ⟨dc1, dch1, ?_, by simpa using hl1, by simpa using hl2, ?_, ?_⟩
    · simp only [DpManager.clear_loop, hat, hs1, hs2, Option.bind_eq_bind, Option.some_bind]
      have : ((i : Int) + 1) = ((i + 1 : Nat) : Int) := by push_cast; rfl
      rw [this]
      exact hrun
    · intro j
      rw [hv1 j, hdrop]
      by_cases hj : (j : Int) ∈ (DpManager.bucket s var).drop (i + 1)
      · rw [if_pos hj, if_pos (List.mem_cons_of_mem _ hj)]
      · by_cases hje : (j : Int) = (DpManager.bucket s var)[i]
        · have hjn : j = (DpManager.bucket s var)[i].toNat := by omega
          rw [if_neg hj, if_pos (by rw [hje]; exact List.mem_cons_self _ _), hjn]
          exact List.getElem?_set_self he1
        · have hjn : (DpManager.bucket s var)[i].toNat ≠ j := by omega
          rw [if_neg hj, if_neg (by
            intro hm
            rcases List.mem_cons.1 hm with h1 | h1
            · exact hje h1
            · exact hj h1)]
          exact List.getElem?_set_ne hjn
    · intro j
      rw [hv2 j, hdrop]
      by_cases hj : (j : Int) ∈ (DpManager.bucket s var).drop (i + 1)
      · rw [if_pos hj, if_pos (List.mem_cons_of_mem _ hj)]
      · by_cases hje : (j : Int) = (DpManager.bucket s var)[i]
        · have hjn : j = (DpManager.bucket s var)[i].toNat := by omega
          rw [if_neg hj, if_pos (by rw [hje]; exact List.mem_cons_self _ _), hjn]
          exact List.getElem?_set_self he2
        · have hjn : (DpManager.bucket s var)[i].toNat ≠ j := by omega
          rw [if_neg hj, if_neg (by
            intro hm
            rcases List.mem_cons.1 hm with h1 | h1
            · exact hje h1
            · exact hj h1)]
          exact List.getElem?_set_ne hjn

/-- C20. For every DpManager state and variable `var` (the bucket lying inside
the table and holding ids that index both accumulator vectors),
`clear_var_elems(var)` sets `diff_counter` and `diff_counter_hi` to 0 for
every node id stored in `buckets[var]` and makes `num_elems(var) = 0`; the
accumulators of the node ids not in that bucket, the sizes and contents of all
other buckets, the table and both priority queues are unchanged. -/
theorem clear_var_elems_spec (s : DpManager) (var n : Nat) (h : Int)
    (hn : s.num_elems_[var]? = some (n : Int)) (hh : s.var_heads_[var]? = some h)
    (h0 : 0 ≤ h) (hroom : h.toNat + n ≤ s.table_elems_.length) (h31 : h + n < 2 ^ 31)
    (hids : ∀ e ∈ DpManager.bucket s var,
      0 ≤ e ∧ e.toNat < s.diff_counter_.length ∧ e.toNat < s.diff_counter_hi_.length) :
    ∃ s1, DpManager.clear_var_elems s var = some s1
      ∧ (∀ e ∈ DpManager.bucket s var,
          DpManager.count_at s1 e = some 0 ∧ DpManager.high_count_at s1 e = some 0)
      ∧ DpManager.num_elems s1 var = some 0
      ∧ (∀ j : Nat, (j : Int) ∉ DpManager.bucket s var →
          s1.diff_counter_[j]? = s.diff_counter_[j]?
          ∧ s1.diff_counter_hi_[j]? = s.diff_counter_hi_[j]?)
      ∧ (∀ w, w ≠ var → DpManager.num_elems s1 w = DpManager.num_elems s w
          ∧ DpManager.bucket s1 w = DpManager.bucket s w)
      ∧ s1.table_elems_ = s.table_elems_ ∧ s1.var_heads_ = s.var_heads_
      ∧ s1.lower_varorder_pq_ = s.lower_varorder_pq_
      ∧ s1.upper_varorder_pq_ = s.upper_varorder_pq_ := by
  have hvar := lt_length_of_getElem? hn
  obtain ⟨dc1, dch1, hrun, _, _, hv1, hv2⟩ :=
    clear_loop_spec s var n h hn hh h0 hroom h31 n 0 s.diff_counter_ s.diff_counter_hi_
      (by omega) (by simpa using hids)
  simp only [List.drop_zero] at hv1 hv2
  refine ⟨{ s with diff_counter_ := dc1, diff_counter_hi_ := dch1,
                   num_elems_ := s.num_elems_.set var 0 }, ?_, ?_, ?_, ?_, ?_, rfl, rfl, rfl, rfl⟩
  · have hneg : ¬ ((n : Int) < 0) := by omega
    simp only [DpManager.clear_var_elems, hn, Option.bind_eq_bind, Option.some_bind, hneg,
      if_false, Int.toNat_ofNat]
    have hz : ((0 : Nat) : Int) = 0 := rfl
    rw [← hz, hrun]
    rfl
  · intro e he
    obtain ⟨he0, _, _⟩ := hids e he
    have hcast : ((e.toNat : Nat) : Int) = e := by omega
    have h1 := hv1 e.toNat
    have h2 := hv2 e.toNat
    rw [hcast, if_pos he] at h1 h2
    simp only [DpManager.count_at, DpManager.high_count_at, getI, he0, if_true]
    exact ⟨h1, h2⟩
  · simp [DpManager.num_elems, List.getElem?_set_self hvar]
  · intro j hj
    have h1 := hv1 j
    have h2 := hv2 j
    rw [if_neg hj] at h1 h2
    exact ⟨h1, h2⟩
  · intro w hw
    have hne : (s.num_elems_.set var 0)[w]? = s.num_elems_[w]? :=
      List.getElem?_set_ne (Ne.symm hw)
    exact ⟨hne, by simp only [DpManager.bucket, hne]⟩

/-- Instance of C20: the bucket of variable 1 holds the nodes 1 and 0, whose
accumulators are not zero; node 2 keeps its values. -/
theorem clear_var_elems_spec_witness :
    ∃ s1, DpManager.clear_var_elems
        { DpManager.sample with
          table_elems_ := [1, 0, 2], num_elems_ := [0, 2, 1],
          diff_counter_ := [4, 5, 6], diff_counter_hi_ := [7, 0, 8] } 1 = some s1
      ∧ s1.diff_counter_ = [0, 0, 6] ∧ s1.diff_counter_hi_ = [0, 0, 8]
      ∧ DpManager.num_elems s1 1 = some 0
      ∧ DpManager.bucket s1 2 = [2] := by
  obtain ⟨s1, h1, _⟩ := clear_var_elems_spec
    { DpManager.sample with
      table_elems_ := [1, 0, 2], num_elems_ := [0, 2, 1],
      diff_counter_ := [4, 5, 6], diff_counter_hi_ := [7, 0, 8] } 1 2 0
    (by decide) (by decide) (by decide) (by decide) (by decide) (by decide)
  refine ⟨s1, h1, ?_⟩
  have h2 : DpManager.clear_var_elems
      { DpManager.sample with
        table_elems_ := [1, 0, 2], num_elems_ := [0, 2, 1],
        diff_counter_ := [4, 5, 6], diff_counter_hi_ := [7, 0, 8] } 1
      = some { DpManager.sample with
        table_elems_ := [1, 0, 2], num_elems_ := [0, 0, 1],
        diff_counter_ := [0, 0, 6], diff_counter_hi_ := [0, 0, 8] } := by decide
  rw [h2] at h1
  cases h1
  decide

/-! ## C18: every touched node is bucketed once -/

theorem sumFor_append (a b : List (Nat × Nat × Nat)) (id : Nat) :
    DpManager.sumFor (a ++ b) id = DpManager.sumFor a id + DpManager.sumFor b id := by
  simp [DpManager.sumFor, List.filter_append]

theorem idsOf_append (a b : List (Nat × Nat × Nat)) (v : Nat) :
    DpManager.idsOf (a ++ b) v = DpManager.idsOf a v ++ DpManager.idsOf b v := by
  simp [DpManager.idsOf, List.filter_append]

theorem mem_idsOf {cs : List (Nat × Nat × Nat)} {v : Nat} {x : Int} :
    x ∈ DpManager.idsOf cs v ↔ ∃ c ∈ cs, c.1 = v ∧ x = (c.2.1 : Int) := by
  simp only [DpManager.idsOf, List.mem_map, List.mem_filter, decide_eq_true_eq]
  constructor
  · rintro ⟨c, ⟨hc, hv⟩, rfl⟩
    exact ⟨c, hc, hv, rfl⟩
  · rintro ⟨c, hc, hv, rfl⟩
    exact ⟨c, ⟨hc, hv⟩, rfl⟩

theorem sumFor_pos_of_mem {cs : List (Nat × Nat × Nat)} (hpos : ∀ c ∈ cs, 0 < c.2.2)
    {c : Nat × Nat × Nat} (hc : c ∈ cs) : 0 < DpManager.sumFor cs c.2.1 := by
  induction cs with
  | nil => simp at hc
  | cons a rest ih =>
    have hsplit := sumFor_append [a] rest c.2.1
    simp only [List.singleton_append] at hsplit
    rw [hsplit]
    rcases List.mem_cons.1 hc with rfl | hc
    · have := hpos c (List.mem_cons_self _ _)
      have h1 : DpManager.sumFor [c] c.2.1 = c.2.2 := by simp [DpManager.sumFor]
      omega
    · have := ih (fun x hx => hpos x (List.mem_cons_of_mem _ hx)) hc
      omega

theorem sumFor_eq_zero_of_not_mem {cs : List (Nat × Nat × Nat)} {id : Nat}
    (h : ∀ c ∈ cs, c.2.1 ≠ id) : DpManager.sumFor cs id = 0 := by
  have : cs.filter (fun c => decide (c.2.1 = id)) = [] := by
    rw [List.filter_eq_nil_iff]
    intro c hc
    simpa using h c hc
  simp [DpManager.sumFor, this]

theorem runAdds_append (a : List (Nat × Nat × Nat)) (c : Nat × Nat × Nat) :
    ∀ s, DpManager.runAdds s (a ++ [c])
      = (DpManager.runAdds s a).bind
          (fun s1 => DpManager.add_node_diff_count s1 c.1 (c.2.1 : Int) c.2.2) := by
  induction a with
  | nil =>
    intro s
    simp only [List.nil_append, DpManager.runAdds, Option.some_bind]
    cases DpManager.add_node_diff_count s c.1 (c.2.1 : Int) c.2.2 <;> rfl
  | cons b rest ih =>
    intro s
    simp only [List.cons_append, DpManager.runAdds]
    cases DpManager.add_node_diff_count s b.1 (b.2.1 : Int) b.2.2 with
    | none => rfl
    | some s1 => exact ih s1

theorem length_le_card_of_nodup_subset {l1 l2 : List Int} (hnd : l1.Nodup)
    (hsub : ∀ x ∈ l1, x ∈ l2) : l1.length ≤ l2.toFinset.card := by
  rw [← List.toFinset_card_of_nodup hnd]
  apply Finset.card_le_card
  intro x hx
  rw [List.mem_toFinset] at hx ⊢
  exact hsub x hx

/-- Bucket of another variable after an append into the room of `v`. -/
theorem bucket_other (s : DpManager) (cap : Nat → Nat) (v w : Nat) (h hw : Int) (n m : Nat)
    (id : Int) (n1 : Int) (dc : List Nat) (lq : List Nat)
    (hvw : w ≠ v) (hhw : s.var_heads_[w]? = some hw) (hn : n < cap v)
    (hnw : s.num_elems_[w]? = some (m : Int)) (hcw : m ≤ cap w)
    (hdis : h.toNat + cap v ≤ hw.toNat ∨ hw.toNat + cap w ≤ h.toNat) :
    DpManager.bucket { s with
        diff_counter_ := dc,
        table_elems_ := s.table_elems_.set (h.toNat + n) id,
        num_elems_ := s.num_elems_.set v n1,
        lower_varorder_pq_ := lq } w
      = DpManager.bucket s w := by
  have hne : (s.num_elems_.set v n1)[w]? = s.num_elems_[w]? :=
    List.getElem?_set_ne (Ne.symm hvw)
  simp only [DpManager.bucket, hne, hnw, hhw, Int.toNat_ofNat]
  apply take_drop_set_outside
  omega

/-- One more call keeps the invariant `AddInv`. -/
theorem addInv_step (s0 : DpManager) (cap : Nat → Nat) (cs : List (Nat × Nat × Nat))
    (hlay : DpManager.Layout s0 cap)
    (hvalid : ∀ c ∈ cs, c.2.1 < s0.diff_counter_.length ∧ c.1 < s0.num_elems_.length
      ∧ 0 < c.2.2)
    (hsame : ∀ a ∈ cs, ∀ b ∈ cs, a.2.1 = b.2.1 → a.1 = b.1)
    (hsum : ∀ id, id < s0.diff_counter_.length → DpManager.sumFor cs id < 2 ^ 32)
    (hcap : ∀ v, v < s0.num_elems_.length → (DpManager.idsOf cs v).toFinset.card ≤ cap v)
    (pre post : List (Nat × Nat × Nat)) (v i d : Nat) (hcs : cs = pre ++ (v, i, d) :: post)
    (s : DpManager) (hinv : DpManager.AddInv s0 cap s pre) :
    ∃ s1, DpManager.add_node_diff_count s v (i : Int) d = some s1
      ∧ DpManager.AddInv s0 cap s1 (pre ++ [(v, i, d)]) := by
  obtain ⟨hI1, hI2, hI3, hI4, hI5, hI6⟩ := hinv
  obtain ⟨hl1, hl2, hl3⟩ := hlay
  have hmem : (v, i, d) ∈ cs := by rw [hcs]; simp
  have hpre : ∀ c ∈ pre, c ∈ cs := by intro c hc; rw [hcs]; simp [hc]
  obtain ⟨hi, hv, hd⟩ := hvalid _ hmem
  simp only at hi hv hd
  have hcnt := hI5 i hi
  have hle : DpManager.sumFor pre i + d ≤ DpManager.sumFor cs i := by
    have h1 := sumFor_append pre ((v, i, d) :: post) i
    have h2 := sumFor_append [(v, i, d)] post i
    simp only [List.singleton_append] at h2
    have h3 : DpManager.sumFor [(v, i, d)] i = d := by simp [DpManager.sumFor]
    rw [hcs, h1, h2, h3]
    omega
  have hsum1 : DpManager.sumFor pre i + d < 2 ^ 32 := lt_of_le_of_lt hle (hsum i hi)
  have hnewsum : ∀ j, DpManager.sumFor (pre ++ [(v, i, d)]) j
      = if j = i then DpManager.sumFor pre j + d else DpManager.sumFor pre j := by
    intro j
    rw [sumFor_append]
    by_cases hj : j = i
    · subst hj; simp [DpManager.sumFor]
    · have : ¬ (i = j) := fun h => hj h.symm
      simp [DpManager.sumFor, hj, this]
  have hnewids : ∀ w x, x ∈ DpManager.idsOf (pre ++ [(v, i, d)]) w
      ↔ x ∈ DpManager.idsOf pre w ∨ (v = w ∧ x = (i : Int)) := by
    intro w x
    rw [idsOf_append, List.mem_append]
    have : x ∈ DpManager.idsOf [(v, i, d)] w ↔ (v = w ∧ x = (i : Int)) := by
      rw [mem_idsOf]
      simp
    rw [this]
  by_cases hc0 : DpManager.sumFor pre i = 0
  · -- the node is clean: it is appended
    have hfresh : ∀ c ∈ pre, c.2.1 ≠ i := by
      intro c hc hci
      have := sumFor_pos_of_mem (fun x hx => (hvalid x (hpre x hx)).2.2) hc
      rw [hci] at this
      omega
    have hnotin : ∀ w, (i : Int) ∉ DpManager.idsOf pre w := by
      intro w hin
      obtain ⟨c, hc, _, hci⟩ := mem_idsOf.1 hin
      exact hfresh c hc (by exact_mod_cast hci.symm)
    obtain ⟨hnv, hcv, hndv, hmv⟩ := hI6 v hv
    have hvh : v < s.var_heads_.length := by rw [hI1, hl1]; exact hv
    obtain ⟨h, hh⟩ : ∃ h, s.var_heads_[v]? = some h :=
      ⟨s.var_heads_[v], List.getElem?_eq_getElem hvh⟩
    have hh0 : s0.var_heads_[v]? = some h := by rw [← hI1]; exact hh
    obtain ⟨h0, hroom, h31⟩ := hl2 v h hh0
    have hiv : (i : Int) ∉ DpManager.bucket s v := fun hin => hnotin v ((hmv _).1 hin)
    have hlt : (DpManager.bucket s v).length < cap v := by
      have hnd : ((i : Int) :: DpManager.bucket s v).Nodup := List.nodup_cons.2 ⟨hiv, hndv⟩
      have hsub : ∀ x ∈ ((i : Int) :: DpManager.bucket s v), x ∈ DpManager.idsOf cs v := by
        intro x hx
        rcases List.mem_cons.1 hx with rfl | hx
        · exact mem_idsOf.2 ⟨(v, i, d), hmem, rfl, rfl⟩
        · obtain ⟨c, hc, hcv2, hcx⟩ := mem_idsOf.1 ((hmv x).1 hx)
          exact mem_idsOf.2 ⟨c, hpre c hc, hcv2, hcx⟩
      have := length_le_card_of_nodup_subset hnd hsub
      have := hcap v hv
      simp only [List.length_cons] at *
      omega
    rw [hc0] at hcnt
    have hclean := add_node_diff_count_clean s v i d (DpManager.bucket s v).length h hcnt
      (by omega) hnv hh h0 (by rw [hI2]; omega) (by omega)
    have hbk := (append_elem_spec s v (i : Int) (DpManager.bucket s v).length h hnv hh h0
      (by rw [hI2]; omega) (by omega)).2
    refine ⟨_, hclean, ?_, ?_, ?_, ?_, ?_, ?_⟩
    · exact hI1
    · simp only [List.length_set]; exact hI2
    · simp only [List.length_set]; exact hI3
    · simp only [List.length_set]; exact hI4
    · intro j hj
      rw [hnewsum j]
      by_cases hji : j = i
      · subst hji
        rw [if_pos rfl, hc0, Nat.zero_add]
        exact List.getElem?_set_self (by rw [hI4]; exact hj)
      · rw [if_neg hji]
        simp only
        rw [List.getElem?_set_ne (fun h => hji h.symm)]
        exact hI5 j hj
    · intro w hw
      by_cases hwv : w = v
      · subst hwv
        have hbk2 : DpManager.bucket
            { s with
              diff_counter_ := s.diff_counter_.set i d,
              table_elems_ := s.table_elems_.set (h.toNat + (DpManager.bucket s w).length) (i : Int),
              num_elems_ := s.num_elems_.set w ((((DpManager.bucket s w).length : Nat) : Int) + 1),
              lower_varorder_pq_ :=
                if (DpManager.bucket s w).length = 0 then w :: s.lower_varorder_pq_
                else s.lower_varorder_pq_ } w
            = DpManager.bucket s w ++ [(i : Int)] := hbk
        rw [hbk2]
        refine ⟨?_, ?_, ?_, ?_⟩
        · simp only
          rw [List.getElem?_set_self (by rw [hI3]; exact hw)]
          simp
        · simp only [List.length_append, List.length_singleton]; omega
        · rw [List.nodup_append]
          refine ⟨hndv, by simp, ?_⟩
          intro x hx1 hx2
          simp only [List.mem_singleton] at hx2
          subst hx2
          exact hiv hx1
        · intro x
          rw [hnewids, List.mem_append, hmv x]
          simp
      · obtain ⟨hnw, hcw, hndw, hmw⟩ := hI6 w hw
        have hwh : w < s.var_heads_.length := by rw [hI1, hl1]; exact hw
        obtain ⟨g, hg⟩ : ∃ g, s.var_heads_[w]? = some g :=
          ⟨s.var_heads_[w], List.getElem?_eq_getElem hwh⟩
        have hg0 : s0.var_heads_[w]? = some g := by rw [← hI1]; exact hg
        have hdis := hl3 v w h g (fun hvw => hwv hvw.symm) hh0 hg0
        have hbo := bucket_other s cap v w h g (DpManager.bucket s v).length
          (DpManager.bucket s w).length (i : Int)
          ((((DpManager.bucket s v).length : Nat) : Int) + 1) (s.diff_counter_.set i d)
          (if (DpManager.bucket s v).length = 0 then v :: s.lower_varorder_pq_
            else s.lower_varorder_pq_)
          hwv hg hlt hnw hcw hdis
        rw [hbo]
        refine ⟨?_, hcw, hndw, ?_⟩
        · simp only
          rw [List.getElem?_set_ne (fun h => hwv h.symm)]
          exact hnw
        · intro x
          rw [hnewids, hmw x]
          constructor
          · intro hx; exact Or.inl hx
          · rintro (hx | ⟨hvw, _⟩)
            · exact hx
            · exact absurd hvw.symm hwv
  · -- the node is dirty: only its counter changes
    have hdirty := add_node_diff_count_dirty s v i d (DpManager.sumFor pre i) hcnt hsum1 hc0
    have hex : ∃ c ∈ pre, c.2.1 = i := by
      by_contra hno
      exact hc0 (sumFor_eq_zero_of_not_mem (fun c hc hci => hno ⟨c, hc, hci⟩))
    obtain ⟨c, hc, hci⟩ := hex
    have hcv : c.1 = v := hsame c (hpre c hc) (v, i, d) hmem hci
    have hin : (i : Int) ∈ DpManager.idsOf pre v :=
      mem_idsOf.2 ⟨c, hc, hcv, by rw [hci]⟩
    refine ⟨_, hdirty, hI1, hI2, hI3, ?_, ?_, ?_⟩
    · simp only [List.length_set]; exact hI4
    · intro j hj
      rw [hnewsum j]
      by_cases hji : j = i
      · subst hji
        rw [if_pos rfl]
        exact List.getElem?_set_self (by rw [hI4]; exact hj)
      · rw [if_neg hji]
        simp only
        rw [List.getElem?_set_ne (fun h => hji h.symm)]
        exact hI5 j hj
    · intro w hw
      obtain ⟨hnw, hcw, hndw, hmw⟩ := hI6 w hw
      refine ⟨hnw, hcw, hndw, ?_⟩
      intro x
      have hmx : x ∈ DpManager.bucket s w ↔ x ∈ DpManager.idsOf pre w := hmw x
      rw [hnewids]
      constructor
      · intro hx; exact Or.inl (hmx.1 hx)
      · rintro (hx | ⟨hvw, hxi⟩)
        · exact hmx.2 hx
        · subst hvw; subst hxi; exact hmx.2 hin

/-- Every prefix of the call sequence runs and keeps the invariant. -/
theorem addInv_prefix (s0 : DpManager) (cap : Nat → Nat) (cs : List (Nat × Nat × Nat))
    (hzero : ∀ c ∈ s0.diff_counter_, c = 0)
    (hempty : ∀ n ∈ s0.num_elems_, n = 0)
    (hlay : DpManager.Layout s0 cap)
    (hvalid : ∀ c ∈ cs, c.2.1 < s0.diff_counter_.length ∧ c.1 < s0.num_elems_.length
      ∧ 0 < c.2.2)
    (hsame : ∀ a ∈ cs, ∀ b ∈ cs, a.2.1 = b.2.1 → a.1 = b.1)
    (hsum : ∀ id, id < s0.diff_counter_.length → DpManager.sumFor cs id < 2 ^ 32)
    (hcap : ∀ v, v < s0.num_elems_.length → (DpManager.idsOf cs v).toFinset.card ≤ cap v)
    (pre : List (Nat × Nat × Nat)) :
    ∀ post, cs = pre ++ post →
      ∃ s, DpManager.runAdds s0 pre = some s ∧ DpManager.AddInv s0 cap s pre := by
  induction pre using List.reverseRecOn with
  | nil =>
    intro post _
    refine ⟨s0, rfl, rfl, rfl, rfl, rfl, ?_, ?_⟩
    · intro j hj
      have h1 : s0.diff_counter_[j]? = some s0.diff_counter_[j] := List.getElem?_eq_getElem hj
      rw [h1, hzero _ (List.getElem_mem hj)]
      simp [DpManager.sumFor]
    · intro v hv
      have h1 : s0.num_elems_[v]? = some s0.num_elems_[v] := List.getElem?_eq_getElem hv
      have h2 : s0.num_elems_[v] = 0 := hempty _ (List.getElem_mem hv)
      rw [h2] at h1
      have hb : DpManager.bucket s0 v = [] := by
        unfold DpManager.bucket
        rw [h1]
        cases s0.var_heads_[v]? <;> simp
      rw [hb]
      refine ⟨by simpa using h1, Nat.zero_le _, List.nodup_nil, ?_⟩
      intro x
      simp [DpManager.idsOf]
  | append_singleton pre c ih =>
    intro post hcs
    obtain ⟨s, hrun, hinv⟩ := ih (c :: post) (by rw [hcs]; simp)
    obtain ⟨v, i, d⟩ := c
    obtain ⟨s1, hstep, hinv1⟩ := addInv_step s0 cap cs hlay hvalid hsame hsum hcap pre post v i d
      (by rw [hcs]; simp) s hinv
    refine ⟨s1, ?_, hinv1⟩
    rw [runAdds_append, hrun]
    exact hstep

/-- C18. Starting from a DpManager whose `diff_counter` entries are all zero
and whose buckets are all empty, the buckets being laid out in the table
without overlap with room for `cap var` entries each, every sequence of
`add_node_diff_count(var, id, d)` calls with positive deltas whose per-node
sums stay below 2^32 (ids inside the counter vector, every id always passed
with the same var, at most `cap var` distinct ids per var) runs to the end;
afterwards every id that was passed occurs exactly once in `buckets[var]`, the
entries of each bucket are pairwise distinct and are exactly the ids passed
with that var, and `at(var, i)` for `i` from 0 to `num_elems(var) - 1` reads
the entries of the bucket one by one. -/
theorem bucketed_once (s0 : DpManager) (cap : Nat → Nat) (cs : List (Nat × Nat × Nat))
    (hzero : ∀ c ∈ s0.diff_counter_, c = 0)
    (hempty : ∀ n ∈ s0.num_elems_, n = 0)
    (hlay : DpManager.Layout s0 cap)
    (hvalid : ∀ c ∈ cs, c.2.1 < s0.diff_counter_.length ∧ c.1 < s0.num_elems_.length
      ∧ 0 < c.2.2)
    (hsame : ∀ a ∈ cs, ∀ b ∈ cs, a.2.1 = b.2.1 → a.1 = b.1)
    (hsum : ∀ id, id < s0.diff_counter_.length → DpManager.sumFor cs id < 2 ^ 32)
    (hcap : ∀ v, v < s0.num_elems_.length → (DpManager.idsOf cs v).toFinset.card ≤ cap v) :
    ∃ s1, DpManager.runAdds s0 cs = some s1
      ∧ (∀ c ∈ cs, (DpManager.bucket s1 c.1).count (c.2.1 : Int) = 1)
      ∧ ∀ v, v < s0.num_elems_.length →
          (DpManager.bucket s1 v).Nodup
          ∧ (∀ x, x ∈ DpManager.bucket s1 v ↔ x ∈ DpManager.idsOf cs v)
          ∧ DpManager.num_elems s1 v = some (((DpManager.bucket s1 v).length : Nat) : Int)
          ∧ ∀ i, i < (DpManager.bucket s1 v).length →
              DpManager.at_ s1 v (i : Int) = (DpManager.bucket s1 v)[i]? := by
  obtain ⟨s1, hrun, hI1, _, _, _, _, hI6⟩ :=
    addInv_prefix s0 cap cs hzero hempty hlay hvalid hsame hsum hcap cs [] (by simp)
  refine ⟨s1, hrun, ?_, ?_⟩
  · intro c hc
    obtain ⟨_, hcv, _⟩ := hvalid c hc
    obtain ⟨_, _, hnd, hm⟩ := hI6 c.1 hcv
    exact List.count_eq_one_of_mem hnd ((hm _).2 (mem_idsOf.2 ⟨c, hc, rfl, rfl⟩))
  · intro v hv
    obtain ⟨hn, hc, hnd, hm⟩ := hI6 v hv
    refine ⟨hnd, hm, hn, ?_⟩
    intro i hi
    obtain ⟨hl1, hl2, _⟩ := hlay
    have hvh : v < s0.var_heads_.length := by rw [hl1]; exact hv
    have hh0 : s0.var_heads_[v]? = some s0.var_heads_[v] := List.getElem?_eq_getElem hvh
    obtain ⟨h0, _, h31⟩ := hl2 v _ hh0
    have hh : s1.var_heads_[v]? = some s0.var_heads_[v] := by rw [hI1]; exact hh0
    exact at_eq_bucket s1 v (DpManager.bucket s1 v).length _ hn hh h0 (by omega) i hi

/-- Capacity function of the sample layout. -/
theorem sample_layout :
    DpManager.Layout DpManager.sample (fun v => if v = 1 then 2 else if v = 2 then 1 else 0) := by
  refine ⟨rfl, ?_, ?_⟩
  · intro v h hv
    match v, hv with
    | 0, hv => cases hv; decide
    | 1, hv => cases hv; decide
    | 2, hv => cases hv; decide
    | n + 3, hv => simp [DpManager.sample] at hv
  · intro v w hv hw hne h1 h2
    match v, w, h1, h2 with
    | 0, 0, _, _ => exact absurd rfl hne
    | 0, 1, h1, h2 => cases h1; cases h2; decide
    | 0, 2, h1, h2 => cases h1; cases h2; decide
    | 1, 0, h1, h2 => cases h1; cases h2; decide
    | 1, 1, _, _ => exact absurd rfl hne
    | 1, 2, h1, h2 => cases h1; cases h2; decide
    | 2, 0, h1, h2 => cases h1; cases h2; decide
    | 2, 1, h1, h2 => cases h1; cases h2; decide
    | 2, 2, _, _ => exact absurd rfl hne
    | n + 3, _, h1, _ => simp [DpManager.sample] at h1
    | 0, n + 3, _, h2 => simp [DpManager.sample] at h2
    | 1, n + 3, _, h2 => simp [DpManager.sample] at h2
    | 2, n + 3, _, h2 => simp [DpManager.sample] at h2

/-- Instance of C18: node 0 is passed twice and node 2 once with variable 1,
node 1 once with variable 2; bucket 1 holds the nodes 0 and 2, bucket 2 holds
node 1. -/
theorem bucketed_once_witness :
    ∃ s1, DpManager.runAdds DpManager.sample [(1, 0, 1), (2, 1, 1), (1, 0, 2), (1, 2, 1)]
        = some s1
      ∧ DpManager.bucket s1 1 = [0, 2] ∧ DpManager.bucket s1 2 = [1]
      ∧ (DpManager.bucket s1 1).count 0 = 1
      ∧ DpManager.at_ s1 1 0 = some 0 ∧ DpManager.at_ s1 1 1 = some 2
      ∧ DpManager.num_elems s1 1 = some 2 := by
  obtain ⟨s1, h1, _⟩ := bucketed_once DpManager.sample
    (fun v => if v = 1 then 2 else if v = 2 then 1 else 0)
    [(1, 0, 1), (2, 1, 1), (1, 0, 2), (1, 2, 1)]
    (by decide) (by decide) sample_layout (by decide) (by decide) (by decide) (by decide)
  refine ⟨s1, h1, ?_⟩
  have h2 : DpManager.runAdds DpManager.sample [(1, 0, 1), (2, 1, 1), (1, 0, 2), (1, 2, 1)]
      = some { DpManager.sample with
          table_elems_ := [0, 2, 1], num_elems_ := [0, 2, 1], diff_counter_ := [3, 1, 1],
          lower_varorder_pq_ := [2, 1] } := by decide
  rw [h2] at h1
  cases h1
  decide

/-- C18 as worded fails. Two calls for node 0 with delta 0 leave its counter
at 0, so the second call appends the node again; so do a call with delta
2^32 - 1 followed by one with delta 1, whose sum wraps to 0. In both runs
node 0 occurs twice in bucket 1. -/
theorem bucketed_once_fails :
    (∀ c ∈ DpManager.sample.diff_counter_, c = 0)
    ∧ (∀ n ∈ DpManager.sample.num_elems_, n = 0)
    ∧ (DpManager.runAdds DpManager.sample [(1, 0, 0), (1, 0, 0)]).map
        (fun s => (DpManager.bucket s 1, DpManager.num_elems s 1)) = some ([0, 0], some 2)
    ∧ (DpManager.runAdds DpManager.sample [(1, 0, 4294967295), (1, 0, 1)]).map
        (fun s => (DpManager.bucket s 1, DpManager.num_elems s 1)) = some ([0, 0], some 2) := by
  decide

/-! ## C21: a downward trace decodes to an increasing option -/

/-- Variables of the cells a trace refers to, when they increase from one
trace word to the next, increase along every pair of trace words. -/
theorem trace_vars_pairwise (table_ : List Node) (trace : List Nat)
    (hinc : List.Chain' (fun a b => ∃ x y, table_[a >>> 1]? = some x
      ∧ table_[b >>> 1]? = some y ∧ x.var < y.var) trace) :
    List.Pairwise (fun a b => (table_.getD (a / 2) (Node.mk3 0 0 0)).var
      < (table_.getD (b / 2) (Node.mk3 0 0 0)).var) trace := by
  have hstep : List.Chain' (fun a b => (table_.getD (a / 2) (Node.mk3 0 0 0)).var
      < (table_.getD (b / 2) (Node.mk3 0 0 0)).var) trace := by
    refine List.Chain'.imp ?_ hinc
    rintro a b ⟨x, y, hx, hy, hlt⟩
    have ha : a >>> 1 = a / 2 := by simp [Nat.shiftRight_eq_div_pow]
    have hb : b >>> 1 = b / 2 := by simp [Nat.shiftRight_eq_div_pow]
    rw [ha] at hx
    rw [hb] at hy
    simp only [List.getD_eq_getElem?_getD, hx, hy, Option.getD_some]
    exact hlt
  have htrans : IsTrans Nat (fun a b => (table_.getD (a / 2) (Node.mk3 0 0 0)).var
      < (table_.getD (b / 2) (Node.mk3 0 0 0)).var) :=
    ⟨fun _ _ _ h1 h2 => lt_trans h1 h2⟩
  exact List.chain'_iff_pairwise.1 hstep

/-- C21. For every node table and every trace whose words refer to cells of
the table with strictly increasing `var` from each word to the next,
`trace2choice` produces a strictly increasing list, hence sorted and free of
duplicates, whose length is the number of trace words with the HI bit set. -/
theorem trace2choice_increasing (table_ : List Node) (trace : List Nat) (choice : List Nat)
    (hcell : ∀ w ∈ trace, w >>> 1 < table_.length)
    (hinc : List.Chain' (fun a b => ∃ x y, table_[a >>> 1]? = some x
      ∧ table_[b >>> 1]? = some y ∧ x.var < y.var) trace) :
    ∃ out, ZddWithLinks.trace2choice table_ trace choice = some out
      ∧ List.Sorted (fun a b => a < b) out
      ∧ List.Sorted (fun a b => a ≤ b) out
      ∧ out.Nodup
      ∧ out.length = trace.countP (fun w => (w &&& 1) != 0) := by
  have hcell2 : ∀ w ∈ trace, w / 2 < table_.length := by
    intro w hw
    have := hcell w hw
    simpa [Nat.shiftRight_eq_div_pow] using this
  have hf := trace2choice_fold table_ trace hcell2 []
  have hpw := trace_vars_pairwise table_ trace hinc
  have hsorted : List.Pairwise (fun a b => a < b)
      ((trace.filter (fun w => w % 2 = 1)).map
        (fun w => (table_.getD (w / 2) (Node.mk3 0 0 0)).var)) := by
    rw [List.pairwise_map]
    exact hpw.sublist (List.filter_sublist _)
  refine ⟨_, by simpa [ZddWithLinks.trace2choice, ZddWithLinks.vector_clear] using hf,
    hsorted, hsorted.imp (fun h => le_of_lt h), hsorted.imp (fun h => ne_of_lt h), ?_⟩
  rw [List.length_map, List.countP_eq_length_filter]
  congr 1
  apply List.filter_congr
  intro w _
  by_cases hb : w % 2 = 1
  · simp [Nat.and_one_is_mod, hb]
  · have : w % 2 = 0 := by omega
    simp [Nat.and_one_is_mod, this]

/-- Instance of C21 on `sampleTable`: the trace goes through the cells 2, 1, 0
of variables 1, 2, 3 and takes the HI edge of the first and the last. -/
theorem trace2choice_increasing_witness :
    ∃ out, ZddWithLinks.trace2choice sampleTable [5, 2, 1] [7, 7] = some out
      ∧ out = [1, 3]
      ∧ List.Sorted (fun a b => a < b) out
      ∧ out.length = 2 := by
  obtain ⟨out, h1, h2, _, _, h5⟩ := trace2choice_increasing sampleTable [5, 2, 1] [7, 7]
    (by decide) (by
      refine List.Chain'.cons ⟨_, _, rfl, rfl, by decide⟩ ?_
      refine List.Chain'.cons ⟨_, _, rfl, rfl, by decide⟩ ?_
      exact List.chain'_singleton _)
  have h0 : ZddWithLinks.trace2choice sampleTable [5, 2, 1] [7, 7] = some [1, 3] := by decide
  rw [h0] at h1
  cases h1
  exact ⟨_, h0, rfl, h2, rfl⟩

/-! ## C22, C23: well-formedness of the hidden-node log -/

theorem wellFormed_cons (X : List (Int × HideType)) (c : Int) (rest : List Int) :
    HiddenNodeStack.WellFormed ⟨X, c :: rest⟩
      ↔ c ≤ (X.length : Int) ∧ List.Sorted (fun a b => b ≤ a) (c :: rest) :=
  Iff.rfl

theorem push_kind_eq (s : HiddenNodeStack) (v : Int) (k : HideType) :
    HiddenNodeStack.push_kind s v k = ⟨s.node_stack_ ++ [(v, k)], s.stack_start_positions_⟩ := by
  cases k <;> rfl

/-- The `2 ^ 31`-entry section over a variable size: it is well formed, and
`push_checkpoint()` on it stores the narrowed size. -/
theorem wellFormed_replicate (m : Nat) (e : Int × HideType) :
    HiddenNodeStack.WellFormed ⟨List.replicate m e, [0]⟩
    ∧ HiddenNodeStack.NonnegOffsets ⟨List.replicate m e, [0]⟩
    ∧ HiddenNodeStack.push_checkpoint ⟨List.replicate m e, [0]⟩
        = ⟨List.replicate m e, [toInt32 (m : Int), 0]⟩ := by
  refine ⟨?_, ?_, ?_⟩
  · rw [wellFormed_cons, List.length_replicate]
    exact ⟨by omega, List.sorted_singleton _⟩
  · intro c hc
    simp only [List.mem_singleton] at hc
    subst hc
    norm_num
  · simp [HiddenNodeStack.push_checkpoint]

/-- A checkpoint stack whose top offset is below the one beneath is not well
formed. -/
theorem not_wellFormed_of_lt (X : List (Int × HideType)) (c b : Int) (rest : List Int)
    (h : c < b) : ¬ HiddenNodeStack.WellFormed ⟨X, c :: b :: rest⟩ := by
  rw [wellFormed_cons]
  rintro ⟨_, hs⟩
  have := (List.sorted_cons.1 hs).1 b (List.mem_cons_self _ _)
  omega

/-- With a negative top offset the predicate as worded can hold on a log
without entries, where `is_empty()` is false and `pop()` has no defined
result: the offsets have to be non-negative for `pop()` to keep it. -/
theorem wellFormed_negative_offset :
    HiddenNodeStack.WellFormed ⟨[], [-5]⟩
    ∧ HiddenNodeStack.is_empty ⟨[], [-5]⟩ = some false
    ∧ HiddenNodeStack.pop ⟨[], [-5]⟩ = none := by
  decide

/-- C22 as stated fails for `push_checkpoint()`: the section of `2 ^ 31`
entries starting at offset 0 is well formed; `push_checkpoint()` stores the
size narrowed to `int32_t`, which is negative and lies below the offset
beneath it, so the offsets are no longer non-decreasing, and
`reverse_current_stack()` has no defined result. -/
theorem wellFormed_push_checkpoint_fails :
    HiddenNodeStack.WellFormed HiddenNodeStack.hugeSection
    ∧ HiddenNodeStack.NonnegOffsets HiddenNodeStack.hugeSection
    ∧ (HiddenNodeStack.push_checkpoint HiddenNodeStack.hugeSection).stack_start_positions_
        = [-(2 ^ 31), 0]
    ∧ ¬ HiddenNodeStack.WellFormed
          (HiddenNodeStack.push_checkpoint HiddenNodeStack.hugeSection)
    ∧ HiddenNodeStack.reverse_current_stack
          (HiddenNodeStack.push_checkpoint HiddenNodeStack.hugeSection) = none := by
  obtain ⟨h1, h2, h3⟩ := wellFormed_replicate (2 ^ 31) ((0 : Int), HideType.UpperZero)
  rw [toInt32_two_pow_31] at h3
  unfold HiddenNodeStack.hugeSection
  refine ⟨h1, h2, ?_, ?_, ?_⟩
  · rw [h3]
  · rw [h3]
    exact not_wellFormed_of_lt _ _ _ _ (by norm_num)
  · rw [h3]
    have hneg : ¬ ((0 : Int) ≤ -(2 ^ 31) ∧ -(2 ^ 31)
        ≤ ((List.replicate (2 ^ 31) ((0 : Int), HideType.UpperZero)).length : Int)) := by
      rintro ⟨h, _⟩
      norm_num at h
    simp only [HiddenNodeStack.reverse_current_stack]
    rw [if_neg hneg]

/-- C22 (amended). The predicate "the checkpoint offsets are non-negative
`int32_t` values, non-decreasing from bottom to top of the checkpoint stack,
and the top offset is at most the number of entries" holds after
`push_checkpoint()` on the empty log; on every state that satisfies it each
`push_*` keeps it, `push_checkpoint()` keeps it when the log has fewer than
`2 ^ 31` entries, `reverse_current_stack()` is defined and keeps it, `pop()`
is defined and keeps it whenever `is_empty()` is false, and
`pop_checkpoint()` is defined and keeps it whenever `is_empty()` is true and
another checkpoint remains beneath. -/
theorem wellFormed_invariant (s : HiddenNodeStack)
    (hwf : HiddenNodeStack.WellFormed s) (hnn : HiddenNodeStack.NonnegOffsets s) :
    (HiddenNodeStack.WellFormed (HiddenNodeStack.push_checkpoint HiddenNodeStack.emptyLog)
      ∧ HiddenNodeStack.NonnegOffsets
          (HiddenNodeStack.push_checkpoint HiddenNodeStack.emptyLog))
    ∧ (∀ v k, HiddenNodeStack.WellFormed (HiddenNodeStack.push_kind s v k)
        ∧ HiddenNodeStack.NonnegOffsets (HiddenNodeStack.push_kind s v k))
    ∧ (s.node_stack_.length < 2 ^ 31 →
        HiddenNodeStack.WellFormed (HiddenNodeStack.push_checkpoint s)
        ∧ HiddenNodeStack.NonnegOffsets (HiddenNodeStack.push_checkpoint s))
    ∧ (∃ s1, HiddenNodeStack.reverse_current_stack s = some s1
        ∧ HiddenNodeStack.WellFormed s1 ∧ HiddenNodeStack.NonnegOffsets s1)
    ∧ (HiddenNodeStack.is_empty s = some false →
        ∃ s1, HiddenNodeStack.pop s = some s1
          ∧ HiddenNodeStack.WellFormed s1 ∧ HiddenNodeStack.NonnegOffsets s1)
    ∧ (HiddenNodeStack.is_empty s = some true → s.stack_start_positions_.tail ≠ [] →
        ∃ s1, HiddenNodeStack.pop_checkpoint s = some s1
          ∧ HiddenNodeStack.WellFormed s1 ∧ HiddenNodeStack.NonnegOffsets s1) := by
  obtain ⟨X, st⟩ := s
  cases st with
  | nil => exact absurd hwf (by simp [HiddenNodeStack.WellFormed])
  | cons c rest =>
    rw [wellFormed_cons] at hwf
    obtain ⟨hle, hsorted⟩ := hwf
    obtain ⟨hc0, hc31⟩ := hnn c (List.mem_cons_self _ _)
    have hsz : toSizeT c = c := toSizeT_of_nonneg c hc0 hc31
    refine ⟨⟨by decide, ?_⟩, ?_, ?_, ?_, ?_, ?_⟩
    · intro d hd
      simp only [HiddenNodeStack.push_checkpoint, HiddenNodeStack.emptyLog, List.length_nil,
        List.mem_singleton] at hd
      subst hd
      unfold toInt32
      norm_num
    · intro v k
      rw [push_kind_eq]
      refine ⟨?_, hnn⟩
      rw [wellFormed_cons]
      refine ⟨?_, hsorted⟩
      simp only [List.length_append, List.length_singleton]
      push_cast
      omega
    · intro hlt
      have hpc : HiddenNodeStack.push_checkpoint ⟨X, c :: rest⟩
          = ⟨X, (X.length : Int) :: c :: rest⟩ := by
        simp [HiddenNodeStack.push_checkpoint, toInt32_of_lt _ hlt]
      rw [hpc]
      refine ⟨?_, ?_⟩
      · rw [wellFormed_cons]
        refine ⟨le_refl _, List.sorted_cons.2 ⟨?_, hsorted⟩⟩
        intro b hb
        rcases List.mem_cons.1 hb with rfl | hb
        · exact hle
        · exact le_trans ((List.sorted_cons.1 hsorted).1 b hb) hle
      · intro d hd
        rcases List.mem_cons.1 hd with rfl | hd
        · exact ⟨by omega, by exact_mod_cast hlt⟩
        · exact hnn d hd
    · refine ⟨⟨X.take c.toNat ++ (X.drop c.toNat).reverse, c :: rest⟩, ?_, ?_, hnn⟩
      · simp only [HiddenNodeStack.reverse_current_stack]
        rw [if_pos ⟨hc0, hle⟩]
      · rw [wellFormed_cons]
        refine ⟨?_, hsorted⟩
        have hlen : (X.take c.toNat ++ (X.drop c.toNat).reverse).length = X.length := by
          simp only [List.length_append, List.length_take, List.length_reverse,
            List.length_drop]
          omega
        rw [hlen]
        exact hle
    · intro hemp
      have hne : (X.length : Int) ≠ c := by
        intro heq
        simp only [HiddenNodeStack.is_empty, hsz, heq, decide_True, Option.some.injEq] at hemp
        exact absurd hemp (by decide)
      cases X with
      | nil =>
        exfalso
        simp only [List.length_nil, Nat.cast_zero] at hle hne
        omega
      | cons e Y =>
        refine ⟨⟨(e :: Y).dropLast, c :: rest⟩, rfl, ?_, hnn⟩
        rw [wellFormed_cons]
        refine ⟨?_, hsorted⟩
        simp only [List.length_dropLast, List.length_cons, Nat.add_sub_cancel] at hle hne ⊢
        push_cast at hle hne
        omega
    · intro hemp hrest
      have heq : (X.length : Int) = c := by
        simp only [HiddenNodeStack.is_empty, hsz, Option.some.injEq, decide_eq_true_eq] at hemp
        exact hemp
      cases rest with
      | nil => exact absurd rfl hrest
      | cons b rest2 =>
        refine ⟨⟨X, b :: rest2⟩, ?_, ?_, ?_⟩
        · simp only [HiddenNodeStack.pop_checkpoint, hemp, List.tail_cons]
        · rw [wellFormed_cons]
          have hs := List.sorted_cons.1 hsorted
          exact ⟨le_trans (hs.1 b (List.mem_cons_self _ _)) hle, hs.2⟩
        · intro d hd
          exact hnn d (List.mem_cons_of_mem _ hd)

/-- Instance of C22: inside the second section of a log of two entries, whose
checkpoints are at the offsets 1 and 0, a push, `reverse_current_stack()`
and `pop()` keep the log well formed. -/
theorem wellFormed_invariant_witness :
    HiddenNodeStack.WellFormed
        (HiddenNodeStack.push_kind
          ⟨[(7, HideType.CoverUp), (8, HideType.CoverDown)], [1, 0]⟩ 9 HideType.LowerZero)
    ∧ (∃ s1, HiddenNodeStack.reverse_current_stack
          ⟨[(7, HideType.CoverUp), (8, HideType.CoverDown)], [1, 0]⟩ = some s1
        ∧ HiddenNodeStack.WellFormed s1 ∧ HiddenNodeStack.NonnegOffsets s1)
    ∧ (∃ s1, HiddenNodeStack.pop ⟨[(7, HideType.CoverUp), (8, HideType.CoverDown)], [1, 0]⟩
            = some s1
          ∧ HiddenNodeStack.WellFormed s1 ∧ HiddenNodeStack.NonnegOffsets s1) :=
  have h := wellFormed_invariant ⟨[(7, HideType.CoverUp), (8, HideType.CoverDown)], [1, 0]⟩
    (by decide) (by
      intro c hc
      simp only [List.mem_cons, List.mem_singleton, List.not_mem_nil, or_false] at hc
      rcases hc with rfl | rfl <;> norm_num)
  ⟨(h.2.1 9 HideType.LowerZero).1, h.2.2.2.1, h.2.2.2.2.1 (by decide)⟩

/-- Below its checkpoint the log never reports empty: with fewer entries than
the top offset, `is_empty()` is false, every defined sequence of `pop()` calls
leads to a state where it is false again, and the unwinding loop has no
result whatever the number of iterations. -/
theorem below_checkpoint (c : Int) (rest : List Int) (hc31 : c < 2 ^ 31) :
    ∀ (X : List (Int × HideType)), (X.length : Int) < c →
      HiddenNodeStack.is_empty ⟨X, c :: rest⟩ = some false
      ∧ (∀ n s2, HiddenNodeStack.run ⟨X, c :: rest⟩ (List.replicate n HiddenNodeStack.LogOp.pop)
            = some s2 → HiddenNodeStack.is_empty s2 = some false)
      ∧ (∀ fuel, HiddenNodeStack.unwind fuel ⟨X, c :: rest⟩ = none) := by
  have hemp : ∀ (X : List (Int × HideType)), (X.length : Int) < c →
      HiddenNodeStack.is_empty ⟨X, c :: rest⟩ = some false := by
    intro X hX
    have hsz : toSizeT c = c := toSizeT_of_nonneg c (by omega) hc31
    have hne : ¬ ((X.length : Int) = c) := by omega
    simp only [HiddenNodeStack.is_empty, hsz, hne, decide_False]
  intro X hX
  refine ⟨hemp X hX, ?_, ?_⟩
  · intro n
    induction n generalizing X with
    | zero =>
      intro s2 h
      simp only [List.replicate_zero, HiddenNodeStack.run, Option.some.injEq] at h
      subst h
      exact hemp X hX
    | succ k ih =>
      intro s2 h
      cases X with
      | nil => simp [List.replicate_succ, HiddenNodeStack.run, HiddenNodeStack.pop] at h
      | cons e Y =>
        simp only [List.replicate_succ, HiddenNodeStack.run, HiddenNodeStack.pop] at h
        refine ih (e :: Y).dropLast ?_ s2 h
        simp only [List.length_dropLast, List.length_cons, Nat.add_sub_cancel] at hX ⊢
        push_cast at hX
        omega
  · intro fuel
    induction fuel generalizing X with
    | zero => simp only [HiddenNodeStack.unwind, hemp X hX]
    | succ f ih =>
      cases X with
      | nil => simp [HiddenNodeStack.unwind, hemp [] hX, HiddenNodeStack.top]
      | cons e Y =>
        have hrec := ih (e :: Y).dropLast (by
          simp only [List.length_dropLast, List.length_cons, Nat.add_sub_cancel] at hX ⊢
          push_cast at hX
          omega)
        cases htop : HiddenNodeStack.top ⟨e :: Y, c :: rest⟩ with
        | none => simp only [HiddenNodeStack.unwind, hemp (e :: Y) hX, htop]
        | some a =>
          have hpop : HiddenNodeStack.pop ⟨e :: Y, c :: rest⟩
              = some ⟨(e :: Y).dropLast, c :: rest⟩ := rfl
          simp only [HiddenNodeStack.unwind, hemp (e :: Y) hX, htop, hpop, hrec]

/-- C23. `pop()` is not guarded by the checkpoint: the log with the entries
(7, UpperZero), (8, LowerZero) and the checkpoints 2 (top) and 0 is well
formed, its current section is empty (`is_empty()` is true) while the
enclosing section holds both entries; `pop()` removes the entry (8, LowerZero)
of the enclosing section, after which `is_empty()` is false and is false
after every further sequence of `pop()` calls that has a result, so the loop
that pops until `is_empty()` never reaches its exit condition. -/
theorem pop_unguarded :
    ∃ s s1 : HiddenNodeStack,
      HiddenNodeStack.WellFormed s ∧ HiddenNodeStack.NonnegOffsets s
      ∧ HiddenNodeStack.is_empty s = some true
      ∧ s.stack_start_positions_ = [2, 0]
      ∧ s.node_stack_ = [(7, HideType.UpperZero), (8, HideType.LowerZero)]
      ∧ HiddenNodeStack.top s = some (8, HideType.LowerZero)
      ∧ HiddenNodeStack.pop s = some s1
      ∧ s1.node_stack_ = [(7, HideType.UpperZero)]
      ∧ s1.stack_start_positions_ = s.stack_start_positions_
      ∧ HiddenNodeStack.is_empty s1 = some false
      ∧ (∀ n s2, HiddenNodeStack.run s1 (List.replicate n HiddenNodeStack.LogOp.pop) = some s2 →
          HiddenNodeStack.is_empty s2 = some false)
      ∧ (∃ s2, HiddenNodeStack.run s1 (List.replicate 1 HiddenNodeStack.LogOp.pop) = some s2)
      ∧ (∀ fuel, HiddenNodeStack.unwind fuel s1 = none) := by
  obtain ⟨h1, h2, h3⟩ := below_checkpoint 2 [0] (by norm_num) [(7, HideType.UpperZero)]
    (by norm_num)
  refine ⟨⟨[(7, HideType.UpperZero), (8, HideType.LowerZero)], [2, 0]⟩,
    ⟨[(7, HideType.UpperZero)], [2, 0]⟩, by decide, ?_, by decide, rfl, rfl, rfl, rfl, rfl, rfl,
    h1, h2, ⟨_, rfl⟩, h3⟩
  intro c hc
  simp only [List.mem_cons, List.mem_singleton, List.not_mem_nil, or_false] at hc
  rcases hc with rfl | rfl <;> norm_num

/-! ## C24: stored links keep a legal tag -/

theorem legalTags_set (table_ : List Node) (i : Nat) (node : Node)
    (hlegal : ZddWithLinks.legalTags table_) (hnode : ZddWithLinks.legalNode node) :
    ZddWithLinks.legalTags (table_.set i node) := by
  intro x hx
  rcases List.mem_or_eq_of_mem_set hx with h | h
  · exact hlegal x h
  · rw [h]; exact hnode

/-- C24. If no link field of any cell of the table has both tag bits set,
then `plink_set_prev(p, v)` and `plink_set_next(p, v)`, their two assertions
passing and the cell of `p` existing, return a table with the same property;
a freshly constructed cell has the property; and the link returned by
`plink_get_prev(p)` or `plink_get_next(p)` on such a table passes the tag
assertion of the get or set call that follows it. -/
theorem legal_tags_invariant (table_ : List Node) (p v : Nat)
    (hlegal : ZddWithLinks.legalTags table_)
    (hp : (p &&& 3) ≠ 3) (hv : (v &&& 3) ≠ 3)
    (hcell : ZddWithLinks.plink_node_id p < table_.length) :
    (∃ t1, ZddWithLinks.plink_set_prev table_ p v = some t1 ∧ ZddWithLinks.legalTags t1)
    ∧ (∃ t1, ZddWithLinks.plink_set_next table_ p v = some t1 ∧ ZddWithLinks.legalTags t1)
    ∧ (∀ (var : Nat) (hi lo : Int), ZddWithLinks.legalNode (Node.mk3 var hi lo))
    ∧ (∃ q, ZddWithLinks.plink_get_prev table_ p = some q ∧ (q &&& 3) ≠ 3)
    ∧ (∃ q, ZddWithLinks.plink_get_next table_ p = some q ∧ (q &&& 3) ≠ 3) := by
  have hget : table_[ZddWithLinks.plink_node_id p]? = some table_[ZddWithLinks.plink_node_id p] :=
    List.getElem?_eq_getElem hcell
  have hnode : ZddWithLinks.legalNode table_[ZddWithLinks.plink_node_id p] :=
    hlegal _ (List.getElem_mem hcell)
  obtain ⟨h1, h2, h3, h4, h5, h6⟩ := hnode
  refine ⟨?_, ?_, ?_, ?_, ?_⟩
  · simp only [ZddWithLinks.plink_set_prev, if_neg hp, if_neg hv, hget]
    by_cases hhi : ZddWithLinks.plink_is_hi p = true
    · rw [if_pos hhi]
      exact ⟨_, rfl, legalTags_set _ _ _ hlegal ⟨h1, h2, h3, hv, h5, h6⟩⟩
    · rw [if_neg hhi]
      by_cases hterm : ZddWithLinks.plink_is_term p = true
      · rw [if_pos hterm]
        exact ⟨_, rfl, legalTags_set _ _ _ hlegal ⟨h1, hv, h3, h4, h5, h6⟩⟩
      · rw [if_neg hterm]
        exact ⟨_, rfl, legalTags_set _ _ _ hlegal ⟨h1, h2, h3, h4, h5, hv⟩⟩
  · simp only [ZddWithLinks.plink_set_next, if_neg hp, if_neg hv, hget]
    by_cases hhi : ZddWithLinks.plink_is_hi p = true
    · rw [if_pos hhi]
      exact ⟨_, rfl, legalTags_set _ _ _ hlegal ⟨h1, h2, hv, h4, h5, h6⟩⟩
    · rw [if_neg hhi]
      by_cases hterm : ZddWithLinks.plink_is_term p = true
      · rw [if_pos hterm]
        exact ⟨_, rfl, legalTags_set _ _ _ hlegal ⟨hv, h2, h3, h4, h5, h6⟩⟩
      · rw [if_neg hterm]
        exact ⟨_, rfl, legalTags_set _ _ _ hlegal ⟨h1, h2, h3, h4, hv, h6⟩⟩
  · intro var hi lo
    have h0 : ZddWithLinks.legalLink 0 := by decide
    exact ⟨h0, h0, h0, h0, h0, h0⟩
  · simp only [ZddWithLinks.plink_get_prev, if_neg hp, hget]
    by_cases hhi : ZddWithLinks.plink_is_hi p = true
    · rw [if_pos hhi]
      exact ⟨_, rfl, h4⟩
    · rw [if_neg hhi]
      by_cases hterm : ZddWithLinks.plink_is_term p = true
      · rw [if_pos hterm]
        exact ⟨_, rfl, h2⟩
      · rw [if_neg hterm]
        exact ⟨_, rfl, h6⟩
  · simp only [ZddWithLinks.plink_get_next, if_neg hp, hget]
    by_cases hhi : ZddWithLinks.plink_is_hi p = true
    · rw [if_pos hhi]
      exact ⟨_, rfl, h3⟩
    · rw [if_neg hhi]
      by_cases hterm : ZddWithLinks.plink_is_term p = true
      · rw [if_pos hterm]
        exact ⟨_, rfl, h1⟩
      · rw [if_neg hterm]
        exact ⟨_, rfl, h5⟩

/-- Instance of C24 on `sampleTable`: the link 5 is the HI edge of cell 1;
storing the link 8 as its prev keeps every tag legal, and the links read
through it are legal. -/
theorem legal_tags_invariant_witness :
    ZddWithLinks.legalTags sampleTable
    ∧ (∃ t1, ZddWithLinks.plink_set_prev sampleTable 5 8 = some t1
        ∧ ZddWithLinks.legalTags t1)
    ∧ (∃ q, ZddWithLinks.plink_get_next sampleTable 5 = some q ∧ (q &&& 3) ≠ 3) :=
  have h := legal_tags_invariant sampleTable 5 8 (by decide) (by decide) (by decide) (by decide)
  ⟨by decide, h.1, h.2.2.2.2⟩

/-! ## C25: scheduling invariant of the downward pass -/

